import Mathlib

/-!
The buffer export pipeline of gdb-imagewatch.

A shallow embedding of `src/buffer_exporter.cpp` (`export_bitmap`, `export_binary` and the
helpers they use) together with theorems about it.

The same source is modelled twice.

The ideal model (the definitions directly in the namespace) is used for the laws that do not
depend on the arithmetic of the machine: which byte goes where, the defaults, the dispatch,
and the laws whose statement takes the arithmetic exactly.

* `float` arithmetic is taken exactly: a `float` is a rational number, so no rounding,
  infinities or NaNs occur.
* `int` is an unbounded integer.
* Memory reached through a pointer is a total function from the offset to the content of the
  cell; `buffer->buffer` is the byte-addressed memory of the debuggee buffer.
* What the language leaves to the platform (the value denoted by the bytes of an object, the
  content of an uninitialised local array) is collected in `Target`; the theorems hold for
  every `Target`.

The machine model (the namespace `Machine`) is used for the laws about the values computed,
the sizes and the indices: `int` is a 32-bit integer that wraps, `float` is IEEE 754
binary32 with rounding, infinities and NaN, and a call may end in an exception or in
undefined behaviour instead of returning.
-/

namespace GdbImagewatch

/-! ## Element kinds (the template parameter `T`) -/

/-- The five types `export_bitmap` and `export_binary` are instantiated with. -/
inductive ElemType where
  | uint8_t
  | uint16_t
  | int16_t
  | int32_t
  | float
  deriving DecidableEq, Repr

/-- The value of `sizeof(T)`. -/
def ElemType.sizeof : ElemType → Nat
  | .uint8_t => 1
  | .uint16_t => 2
  | .int16_t => 2
  | .int32_t => 4
  | .float => 4

/-- The value of `std::numeric_limits<T>::max()` for the integer kinds; the pipeline never asks
for it at `float` (both templates are specialised there), the entry is `FLT_MAX`. -/
def numeric_limits_max : ElemType → ℚ
  | .uint8_t => 255
  | .uint16_t => 65535
  | .int16_t => 32767
  | .int32_t => 2147483647
  | .float => 340282346638528859811704183484516925440

/-- Source: `get_multiplier<T>()`, with its specialisation for `float`. -/
def get_multiplier : ElemType → ℚ
  | .float => 255
  | T => 255 / numeric_limits_max T

/-- Source: `get_max_intensity<T>()`, with its specialisation for `float`. -/
def get_max_intensity : ElemType → ℚ
  | .float => 1
  | T => numeric_limits_max T

/-! ## The platform -/

/-- What the source leaves to the platform. -/
structure Target where
  /-- The result of `static_cast<float>(v)` for the object `v` of type `T` whose bytes are
  given (lowest address first). -/
  value_of : ElemType → List Nat → ℚ
  /-- The content of `uint8_t pixel_layout[4]` before anything is stored in it. -/
  uninit_pixel_layout : Nat → Nat
  /-- The content of `uint8_t unformatted_pixel[4]` before anything is stored in it. -/
  uninit_unformatted_pixel : Nat → Nat

/-! ## The `Buffer` component -/

/-- The members of `Buffer` (declared in `buffer.hpp`) that the exporter reads. -/
structure Buffer where
  /-- Member `uint8_t* buffer`: the byte at each offset from the pointer. -/
  buffer : Int → Nat
  /-- Member `channels`. -/
  channels : Int
  /-- Member `type`, the numeric value of the `BufferType` enumerator. -/
  type : Int
  /-- Member `step`. -/
  step : Int
  /-- Member `buffer_width_f`. -/
  buffer_width_f : ℚ
  /-- Member `buffer_height_f`. -/
  buffer_height_f : ℚ
  /-- The array returned by `auto_buffer_contrast_brightness()`. -/
  auto_buffer_contrast_brightness : Nat → ℚ
  /-- The characters returned by `get_pixel_layout()`. -/
  get_pixel_layout : List Char

/-! ## Casts and small helpers -/

/-- The conversion `static_cast<int>(f)` of a `float`: truncation toward zero. -/
def static_cast_int (f : ℚ) : Int :=
  if 0 ≤ f then ⌊f⌋ else ⌈f⌉

/-- The conversion `static_cast<uint8_t>(f)` of a `float`: truncation toward zero; a value
outside the range of `uint8_t` is reduced modulo 256. -/
def static_cast_uint8 (f : ℚ) : Nat :=
  (static_cast_int f % 256).toNat

/-- Modelled from the spec: `clamp` is not defined in the given sources; the spec says the
value is clamped to the interval between the two bounds. -/
def clamp (v lo hi : ℚ) : ℚ :=
  if v < lo then lo else if hi < v then hi else v

/-- The store `a[i] = v` into an array held as a function. -/
def store {α : Type} (a : Nat → α) (i : Nat) (v : α) : Nat → α :=
  fun j => if j = i then v else a j

/-- The loop `for(; c < hi; ++c) s = body(c, s)`, entered with the given `c`. -/
def for_from {σ : Type} (c hi : Nat) (body : Nat → σ → σ) (s : σ) : σ :=
  (List.range' c (hi - c)).foldl (fun s i => body i s) s

/-- The bytes of element `i` of the array of `T` that starts at the pointer. -/
def elem_bytes (T : ElemType) (mem : Int → Nat) (i : Int) : List Nat :=
  (List.range T.sizeof).map (fun (k : Nat) => mem (i * T.sizeof + k))

/-- The initialiser of `default_channel_vals`. -/
def default_channel_vals (c : Nat) : Nat :=
  [0, 0, 0, 255].getD c 0

/-! ## `export_bitmap` -/

/-- The `switch` in the parsing loop of `export_bitmap`: the value stored in `pixel_layout[c]`
for a character, with `keep` for a character that matches no `case` (nothing is stored). -/
def layout_case (ch : Char) (keep : Nat) : Nat :=
  if ch = 'r' then 0
  else if ch = 'g' then 1
  else if ch = 'b' then 2
  else if ch = 'a' then 3
  else keep

/-- The parsing loop of `export_bitmap`: `pixel_layout[c]` is set from the `c`-th character;
a character outside `r`, `g`, `b`, `a` stores nothing. -/
def parse_pixel_layout (tg : Target) (buffer : Buffer) : Nat → Nat :=
  for_from 0 4 (fun c pixel_layout =>
    store pixel_layout c
      (layout_case (buffer.get_pixel_layout.getD c (Char.ofNat 0)) (pixel_layout c)))
    tg.uninit_pixel_layout

/-- The expression assigned to `unformatted_pixel[c]` in the contrast normalisation loop. -/
def normalized_byte (T : ElemType) (bc_comp : Nat → ℚ) (c : Nat) (in_val : ℚ) : Nat :=
  static_cast_uint8
    (clamp ((in_val * bc_comp c + bc_comp (4 + c) * get_max_intensity T) * get_multiplier T)
      0 255)

/-- The variables of `export_bitmap` that its pixel loop changes. -/
structure LoopState where
  /-- The content of `processed_buffer`. -/
  processed_buffer : Nat → Nat
  /-- The offset of `out_ptr` from `processed_buffer.data()`. -/
  out_ptr : Nat
  /-- The offset of `in_ptr` from `buffer->buffer`, in elements of `T`. -/
  in_ptr : Int
  /-- The content of `unformatted_pixel`. -/
  unformatted_pixel : Nat → Nat

/-- The body of the loop over `x` in `export_bitmap`. -/
def pixel_body (tg : Target) (T : ElemType) (buffer : Buffer) (pixel_layout : Nat → Nat)
    (x : Int) (s : LoopState) : LoopState :=
  let col_offset := x * buffer.channels
  let bc_comp := buffer.auto_buffer_contrast_brightness
  -- Perform contrast normalization
  let c := buffer.channels.toNat
  let u := for_from 0 c (fun c u =>
    let in_val := tg.value_of T (elem_bytes T buffer.buffer (s.in_ptr + (col_offset + c)))
    store u c (normalized_byte T bc_comp c in_val)) s.unformatted_pixel
  -- Grayscale: Repeat first channel into G and B
  let (u, c) :=
    if buffer.channels = 1 then
      (for_from c 3 (fun c u => store u c (u 0)) u, max c 3)
    else (u, c)
  -- The remaining, non-filled channels will be set to a default value
  let u := for_from c 4 (fun c u => store u c (default_channel_vals c)) u
  -- Reorganize pixel layout according to user provided format
  let p := for_from 0 4 (fun c p => store p (s.out_ptr + pixel_layout c) (u c))
    s.processed_buffer
  { processed_buffer := p, out_ptr := s.out_ptr + 4, in_ptr := s.in_ptr,
    unformatted_pixel := u }

/-- The first `n` iterations of the loop over `x`. -/
def row_upto (tg : Target) (T : ElemType) (buffer : Buffer) (pixel_layout : Nat → Nat)
    (n : Nat) (s : LoopState) : LoopState :=
  for_from 0 n (fun x s => pixel_body tg T buffer pixel_layout x s) s

/-- The body of the loop over `y` in `export_bitmap`: the loop over `x`, then
`in_ptr += input_stride`. -/
def row_body (tg : Target) (T : ElemType) (buffer : Buffer) (pixel_layout : Nat → Nat)
    (s : LoopState) : LoopState :=
  let width_i := static_cast_int buffer.buffer_width_f
  let input_stride := buffer.channels * buffer.step
  let s := row_upto tg T buffer pixel_layout width_i.toNat s
  { s with in_ptr := s.in_ptr + input_stride }

/-- The state of `export_bitmap` when its pixel loop is entered. -/
def initial_state (tg : Target) : LoopState :=
  { processed_buffer := fun _ => 0, out_ptr := 0, in_ptr := 0,
    unformatted_pixel := tg.uninit_unformatted_pixel }

/-- The first `n` iterations of the loop over `y`. -/
def rows_upto (tg : Target) (T : ElemType) (buffer : Buffer) (n : Nat) : LoopState :=
  for_from 0 n (fun _ s => row_body tg T buffer (parse_pixel_layout tg buffer) s)
    (initial_state tg)

/-- The arguments of the `QImage` constructor call in `export_bitmap`: the image that is
saved. -/
structure QImage where
  /-- The `size()` bytes of `processed_buffer`. -/
  data : List Nat
  /-- Argument `width`. -/
  width : Int
  /-- Argument `height`. -/
  height : Int
  /-- Argument `bytesPerLine`. -/
  bytes_per_line : Int
  deriving DecidableEq, Repr

/-- Source: `export_bitmap<T>`; the result is the image handed to `save`. -/
def export_bitmap (tg : Target) (T : ElemType) (buffer : Buffer) : QImage :=
  let width_i := static_cast_int buffer.buffer_width_f
  let height_i := static_cast_int buffer.buffer_height_f
  let s := rows_upto tg T buffer height_i.toNat
  let bytes_per_line := width_i * 4
  { data := (List.range (4 * width_i * height_i).toNat).map s.processed_buffer,
    width := width_i, height := height_i, bytes_per_line := bytes_per_line }

/-- The state of `export_bitmap` right after the iteration for the pixel `(x, y)`: its
`unformatted_pixel` holds the bytes computed for that pixel before they are reordered. -/
def state_after_pixel (tg : Target) (T : ElemType) (buffer : Buffer) (x y : Nat) : LoopState :=
  pixel_body tg T buffer (parse_pixel_layout tg buffer) x
    (row_upto tg T buffer (parse_pixel_layout tg buffer) x (rows_upto tg T buffer y))

/-! ## `export_binary` -/

/-- Source: `get_type_descriptor<T>()`. -/
def get_type_descriptor : ElemType → String
  | .uint8_t => "uint8"
  | .uint16_t => "uint16"
  | .int16_t => "int16"
  | .int32_t => "int32"
  | .float => "float"

/-- The bytes written by `fprintf(fhandle, "%s\n", s)`. -/
def fprintf_line (s : String) : List Nat :=
  s.toList.map Char.toNat ++ [10]

/-- The bytes of an `int` object, as `fwrite(&v, sizeof(int), 1, fhandle)` writes them: four
bytes, two's complement, lowest byte first. -/
def int_bytes (v : Int) : List Nat :=
  let u := (v % 4294967296).toNat
  [u % 256, u / 256 % 256, u / 65536 % 256, u / 16777216 % 256]

/-- The bytes written by `fwrite(ptr, size, count, fhandle)`, where `ptr` is the byte offset of
the pointer in the memory. -/
def fwrite (mem : Int → Nat) (ptr : Int) (size : Nat) (count : Int) : List Nat :=
  (List.range (size * count.toNat)).map (fun (k : Nat) => mem (ptr + k))

/-- Source: `export_binary<T>`. The argument `fopen_ok` says whether `fopen(fname, "wb")`
returned a handle; the result is the content of the file written, `none` when no file is
written. The function itself returns nothing to its caller. -/
def export_binary (T : ElemType) (fopen_ok : Bool) (buffer : Buffer) : Option (List Nat) :=
  let width_i := static_cast_int buffer.buffer_width_f
  let height_i := static_cast_int buffer.buffer_height_f
  if fopen_ok then
    let file := fprintf_line (get_type_descriptor T)
    let file := file ++ int_bytes height_i
    let file := file ++ int_bytes width_i
    let file := file ++ int_bytes buffer.channels
    let file := for_from 0 height_i.toNat (fun y file =>
      file ++ fwrite buffer.buffer ((y * buffer.step * buffer.channels) * T.sizeof) T.sizeof
        (width_i * buffer.channels)) file
    some file
  else
    none

/-! ## The statements of the specification -/

/-- Specification: the maximum intensity of a kind, the largest representable value of an
integer kind and 1 for the floating kind. -/
def spec_max_intensity : ElemType → ℚ
  | .uint8_t => 2 ^ 8 - 1
  | .uint16_t => 2 ^ 16 - 1
  | .int16_t => 2 ^ 15 - 1
  | .int32_t => 2 ^ 31 - 1
  | .float => 1

/-- Specification: the value handed to the 8-bit truncation,
`clamp((v*scale + bias*maxI) * (255/maxI), 0, 255)`. -/
def spec_clamped (T : ElemType) (scale bias v : ℚ) : ℚ :=
  max 0 (min 255 ((v * scale + bias * spec_max_intensity T) * (255 / spec_max_intensity T)))

/-- Specification: the computed byte of a sample, the integer part of `spec_clamped`. -/
def spec_byte (T : ElemType) (scale bias v : ℚ) : Nat :=
  ⌊spec_clamped T scale bias v⌋.toNat

/-- The source sample at an element index, as a number. -/
def sample (tg : Target) (T : ElemType) (buffer : Buffer) (i : Int) : ℚ :=
  tg.value_of T (elem_bytes T buffer.buffer i)

/-- The index a layout letter stands for: `r` is 0, `g` is 1, `b` is 2, `a` is 3. -/
def letter_index (ch : Char) : Nat :=
  if ch = 'r' then 0 else if ch = 'g' then 1 else if ch = 'b' then 2 else 3

/-- A valid layout: the four letters `r`, `g`, `b`, `a` in some order. -/
def valid_layout (l : List Char) : Prop :=
  l.Perm ['r', 'g', 'b', 'a']

instance (l : List Char) : Decidable (valid_layout l) := by
  unfold valid_layout; infer_instance

/-- Specification: the element indices whose samples the raw file holds, in file order: for
each row in order, `width * channel_count` consecutive indices from the start of the row. -/
def spec_written_indices (height width channels : Nat) (step : Int) : List Int :=
  (List.range height).flatMap (fun y =>
    (List.range (width * channels)).map (fun (i : Nat) => (y : Int) * step * channels + i))

/-- Specification: the raw matrix file, the kind token and a newline, then height, width and
channel count as 4-byte integers, then the samples of `spec_written_indices` unchanged. -/
def spec_raw_file (T : ElemType) (token : String) (mem : Int → Nat)
    (height width channels : Nat) (step : Int) : List Nat :=
  token.toList.map Char.toNat ++ [10] ++ int_bytes height ++ int_bytes width
    ++ int_bytes channels
    ++ (spec_written_indices height width channels step).flatMap (elem_bytes T mem)

/-- Specification: the token of each kind. -/
def spec_token : ElemType → String
  | .uint8_t => "uint8"
  | .uint16_t => "uint16"
  | .int16_t => "int16"
  | .int32_t => "int32"
  | .float => "float"

/-! ## Reading a raw matrix file back -/

/-- The `int` whose four bytes are given, lowest byte first. -/
def read_int (bs : List Nat) : Int :=
  let u := bs.getD 0 0 + 256 * bs.getD 1 0 + 65536 * bs.getD 2 0 + 16777216 * bs.getD 3 0
  if u < 2147483648 then (u : Int) else (u : Int) - 4294967296

/-- Specification: the byte width of the elements announced by a token. -/
def token_width (token : List Nat) : Option Nat :=
  if token = "uint8".toList.map Char.toNat then some 1
  else if token = "uint16".toList.map Char.toNat then some 2
  else if token = "int16".toList.map Char.toNat then some 2
  else if token = "int32".toList.map Char.toNat then some 4
  else if token = "float".toList.map Char.toNat then some 4
  else none

/-- A decoded raw matrix file. -/
structure RawMatrix where
  /-- The kind token. -/
  token : List Nat
  /-- The first header integer. -/
  height : Int
  /-- The second header integer. -/
  width : Int
  /-- The third header integer. -/
  channels : Int
  /-- The elements, each as its bytes, in file order. -/
  samples : List (List Nat)
  deriving DecidableEq, Repr

/-- Specification: the reader of a raw matrix file. The token runs up to the first newline;
three 4-byte integers follow; then `height * width * channels` elements of the width the token
announces. A file with an unknown token or too few bytes is rejected. -/
def read_raw_matrix (file : List Nat) : Option RawMatrix :=
  let token := file.takeWhile (fun b => b != 10)
  let rest := (file.dropWhile (fun b => b != 10)).drop 1
  match token_width token with
  | none => none
  | some size =>
    let height := read_int (rest.take 4)
    let width := read_int ((rest.drop 4).take 4)
    let channels := read_int ((rest.drop 8).take 4)
    let n := (height * width * channels).toNat
    let body := rest.drop 12
    if body.length < n * size then none
    else some
      { token := token, height := height, width := width, channels := channels,
        samples := (List.range n).map (fun i => (body.drop (i * size)).take size) }

/-! ## A concrete platform -/

/-- The unsigned number with the given bytes, lowest byte first. -/
def le_unsigned : List Nat → Nat
  | [] => 0
  | b :: bs => b + 256 * le_unsigned bs

/-- The number denoted by the 32 bits of an IEEE 754 binary32 object. Exponent field 255
(infinities and NaN) denotes no number; the value given here is 0. -/
def binary32_value (u : Nat) : ℚ :=
  let sign : ℚ := if u / 2147483648 % 2 = 1 then -1 else 1
  let e := u / 8388608 % 256
  let m := u % 8388608
  if e = 0 then sign * m / 2 ^ 149
  else if e = 255 then 0
  else sign * (8388608 + m) * 2 ^ e / 2 ^ 150

/-- A little-endian, two's complement, IEEE 754 platform; uninitialised arrays hold zeros. -/
def le_target : Target where
  value_of := fun T bs =>
    let u := le_unsigned bs
    match T with
    | .uint8_t => u
    | .uint16_t => u
    | .int16_t => if u < 32768 then (u : ℚ) else (u : ℚ) - 65536
    | .int32_t => if u < 2147483648 then (u : ℚ) else (u : ℚ) - 4294967296
    | .float => binary32_value u
  uninit_pixel_layout := fun _ => 0
  uninit_unformatted_pixel := fun _ => 0

/-- The memory that holds the given bytes from offset 0 on, and zeros elsewhere. -/
def mem_of_list (l : List Nat) : Int → Nat :=
  fun i => if 0 ≤ i then l.getD i.toNat 0 else 0

/-! ## Concrete buffers -/

/-- The contrast array with scale 1 and bias 0 on every channel. -/
def identity_contrast (i : Nat) : ℚ :=
  if i < 4 then 1 else 0

/-- Scenario A: a 2x1 single-channel `uint8` buffer with the values 10 and 200, identity
contrast, layout `rgba`. -/
def scenario_a : Buffer where
  buffer := mem_of_list [10, 200]
  channels := 1
  type := 0
  step := 2
  buffer_width_f := 2
  buffer_height_f := 1
  auto_buffer_contrast_brightness := identity_contrast
  get_pixel_layout := ['r', 'g', 'b', 'a']

/-- Scenario B: a 1x1 three-channel `float` buffer with the values 0.5, 0.25 and 0.75 (as
binary32 objects, lowest byte first), identity contrast, layout `bgra`. -/
def scenario_b : Buffer where
  buffer := mem_of_list [0, 0, 0, 63, 0, 0, 128, 62, 0, 0, 64, 63]
  channels := 3
  type := 4
  step := 1
  buffer_width_f := 1
  buffer_height_f := 1
  auto_buffer_contrast_brightness := identity_contrast
  get_pixel_layout := ['b', 'g', 'r', 'a']

/-- A 1x1 three-channel `uint8` buffer with the values 10, 20 and 30, identity contrast,
layout `gbra`. -/
def gbra_buffer : Buffer where
  buffer := mem_of_list [10, 20, 30]
  channels := 3
  type := 0
  step := 1
  buffer_width_f := 1
  buffer_height_f := 1
  auto_buffer_contrast_brightness := identity_contrast
  get_pixel_layout := ['g', 'b', 'r', 'a']

/-- Scenario C: a 3x2 two-channel `int16` buffer with a row stride of 4 pixels, so that
each row of 8 elements ends in 2 padding elements. The samples are 1 to 12 in order, the
padding elements are -1 (bytes 255, 255). -/
def scenario_c : Buffer where
  buffer := mem_of_list
    [1, 0, 2, 0, 3, 0, 4, 0, 5, 0, 6, 0, 255, 255, 255, 255,
     7, 0, 8, 0, 9, 0, 10, 0, 11, 0, 12, 0, 255, 255, 255, 255]
  channels := 2
  type := 2
  step := 4
  buffer_width_f := 3
  buffer_height_f := 2
  auto_buffer_contrast_brightness := identity_contrast
  get_pixel_layout := ['r', 'g', 'b', 'a']

/-! ## `BufferExporter::export_buffer` -/

/-- The numeric values of the enumerators of `Buffer::BufferType`. The enumeration is declared
in `buffer.hpp`, which is not among the given sources, so the values are a parameter; as
enumerators used as labels of one `switch` they are pairwise different. -/
structure BufferTypeValues where
  /-- Enumerator `UnsignedByte`. -/
  UnsignedByte : Int
  /-- Enumerator `UnsignedShort`. -/
  UnsignedShort : Int
  /-- Enumerator `Short`. -/
  Short : Int
  /-- Enumerator `Int32`. -/
  Int32 : Int
  /-- Enumerator `Float32`. -/
  Float32 : Int
  /-- Enumerator `Float64`. -/
  Float64 : Int
  /-- No two enumerators have the same value. -/
  distinct : [UnsignedByte, UnsignedShort, Short, Int32, Float32, Float64].Nodup

/-- The enumeration `BufferExporter::OutputType`. -/
inductive OutputType where
  | Bitmap
  | OctaveMatrix
  deriving DecidableEq, Repr

/-- What a call of `export_buffer` leaves behind. -/
inductive Written where
  /-- No exporter was called. -/
  | nothing
  /-- The call `output_image.save(fname, "png")` of `export_bitmap` with this image. -/
  | png (fname : String) (image : QImage)
  /-- The run of `export_binary` on this file name; the content of the file written, `none`
  when `fopen` gave no handle and no file is written. -/
  | raw (fname : String) (content : Option (List Nat))
  deriving DecidableEq, Repr

/-- Specification: the error kinds of the export (section 7). -/
inductive ExportError where
  | InvalidDimensions
  | UnsupportedElementKind
  | MalformedPixelLayout
  | DestinationUnwritable
  | EncodingFailure
  deriving DecidableEq, Repr

/-- Source: `BufferExporter::export_buffer`. The function has return type `void` and throws
nothing, so what the caller gets is always `ok`; the value carried is what was written. The
`switch` statements have no `default`. -/
def export_buffer (tg : Target) (bt : BufferTypeValues) (fopen_ok : Bool) (buffer : Buffer)
    (path : String) (type : OutputType) : Except ExportError Written :=
  if type = OutputType.Bitmap then
    if buffer.type = bt.UnsignedByte then
      .ok (.png path (export_bitmap tg .uint8_t buffer))
    else if buffer.type = bt.UnsignedShort then
      .ok (.png path (export_bitmap tg .uint16_t buffer))
    else if buffer.type = bt.Short then
      .ok (.png path (export_bitmap tg .int16_t buffer))
    else if buffer.type = bt.Int32 then
      .ok (.png path (export_bitmap tg .int32_t buffer))
    else if buffer.type = bt.Float32 ∨ buffer.type = bt.Float64 then
      .ok (.png path (export_bitmap tg .float buffer))
    else
      .ok .nothing
  else
    -- Matlab/Octave matrix (load with the giw_load.m function)
    if buffer.type = bt.UnsignedByte then
      .ok (.raw path (export_binary .uint8_t fopen_ok buffer))
    else if buffer.type = bt.UnsignedShort then
      .ok (.raw path (export_binary .uint16_t fopen_ok buffer))
    else if buffer.type = bt.Short then
      .ok (.raw path (export_binary .int16_t fopen_ok buffer))
    else if buffer.type = bt.Int32 then
      .ok (.raw path (export_binary .int32_t fopen_ok buffer))
    else if buffer.type = bt.Float32 ∨ buffer.type = bt.Float64 then
      .ok (.raw path (export_binary .float fopen_ok buffer))
    else
      .ok .nothing

/-- An assignment of enumerator values: 0 to 5 in the order of the `switch` labels. -/
def sample_buffer_types : BufferTypeValues where
  UnsignedByte := 0
  UnsignedShort := 1
  Short := 2
  Int32 := 3
  Float32 := 4
  Float64 := 5
  distinct := by decide

/-- What makes a kind value supported: it is one of the six enumerators. -/
def supported_type (bt : BufferTypeValues) (t : Int) : Prop :=
  t = bt.UnsignedByte ∨ t = bt.UnsignedShort ∨ t = bt.Short ∨ t = bt.Int32 ∨ t = bt.Float32
    ∨ t = bt.Float64

/-- The labels of the two `switch` statements of `export_buffer`: the type the exporter is
instantiated with for a kind value, `none` when no label matches. -/
def dispatched_type (bt : BufferTypeValues) (t : Int) : Option ElemType :=
  if t = bt.UnsignedByte then some .uint8_t
  else if t = bt.UnsignedShort then some .uint16_t
  else if t = bt.Short then some .int16_t
  else if t = bt.Int32 then some .int32_t
  else if t = bt.Float32 ∨ t = bt.Float64 then some .float
  else none

/-! ## The element indices read and written -/

/-- The element indices `in_ptr[col_offset + c]` read in the iteration of `export_bitmap` for
the pixel `(x, y)`, as offsets from `buffer->buffer` in elements of `T`. -/
def pixel_reads (tg : Target) (T : ElemType) (buffer : Buffer) (x y : Nat) : List Int :=
  let s := row_upto tg T buffer (parse_pixel_layout tg buffer) x (rows_upto tg T buffer y)
  (List.range buffer.channels.toNat).map
    (fun (c : Nat) => s.in_ptr + ((x : Int) * buffer.channels + c))

/-- The element indices read by the `fwrite` calls of the row loop of `export_binary`, as
offsets from `buffer->buffer` in elements of `T`. -/
def export_binary_reads (buffer : Buffer) : List Int :=
  let width_i := static_cast_int buffer.buffer_width_f
  let height_i := static_cast_int buffer.buffer_height_f
  (List.range height_i.toNat).flatMap (fun (y : Nat) =>
    (List.range (width_i * buffer.channels).toNat).map
      (fun (i : Nat) => (y : Int) * buffer.step * buffer.channels + i))

/-! ## `MainWindow::loop` and `Stage::initialize` -/

/-- The members of `BufferRequestMessage` that describe the buffer. -/
structure BufferRequestMessage where
  /-- Member `width_i`. -/
  width_i : Int
  /-- Member `height_i`. -/
  height_i : Int
  /-- Member `channels`. -/
  channels : Int
  /-- Member `type`. -/
  type : Int
  /-- Member `step`. -/
  step : Int
  /-- Member `pixel_layout`. -/
  pixel_layout : List Char

/-- The second argument of the call of `makeFloatBufferFromDouble` in `MainWindow::loop`: the
number of `float` elements of the buffer built from the doubles of a `Float64` request. -/
def float_buffer_length (request : BufferRequestMessage) : Int :=
  request.width_i * request.height_i * request.channels

/-- Source: `Stage::initialize` and `Stage::buffer_update`, the members of the `Buffer`
component they set from the request; `srcBuffer` is the memory handed over, and the contrast
array of the component is given. -/
def stage_buffer (srcBuffer : Int → Nat) (bc_comp : Nat → ℚ) (request : BufferRequestMessage) :
    Buffer where
  buffer := srcBuffer
  channels := request.channels
  type := request.type
  buffer_width_f := (request.width_i : ℚ)
  buffer_height_f := (request.height_i : ℚ)
  step := request.step
  auto_buffer_contrast_brightness := bc_comp
  get_pixel_layout := request.pixel_layout

/-! ## `MainWindow::update_available_variables` -/

/-- The call `PyList_GetItem(list, i)`: the item, or nothing when `i` is not an index of the
list. -/
def PyList_GetItem {α : Type} (list : List α) (i : Nat) : Option α :=
  list[i]?

/-- The indices handed to `PyList_GetItem(symbol_metadata, ...)` when the request is built,
in the order of the source: `py_buffer`, `width_i`, `height_i`, `channels`, `type`, `step`,
`pixel_layout`. -/
def metadata_indices_read : List Nat :=
  [0, 1, 2, 3, 4, 5, 6]

/-- The body of the loop of `update_available_variables` for one symbol whose request is
built (a symbol of the previous session or one that is held): `none` when
`assert(count == 6)` fails, otherwise the results of the seven lookups. -/
def read_symbol_metadata {α : Type} (symbol_metadata : List α) : Option (List (Option α)) :=
  let count := symbol_metadata.length
  if count = 6 then
    some (metadata_indices_read.map (fun i => PyList_GetItem symbol_metadata i))
  else
    none

/-! ## `Camera::set_initial_zoom` -/

/-- The members of `Camera` that `set_initial_zoom` reads and writes. The member
`zoom_power_` only ever holds whole numbers. -/
structure Camera where
  /-- Member `zoom_factor`. -/
  zoom_factor : ℚ
  /-- Member `canvas_width_`. -/
  canvas_width_ : ℚ
  /-- Member `canvas_height_`. -/
  canvas_height_ : ℚ
  /-- Member `zoom_power_`. -/
  zoom_power_ : Int
  /-- Member `zoom`. -/
  zoom : ℚ

/-- The `while` loop of the branch "Zoom in", entered with the given `zoom_power_` and
`new_zoom`; the result is `zoom_power_` at the exit. At most `fuel` tests of the condition are
made, `none` when that is not enough. -/
def zoom_in_loop (c : Camera) (buf_w buf_h : ℚ) : Nat → Int → ℚ → Option Int
  | 0, _, _ => none
  | fuel + 1, zoom_power_, new_zoom =>
    if c.canvas_width_ > new_zoom * buf_w ∧ c.canvas_height_ > new_zoom * buf_h then
      zoom_in_loop c buf_w buf_h fuel (zoom_power_ + 1) (c.zoom_factor ^ (zoom_power_ + 1))
    else
      some zoom_power_

/-- The `while` loop of the branch "Zoom out", entered with the given `zoom_power_` and
`new_zoom`; the result is `zoom_power_` at the exit. At most `fuel` tests of the condition are
made, `none` when that is not enough. -/
def zoom_out_loop (c : Camera) (buf_w buf_h : ℚ) : Nat → Int → ℚ → Option Int
  | 0, _, _ => none
  | fuel + 1, zoom_power_, new_zoom =>
    if c.canvas_width_ < new_zoom * buf_w ∨ c.canvas_height_ < new_zoom * buf_h then
      zoom_out_loop c buf_w buf_h fuel (zoom_power_ - 1) (c.zoom_factor ^ (zoom_power_ - 1))
    else
      some zoom_power_

/-- Source: `Camera::set_initial_zoom`, with `fuel` bounding the number of tests of each
loop; the result is the camera after the call, `none` when the fuel runs out. -/
def set_initial_zoom (fuel : Nat) (c : Camera) (buff : Buffer) : Option Camera :=
  let buf_w := buff.buffer_width_f
  let buf_h := buff.buffer_height_f
  let zoom_power_ : Int := 0
  if c.canvas_width_ > buf_w ∧ c.canvas_height_ > buf_h then
    -- Zoom in
    let zoom_power_ := zoom_power_ + 1
    let new_zoom := c.zoom_factor ^ zoom_power_
    match zoom_in_loop c buf_w buf_h fuel zoom_power_ new_zoom with
    | none => none
    | some zoom_power_ =>
      let zoom_power_ := zoom_power_ - 1
      some { c with zoom_power_ := zoom_power_, zoom := c.zoom_factor ^ zoom_power_ }
  else if c.canvas_width_ < buf_w ∨ c.canvas_height_ < buf_h then
    -- Zoom out
    let zoom_power_ := zoom_power_ - 1
    let new_zoom := c.zoom_factor ^ zoom_power_
    match zoom_out_loop c buf_w buf_h fuel zoom_power_ new_zoom with
    | none => none
    | some zoom_power_ =>
      some { c with zoom_power_ := zoom_power_, zoom := c.zoom_factor ^ zoom_power_ }
  else
    some { c with zoom_power_ := zoom_power_, zoom := c.zoom_factor ^ zoom_power_ }

/-! ## More concrete inputs -/

/-- The buffer of scenario C with a kind value that is none of the six of
`sample_buffer_types`. -/
def unsupported_buffer : Buffer :=
  { scenario_c with type := 7 }

/-- A `Float64` request for a 1x2 single-channel buffer with a row stride of 2 pixels. -/
def padded_double_request : BufferRequestMessage where
  width_i := 1
  height_i := 2
  channels := 1
  type := sample_buffer_types.Float64
  step := 2
  pixel_layout := ['r', 'g', 'b', 'a']

/-- A camera with zoom factor 2 on a 100x100 canvas. -/
def sample_camera : Camera where
  zoom_factor := 2
  canvas_width_ := 100
  canvas_height_ := 100
  zoom_power_ := 0
  zoom := 1

/-- A 10x10 buffer, for the camera. -/
def small_buffer : Buffer :=
  { scenario_a with buffer_width_f := 10, buffer_height_f := 10 }

/-! ## The machine model

The definitions above take `float` and `int` as ideal numbers; that is enough for the laws
that only move bytes around. The definitions of this section follow the same source with the
arithmetic of the machine:

* `int` is a 32-bit two's complement integer, and an operation on `int` wraps;
* `float` is IEEE 754 binary32 with round to nearest, ties to even, infinities and NaN; each
  operation is rounded on its own (no excess precision, no fused multiply-add); the sign of
  zero is not tracked, since no operation of the exporter depends on it;
* a call ends by returning, by the exception of the `vector` constructor, or in undefined
  behaviour: a store outside an array, or a width or height that has no integer part in the
  range of `int`. The conversion of a NaN to `uint8_t` has no defined result either; its only
  effect is the byte stored, which is left to the platform (`Target.cast_undefined`). -/

namespace Machine

/-- The value kept by a 32-bit `int` for the exact result `x` of an operation. -/
def int32 (x : Int) : Int :=
  (x + 2147483648) % 4294967296 - 2147483648

/-- A value of type `float`. A finite value is held as the rational number it denotes. -/
inductive F32 where
  | nan
  | inf (negative : Bool)
  | fin (q : ℚ)
  deriving DecidableEq, Repr

/-- The nearest integer, the even one of the two at a tie. -/
def round_half_even (x : ℚ) : Int :=
  let f := ⌊x⌋
  let r := x - f
  if r < 1 / 2 then f else if 1 / 2 < r then f + 1 else if f % 2 = 0 then f else f + 1

/-- The number of halvings that bring `n` below 2, with `fuel` bounding the count. -/
def log2_steps : Nat → Nat → Nat
  | 0, _ => 0
  | fuel + 1, n => if n < 2 then 0 else log2_steps fuel (n / 2) + 1

/-- The exponent `e` with `2 ^ e ≤ a < 2 ^ (e + 1)`, for positive `a`. -/
def floor_log2 (a : ℚ) : Int :=
  let d : Int := (log2_steps a.num.natAbs a.num.natAbs : Int) - (log2_steps a.den a.den : Int)
  if (2 : ℚ) ^ d ≤ a then d else d - 1

/-- The binary32 value nearest to the real number `q`: 24 significant bits, least exponent
-126 (below it the spacing stays `2 ^ (-149)`), ties to even, and infinity when the rounded
magnitude reaches `2 ^ 128`. -/
def round32 (q : ℚ) : F32 :=
  if q = 0 then .fin 0
  else
    let a := |q|
    let k := max (floor_log2 a) (-126) - 23
    let r := (round_half_even (a / 2 ^ k) : ℚ) * 2 ^ k
    if (2 : ℚ) ^ (128 : Int) ≤ r then .inf (decide (q < 0))
    else .fin (if q < 0 then -r else r)

/-- The product `a * b` of two `float` values. -/
def F32.mul : F32 → F32 → F32
  | .fin p, .fin q => round32 (p * q)
  | .fin p, .inf t => if p = 0 then .nan else .inf (xor (decide (p < 0)) t)
  | .inf s, .fin q => if q = 0 then .nan else .inf (xor s (decide (q < 0)))
  | .inf s, .inf t => .inf (xor s t)
  | _, _ => .nan

/-- The sum `a + b` of two `float` values. -/
def F32.add : F32 → F32 → F32
  | .fin p, .fin q => round32 (p + q)
  | .fin _, .inf t => .inf t
  | .inf s, .fin _ => .inf s
  | .inf s, .inf t => if s = t then .inf s else .nan
  | _, _ => .nan

/-- The quotient `a / b` of two `float` values; a zero divisor counts as positive. -/
def F32.div : F32 → F32 → F32
  | .fin p, .fin q =>
    if q = 0 then (if p = 0 then .nan else .inf (decide (p < 0))) else round32 (p / q)
  | .fin _, .inf _ => .fin 0
  | .inf s, .fin q => .inf (xor s (decide (q < 0)))
  | _, _ => .nan

/-- The comparison `a < b` of two `float` values; it is false when one of them is NaN. -/
def F32.lt : F32 → F32 → Bool
  | .fin p, .fin q => decide (p < q)
  | .fin _, .inf t => !t
  | .inf s, .fin _ => s
  | .inf s, .inf t => s && !t
  | _, _ => false

/-- The conversion `static_cast<int>(f)` of a `float`: truncation toward zero; `none` when
the value has no truncation in the range of `int` (the behaviour is then undefined). -/
def static_cast_int32 : F32 → Option Int
  | .fin q =>
    let t := static_cast_int q
    if -2147483648 ≤ t ∧ t < 2147483648 then some t else none
  | _ => none

/-- What the source leaves to the platform. -/
structure Target where
  /-- The result of `static_cast<float>(v)` for the object `v` of type `T` whose bytes are
  given (lowest address first). -/
  value_of : ElemType → List Nat → F32
  /-- The content of `uint8_t pixel_layout[4]` before anything is stored in it. -/
  uninit_pixel_layout : Nat → Nat
  /-- The content of `uint8_t unformatted_pixel[4]` before anything is stored in it. -/
  uninit_unformatted_pixel : Nat → Nat
  /-- The byte that `static_cast<uint8_t>(f)` yields for a `float` with no truncation in the
  range of `uint8_t` (NaN among them), where the language defines no result. -/
  cast_undefined : Nat

/-- The members of `Buffer` (declared in `buffer.hpp`) that the exporter reads. -/
structure Buffer where
  /-- Member `uint8_t* buffer`: the byte at each offset from the pointer. -/
  buffer : Int → Nat
  /-- Member `channels`. -/
  channels : Int
  /-- Member `type`, the numeric value of the `BufferType` enumerator. -/
  type : Int
  /-- Member `step`. -/
  step : Int
  /-- Member `buffer_width_f`. -/
  buffer_width_f : F32
  /-- Member `buffer_height_f`. -/
  buffer_height_f : F32
  /-- The array returned by `auto_buffer_contrast_brightness()`. -/
  auto_buffer_contrast_brightness : Nat → F32
  /-- The characters returned by `get_pixel_layout()`. -/
  get_pixel_layout : List Char

/-- How a call ends. -/
inductive Run (α : Type) where
  /-- The call returns; the value is what it leaves behind. -/
  | returned (a : α)
  /-- The constructor of `std::vector` throws `std::length_error`, which nothing catches. -/
  | length_error
  /-- The call runs into undefined behaviour. -/
  | undefined_behaviour
  deriving DecidableEq, Repr

/-- Source: `get_multiplier<T>()`, with its specialisation for `float`. -/
def get_multiplier : ElemType → F32
  | .float => .fin 255
  | T => F32.div (.fin 255) (round32 (numeric_limits_max T))

/-- Source: `get_max_intensity<T>()`, with its specialisation for `float`, as the value of
`const float maxIntensity` that it initialises. -/
def get_max_intensity : ElemType → F32
  | .float => .fin 1
  | T => round32 (numeric_limits_max T)

/-- Modelled from the spec: `clamp` is not defined in the given sources; the spec says the
value is clamped to the interval between the two bounds. The comparisons are those of
`float`, so a NaN, which is neither below the lower nor above the upper bound, is returned
as it is. -/
def clamp (v lo hi : F32) : F32 :=
  if F32.lt v lo then lo else if F32.lt hi v then hi else v

/-- The conversion `static_cast<uint8_t>(f)` of a `float`: truncation toward zero when the
truncated value is in the range of `uint8_t`. -/
def static_cast_uint8 (tg : Target) : F32 → Nat
  | .fin q => if -1 < q ∧ q < 256 then (static_cast_int q).toNat else tg.cast_undefined % 256
  | _ => tg.cast_undefined % 256

/-- The argument of the cast in the contrast normalisation loop: the value handed to the
8-bit truncation. -/
def clamped_value (T : ElemType) (bc_comp : Nat → F32) (c : Nat) (in_val : F32) : F32 :=
  clamp
    (F32.mul (F32.add (F32.mul in_val (bc_comp c)) (F32.mul (bc_comp (4 + c))
      (get_max_intensity T))) (get_multiplier T))
    (.fin 0) (.fin 255)

/-- The expression assigned to `unformatted_pixel[c]` in the contrast normalisation loop. -/
def normalized_byte (tg : Target) (T : ElemType) (bc_comp : Nat → F32) (c : Nat)
    (in_val : F32) : Nat :=
  static_cast_uint8 tg (clamped_value T bc_comp c in_val)

/-- The parsing loop of `export_bitmap`; a cell of the `uint8_t` array holds a byte. -/
def parse_pixel_layout (tg : Target) (buffer : Buffer) : Nat → Nat :=
  for_from 0 4 (fun c pixel_layout =>
    store pixel_layout c
      (layout_case (buffer.get_pixel_layout.getD c (Char.ofNat 0)) (pixel_layout c)))
    (fun i => tg.uninit_pixel_layout i % 256)

/-- The variables of `export_bitmap` that its pixel loop changes, and whether the run has
left the defined behaviour. -/
structure LoopState where
  /-- The content of `processed_buffer`. -/
  processed_buffer : Nat → Nat
  /-- The offset of `out_ptr` from `processed_buffer.data()`. -/
  out_ptr : Nat
  /-- The offset of `in_ptr` from `buffer->buffer`, in elements of `T`. -/
  in_ptr : Int
  /-- The content of `unformatted_pixel`. -/
  unformatted_pixel : Nat → Nat
  /-- Whether a store has gone outside `processed_buffer`, `unformatted_pixel` or the array
  of contrast coefficients. -/
  fault : Bool

/-- The body of the loop over `x` in `export_bitmap`; `size` is the number of elements of
`processed_buffer`. -/
def pixel_body (tg : Target) (T : ElemType) (buffer : Buffer) (size : Nat)
    (pixel_layout : Nat → Nat) (x : Int) (s : LoopState) : LoopState :=
  let col_offset := int32 (x * buffer.channels)
  let bc_comp := buffer.auto_buffer_contrast_brightness
  -- Perform contrast normalization
  let c := buffer.channels.toNat
  let u := for_from 0 c (fun c u =>
    let in_val :=
      tg.value_of T (elem_bytes T buffer.buffer (s.in_ptr + int32 (col_offset + c)))
    store u c (normalized_byte tg T bc_comp c in_val)) s.unformatted_pixel
  -- Grayscale: Repeat first channel into G and B
  let (u, c) :=
    if buffer.channels = 1 then
      (for_from c 3 (fun c u => store u c (u 0)) u, max c 3)
    else (u, c)
  -- The remaining, non-filled channels will be set to a default value
  let u := for_from c 4 (fun c u => store u c (default_channel_vals c)) u
  -- Reorganize pixel layout according to user provided format
  let p := for_from 0 4 (fun c p => store p (s.out_ptr + pixel_layout c) (u c))
    s.processed_buffer
  let fault := s.fault || decide (4 < buffer.channels)
    || (List.range 4).any (fun c => decide (size ≤ s.out_ptr + pixel_layout c))
  { processed_buffer := p, out_ptr := s.out_ptr + 4, in_ptr := s.in_ptr,
    unformatted_pixel := u, fault := fault }

/-- The first `n` iterations of the loop over `x`. -/
def row_upto (tg : Target) (T : ElemType) (buffer : Buffer) (size : Nat)
    (pixel_layout : Nat → Nat) (n : Nat) (s : LoopState) : LoopState :=
  for_from 0 n (fun x s => pixel_body tg T buffer size pixel_layout x s) s

/-- The body of the loop over `y` in `export_bitmap`: the loop over `x`, then
`in_ptr += input_stride`. -/
def row_body (tg : Target) (T : ElemType) (buffer : Buffer) (width_i : Int) (size : Nat)
    (pixel_layout : Nat → Nat) (s : LoopState) : LoopState :=
  let input_stride := int32 (buffer.channels * buffer.step)
  let s := row_upto tg T buffer size pixel_layout width_i.toNat s
  { s with in_ptr := s.in_ptr + input_stride }

/-- The state of `export_bitmap` when its pixel loop is entered. -/
def initial_state (tg : Target) : LoopState :=
  { processed_buffer := fun _ => 0, out_ptr := 0, in_ptr := 0,
    unformatted_pixel := fun i => tg.uninit_unformatted_pixel i % 256, fault := false }

/-- The first `n` iterations of the loop over `y`. -/
def rows_upto (tg : Target) (T : ElemType) (buffer : Buffer) (width_i : Int) (size : Nat)
    (n : Nat) : LoopState :=
  for_from 0 n
    (fun _ s => row_body tg T buffer width_i size (parse_pixel_layout tg buffer) s)
    (initial_state tg)

/-- The value of `4 * width_i * height_i`, the argument of the `vector` constructor. -/
def plane_size (width_i height_i : Int) : Int :=
  int32 (int32 (4 * width_i) * height_i)

/-- Source: `export_bitmap<T>`; when the call returns, the result is the image handed to
`save`. -/
def export_bitmap (tg : Target) (T : ElemType) (buffer : Buffer) : Run QImage :=
  match static_cast_int32 buffer.buffer_width_f, static_cast_int32 buffer.buffer_height_f with
  | some width_i, some height_i =>
    let size := plane_size width_i height_i
    if size < 0 then .length_error
    else
      let s := rows_upto tg T buffer width_i size.toNat height_i.toNat
      let bytes_per_line := int32 (width_i * 4)
      if s.fault then .undefined_behaviour
      else
        .returned
          { data := (List.range size.toNat).map s.processed_buffer,
            width := width_i, height := height_i, bytes_per_line := bytes_per_line }
  | _, _ => .undefined_behaviour

/-- The state of `export_bitmap` right after the iteration for the pixel `(x, y)`, for the
given `width_i` and size of `processed_buffer`. -/
def state_after_pixel (tg : Target) (T : ElemType) (buffer : Buffer) (width_i : Int)
    (size : Nat) (x y : Nat) : LoopState :=
  pixel_body tg T buffer size (parse_pixel_layout tg buffer) x
    (row_upto tg T buffer size (parse_pixel_layout tg buffer) x
      (rows_upto tg T buffer width_i size y))

/-- The element indices `in_ptr[col_offset + c]` read in the iteration of `export_bitmap` for
the pixel `(x, y)`, as offsets from `buffer->buffer` in elements of `T`. -/
def pixel_reads (tg : Target) (T : ElemType) (buffer : Buffer) (width_i : Int) (size : Nat)
    (x y : Nat) : List Int :=
  let s := row_upto tg T buffer size (parse_pixel_layout tg buffer) x
    (rows_upto tg T buffer width_i size y)
  (List.range buffer.channels.toNat).map
    (fun (c : Nat) => s.in_ptr + int32 (int32 ((x : Int) * buffer.channels) + c))

/-- The indices `out_ptr[pixel_layout[c]]` written in the iteration of `export_bitmap` for the
pixel `(x, y)`, as offsets from `processed_buffer.data()`. -/
def pixel_writes (tg : Target) (T : ElemType) (buffer : Buffer) (width_i : Int) (size : Nat)
    (x y : Nat) : List Nat :=
  let s := row_upto tg T buffer size (parse_pixel_layout tg buffer) x
    (rows_upto tg T buffer width_i size y)
  (List.range 4).map (fun (c : Nat) => s.out_ptr + parse_pixel_layout tg buffer c)

/-- The offset `y * buffer->step * buffer->channels` of row `y` in `export_binary`. -/
def row_offset (buffer : Buffer) (y : Int) : Int :=
  int32 (int32 (y * buffer.step) * buffer.channels)

/-- Source: `export_binary<T>`. The argument `fopen_ok` says whether `fopen(fname, "wb")`
returned a handle; when the call returns, the result is the content of the file written,
`none` when no file is written. A negative element count handed to `fwrite` becomes a count of
more than `2 ^ 63` elements. -/
def export_binary (T : ElemType) (fopen_ok : Bool) (buffer : Buffer) :
    Run (Option (List Nat)) :=
  match static_cast_int32 buffer.buffer_width_f, static_cast_int32 buffer.buffer_height_f with
  | some width_i, some height_i =>
    if fopen_ok then
      let count := int32 (width_i * buffer.channels)
      if count < 0 ∧ 0 < height_i then .undefined_behaviour
      else
        let file := fprintf_line (get_type_descriptor T)
        let file := file ++ int_bytes height_i
        let file := file ++ int_bytes width_i
        let file := file ++ int_bytes buffer.channels
        let file := for_from 0 height_i.toNat (fun y file =>
          file ++ fwrite buffer.buffer (row_offset buffer y * T.sizeof) T.sizeof count) file
        .returned (some file)
    else
      .returned none
  | _, _ => .undefined_behaviour

/-- The element indices read by the `fwrite` calls of the row loop of `export_binary`, as
offsets from `buffer->buffer` in elements of `T`. -/
def export_binary_reads (buffer : Buffer) (width_i height_i : Int) : List Int :=
  (List.range height_i.toNat).flatMap (fun (y : Nat) =>
    (List.range (int32 (width_i * buffer.channels)).toNat).map
      (fun (i : Nat) => row_offset buffer y + i))

/-- The effect of an exporter call on the result of `export_buffer`. -/
def Run.map {α β : Type} (f : α → β) : Run α → Run β
  | .returned a => .returned (f a)
  | .length_error => .length_error
  | .undefined_behaviour => .undefined_behaviour

/-- Source: `BufferExporter::export_buffer`. The function returns nothing; when the call
returns, the result is what was written. The `switch` statements have no `default`. -/
def export_buffer (tg : Target) (bt : BufferTypeValues) (fopen_ok : Bool) (buffer : Buffer)
    (path : String) (type : OutputType) : Run Written :=
  if type = OutputType.Bitmap then
    if buffer.type = bt.UnsignedByte then
      (export_bitmap tg .uint8_t buffer).map (Written.png path)
    else if buffer.type = bt.UnsignedShort then
      (export_bitmap tg .uint16_t buffer).map (Written.png path)
    else if buffer.type = bt.Short then
      (export_bitmap tg .int16_t buffer).map (Written.png path)
    else if buffer.type = bt.Int32 then
      (export_bitmap tg .int32_t buffer).map (Written.png path)
    else if buffer.type = bt.Float32 ∨ buffer.type = bt.Float64 then
      (export_bitmap tg .float buffer).map (Written.png path)
    else
      .returned .nothing
  else
    -- Matlab/Octave matrix (load with the giw_load.m function)
    if buffer.type = bt.UnsignedByte then
      (export_binary .uint8_t fopen_ok buffer).map (Written.raw path)
    else if buffer.type = bt.UnsignedShort then
      (export_binary .uint16_t fopen_ok buffer).map (Written.raw path)
    else if buffer.type = bt.Short then
      (export_binary .int16_t fopen_ok buffer).map (Written.raw path)
    else if buffer.type = bt.Int32 then
      (export_binary .int32_t fopen_ok buffer).map (Written.raw path)
    else if buffer.type = bt.Float32 ∨ buffer.type = bt.Float64 then
      (export_binary .float fopen_ok buffer).map (Written.raw path)
    else
      .returned .nothing

/-! ## Concrete inputs of the machine model -/

/-- The `float` denoted by the 32 bits of an IEEE 754 binary32 object. -/
def binary32_decode (u : Nat) : F32 :=
  let e := u / 8388608 % 256
  let m := u % 8388608
  if e = 255 then (if m = 0 then .inf (decide (u / 2147483648 % 2 = 1)) else .nan)
  else .fin (binary32_value u)

/-- A little-endian, two's complement, IEEE 754 platform; uninitialised arrays hold zeros,
and a cast without a defined result gives 0. -/
def le_target : Target where
  value_of := fun T bs =>
    let u := le_unsigned bs
    match T with
    | .uint8_t => .fin u
    | .uint16_t => .fin u
    | .int16_t => .fin (if u < 32768 then (u : ℚ) else (u : ℚ) - 65536)
    | .int32_t => round32 (if u < 2147483648 then (u : ℚ) else (u : ℚ) - 4294967296)
    | .float => binary32_decode u
  uninit_pixel_layout := fun _ => 0
  uninit_unformatted_pixel := fun _ => 0
  cast_undefined := 0

/-- The platform `le_target` with the byte 200 in every cell of the uninitialised arrays. -/
def stale_target : Target :=
  { le_target with uninit_pixel_layout := fun _ => 200 }

/-- The contrast array with scale 1 and bias 0 on every channel. -/
def identity_contrast (i : Nat) : F32 :=
  if i < 4 then .fin 1 else .fin 0

/-- A buffer of the ideal model as a buffer of the machine model. -/
def of_ideal (b : GdbImagewatch.Buffer) : Buffer where
  buffer := b.buffer
  channels := b.channels
  type := b.type
  step := b.step
  buffer_width_f := .fin b.buffer_width_f
  buffer_height_f := .fin b.buffer_height_f
  auto_buffer_contrast_brightness := fun i => .fin (b.auto_buffer_contrast_brightness i)
  get_pixel_layout := b.get_pixel_layout

/-- A 1x1 single-channel `uint8` buffer with the sample 124, scale 1.5 and the bias nearest
to `-76/170`, layout `rgba`. -/
def rounding_buffer : Buffer where
  buffer := mem_of_list [124]
  channels := 1
  type := 0
  step := 1
  buffer_width_f := .fin 1
  buffer_height_f := .fin 1
  auto_buffer_contrast_brightness := fun i =>
    if i < 4 then .fin (3 / 2) else .fin (-15000805 / 33554432)
  get_pixel_layout := ['r', 'g', 'b', 'a']

/-- A 2x1 single-channel `uint16` buffer with the samples 257 and 258, scale 65535 and bias
-257: the coefficients for the contrast range from 257 to 258. -/
def narrow_range_buffer : Buffer where
  buffer := mem_of_list [1, 1, 2, 1]
  channels := 1
  type := 1
  step := 2
  buffer_width_f := .fin 2
  buffer_height_f := .fin 1
  auto_buffer_contrast_brightness := fun i => if i < 4 then .fin 65535 else .fin (-257)
  get_pixel_layout := ['r', 'g', 'b', 'a']

/-- A 2x1 single-channel `uint8` buffer with the samples 0 and 255, identity contrast (the
coefficients for the contrast range from 0 to 255), layout `rgba`. -/
def endpoints_buffer : Buffer where
  buffer := mem_of_list [0, 255]
  channels := 1
  type := 0
  step := 2
  buffer_width_f := .fin 2
  buffer_height_f := .fin 1
  auto_buffer_contrast_brightness := identity_contrast
  get_pixel_layout := ['r', 'g', 'b', 'a']

/-- A 1x1 single-channel `float` buffer whose sample is a NaN (bits `7FC00000`), identity
contrast, layout `rgba`. -/
def nan_buffer : Buffer where
  buffer := mem_of_list [0, 0, 192, 127]
  channels := 1
  type := 4
  step := 1
  buffer_width_f := .fin 1
  buffer_height_f := .fin 1
  auto_buffer_contrast_brightness := identity_contrast
  get_pixel_layout := ['r', 'g', 'b', 'a']

/-- The memory of a 1x2 four-channel `uint8` buffer whose rows are `2 ^ 30` pixels apart:
the samples 1 to 4 in row 0 and 5 to 8 in row 1, which starts at element `2 ^ 32`. -/
def wide_step_memory (i : Int) : Nat :=
  if 0 ≤ i ∧ i < 4 then (i + 1).toNat
  else if 4294967296 ≤ i ∧ i < 4294967300 then (i - 4294967291).toNat
  else 0

/-- A 1x2 four-channel `uint8` buffer with a stride of `2 ^ 30` pixels. -/
def wide_step_buffer : Buffer where
  buffer := wide_step_memory
  channels := 4
  type := 0
  step := 1073741824
  buffer_width_f := .fin 1
  buffer_height_f := .fin 2
  auto_buffer_contrast_brightness := identity_contrast
  get_pixel_layout := ['r', 'g', 'b', 'a']

/-- A 1x2 four-channel `uint8` buffer with a stride of `2 ^ 29` pixels. -/
def half_step_buffer : Buffer :=
  { wide_step_buffer with step := 536870912 }

/-- The 1x1 three-channel `uint8` buffer with the values 10, 20 and 30 and the layout `xgba`,
whose first character is no channel letter. -/
def xgba_buffer : Buffer :=
  of_ideal { gbra_buffer with get_pixel_layout := ['x', 'g', 'b', 'a'] }

end Machine

/-! ## The statements of the specification in binary32 arithmetic -/

/-- Specification: the maximum intensity of a kind as a `float`, the binary32 value nearest
to the maximum of an integer kind and 1 for the floating kind. -/
def spec_max_binary32 (T : ElemType) : Machine.F32 :=
  Machine.round32 (spec_max_intensity T)

/-- Specification: the value handed to the 8-bit truncation,
`clamp((v*scale + bias*maxI) * (255/maxI), 0, 255)`, with every operation rounded to
binary32. -/
def spec_clamped_binary32 (T : ElemType) (scale bias v : Machine.F32) : Machine.F32 :=
  Machine.clamp
    (Machine.F32.mul
      (Machine.F32.add (Machine.F32.mul v scale) (Machine.F32.mul bias (spec_max_binary32 T)))
      (Machine.F32.div (.fin 255) (spec_max_binary32 T)))
    (.fin 0) (.fin 255)

/-! ## Loops and stores -/

theorem for_from_ge {σ : Type} (c hi : Nat) (body : Nat → σ → σ) (s : σ) (h : hi ≤ c) :
    for_from c hi body s = s := by
  simp [for_from, Nat.sub_eq_zero_of_le h]

theorem for_from_last {σ : Type} (c hi : Nat) (body : Nat → σ → σ) (s : σ) (h : c ≤ hi) :
    for_from c (hi + 1) body s = body hi (for_from c hi body s) := by
  unfold for_from
  have e : hi + 1 - c = (hi - c) + 1 := by omega
  rw [e, List.range'_1_concat, List.foldl_append]
  have e2 : c + (hi - c) = hi := by omega
  simp [e2]

theorem for_from_split {σ : Type} (c m hi : Nat) (body : Nat → σ → σ) (s : σ)
    (h1 : c ≤ m) (h2 : m ≤ hi) :
    for_from c hi body s = for_from m hi body (for_from c m body s) := by
  unfold for_from
  rw [← List.foldl_append]
  have e : List.range' c (m - c) ++ List.range' m (hi - m) = List.range' c (hi - c) := by
    have := List.range'_append_1 c (m - c) (hi - m)
    rw [show c + (m - c) = m by omega, show hi - m + (m - c) = hi - c by omega] at this
    exact this
  rw [e]

theorem store_apply {α : Type} (a : Nat → α) (i : Nat) (v : α) (j : Nat) :
    store a i v j = if j = i then v else a j := rfl

/-- A loop whose iteration `i` changes cell `i` only changes exactly the cells of its range. -/
theorem for_from_cellwise (F : Nat → Nat → Nat) (body : Nat → (Nat → Nat) → (Nat → Nat))
    (hb : ∀ i u j, body i u j = if j = i then F i (u i) else u j)
    (c hi : Nat) (u : Nat → Nat) (j : Nat) :
    for_from c hi body u j = if c ≤ j ∧ j < hi then F j (u j) else u j := by
  induction hi generalizing j with
  | zero => simp [for_from_ge]
  | succ n ih =>
    by_cases hc : c ≤ n
    · rw [for_from_last c n body u hc, hb, ih, ih]
      by_cases hj : j = n
      · subst hj; simp [hc]
      · have : (c ≤ j ∧ j < n + 1) ↔ (c ≤ j ∧ j < n) := by omega
        simp [hj, this]
    · rw [for_from_ge c (n + 1) body u (by omega)]
      have : ¬ (c ≤ j ∧ j < n + 1) := by omega
      simp [this]

/-! ## The reordering table -/

/-- In a valid layout every one of the four characters is a channel letter and no two
positions name the same channel. -/
theorem valid_layout_facts (l : List Char) (h : valid_layout l) :
    ∀ i < 4, l.getD i (Char.ofNat 0) ∈ ['r', 'g', 'b', 'a'] ∧
      ∀ j < 4, letter_index (l.getD i (Char.ofNat 0)) = letter_index (l.getD j (Char.ofNat 0))
        → i = j := by
  unfold valid_layout at h
  have hlen := h.length_eq
  have hnd : l.Nodup := h.nodup_iff.mpr (by decide)
  match l, hlen with
  | [c0, c1, c2, c3], _ =>
    have h0 : c0 ∈ ['r', 'g', 'b', 'a'] := h.mem_iff.mp (by simp)
    have h1 : c1 ∈ ['r', 'g', 'b', 'a'] := h.mem_iff.mp (by simp)
    have h2 : c2 ∈ ['r', 'g', 'b', 'a'] := h.mem_iff.mp (by simp)
    have h3 : c3 ∈ ['r', 'g', 'b', 'a'] := h.mem_iff.mp (by simp)
    clear h
    simp only [List.mem_cons, List.mem_singleton, List.not_mem_nil, or_false] at h0 h1 h2 h3
    rcases h0 with rfl | rfl | rfl | rfl <;> rcases h1 with rfl | rfl | rfl | rfl <;>
      rcases h2 with rfl | rfl | rfl | rfl <;> rcases h3 with rfl | rfl | rfl | rfl <;>
      first
        | (exfalso; revert hnd; decide)
        | decide

theorem parse_pixel_layout_apply (tg : Target) (buffer : Buffer) (j : Nat) :
    parse_pixel_layout tg buffer j =
      if 0 ≤ j ∧ j < 4 then
        layout_case (buffer.get_pixel_layout.getD j (Char.ofNat 0)) (tg.uninit_pixel_layout j)
      else tg.uninit_pixel_layout j := by
  unfold parse_pixel_layout
  rw [for_from_cellwise
    (fun i d => layout_case (buffer.get_pixel_layout.getD i (Char.ofNat 0)) d)]
  intro i u j
  simp only [store_apply]

/-- For a valid layout the table holds, at each position, the index of the letter there. -/
theorem parse_pixel_layout_valid (tg : Target) (buffer : Buffer)
    (h : valid_layout buffer.get_pixel_layout) (c : Nat) (hc : c < 4) :
    parse_pixel_layout tg buffer c = letter_index (buffer.get_pixel_layout.getD c (Char.ofNat 0))
    := by
  rw [parse_pixel_layout_apply]
  have hm := (valid_layout_facts _ h c hc).1
  simp only [List.mem_cons, List.mem_singleton, List.not_mem_nil, or_false] at hm
  have h4 : 0 ≤ c ∧ c < 4 := ⟨Nat.zero_le c, hc⟩
  rw [if_pos h4]
  rcases hm with e | e | e | e <;> rw [e] <;> simp [layout_case, letter_index]

theorem letter_index_lt (ch : Char) : letter_index ch < 4 := by
  unfold letter_index
  split_ifs <;> omega

/-! ## One pixel -/

theorem normalization_loop_apply (f : Nat → Nat) (n : Nat) (u : Nat → Nat) (j : Nat) :
    for_from 0 n (fun c u => store u c (f c)) u j = if j < n then f j else u j := by
  rw [for_from_cellwise (fun i _ => f i)]
  · simp
  · intro i u j
    simp only [store_apply]

theorem default_loop_apply (c : Nat) (u : Nat → Nat) (j : Nat) :
    for_from c 4 (fun c u => store u c (default_channel_vals c)) u j =
      if c ≤ j ∧ j < 4 then default_channel_vals j else u j := by
  rw [for_from_cellwise (fun i _ => default_channel_vals i)]
  intro i u j
  simp only [store_apply]

theorem grayscale_loop_apply (u : Nat → Nat) (j : Nat) :
    for_from 1 3 (fun c u => store u c (u 0)) u j = if 1 ≤ j ∧ j < 3 then u 0 else u j := by
  rw [for_from_last 1 2 _ _ (by omega), for_from_last 1 1 _ _ (by omega),
    for_from_ge 1 1 _ _ (by omega)]
  simp only [store_apply]
  by_cases h2 : j = 2
  · simp [h2]
  · by_cases h1 : j = 1
    · simp [h1]
    · have : ¬ (1 ≤ j ∧ j < 3) := by omega
      simp [h1, h2, this]

/-- The content of `unformatted_pixel` after the iteration for a pixel. -/
theorem pixel_body_unformatted (tg : Target) (T : ElemType) (buffer : Buffer)
    (pixel_layout : Nat → Nat) (x : Int) (s : LoopState) (j : Nat) :
    (pixel_body tg T buffer pixel_layout x s).unformatted_pixel j =
      if j < buffer.channels.toNat then
        normalized_byte T buffer.auto_buffer_contrast_brightness j
          (sample tg T buffer (s.in_ptr + (x * buffer.channels + j)))
      else if buffer.channels = 1 ∧ j < 3 then
        normalized_byte T buffer.auto_buffer_contrast_brightness 0
          (sample tg T buffer (s.in_ptr + (x * buffer.channels + (0 : Nat))))
      else if j < 4 then default_channel_vals j
      else s.unformatted_pixel j := by
  unfold pixel_body sample
  by_cases h1 : buffer.channels = 1
  · simp only [h1, if_true, Int.toNat_one, true_and]
    rw [default_loop_apply, grayscale_loop_apply]
    rw [normalization_loop_apply (fun c => normalized_byte T
      buffer.auto_buffer_contrast_brightness c
      (tg.value_of T (elem_bytes T buffer.buffer (s.in_ptr + (x * 1 + (c : Int))))))]
    rw [normalization_loop_apply (fun c => normalized_byte T
      buffer.auto_buffer_contrast_brightness c
      (tg.value_of T (elem_bytes T buffer.buffer (s.in_ptr + (x * 1 + (c : Int))))))]
    by_cases hj0 : j < 1
    · have : ¬ (max 1 3 ≤ j ∧ j < 4) := by omega
      have h13 : ¬ (1 ≤ j ∧ j < 3) := by omega
      simp [hj0, this, h13] 
      intros; omega
    · by_cases hj3 : j < 3
      · have : ¬ (max 1 3 ≤ j ∧ j < 4) := by omega
        have h13 : (1 ≤ j ∧ j < 3) := by omega
        simp [hj0, this, h13, hj3]
      · by_cases hj4 : j < 4
        · have : (max 1 3 ≤ j ∧ j < 4) := by omega
          simp [hj0, this, hj3, hj4]
        · have : ¬ (max 1 3 ≤ j ∧ j < 4) := by omega
          have h13 : ¬ (1 ≤ j ∧ j < 3) := by omega
          simp [hj0, this, h13, hj3, hj4]
  · simp only [h1, if_false, false_and]
    rw [default_loop_apply]
    rw [normalization_loop_apply (fun c => normalized_byte T
      buffer.auto_buffer_contrast_brightness c
      (tg.value_of T (elem_bytes T buffer.buffer
        (s.in_ptr + (x * buffer.channels + (c : Int))))))]
    by_cases hj : j < buffer.channels.toNat
    · have : ¬ (buffer.channels.toNat ≤ j ∧ j < 4) := by omega
      simp [hj, this] 
      intros; omega
    · by_cases hj4 : j < 4
      · have : (buffer.channels.toNat ≤ j ∧ j < 4) := by omega
        simp [hj, this, hj4]
      · have : ¬ (buffer.channels.toNat ≤ j ∧ j < 4) := by omega
        simp [hj, this, hj4]

theorem pixel_body_processed (tg : Target) (T : ElemType) (buffer : Buffer)
    (pixel_layout : Nat → Nat) (x : Int) (s : LoopState) :
    (pixel_body tg T buffer pixel_layout x s).processed_buffer =
      for_from 0 4 (fun c p => store p (s.out_ptr + pixel_layout c)
        ((pixel_body tg T buffer pixel_layout x s).unformatted_pixel c)) s.processed_buffer :=
  rfl

theorem remap_unfold (pl u p : Nat → Nat) (o : Nat) :
    for_from 0 4 (fun c p => store p (o + pl c) (u c)) p =
      store (store (store (store p (o + pl 0) (u 0)) (o + pl 1) (u 1)) (o + pl 2) (u 2))
        (o + pl 3) (u 3) := by
  rw [for_from_last 0 3 _ _ (by omega), for_from_last 0 2 _ _ (by omega),
    for_from_last 0 1 _ _ (by omega), for_from_last 0 0 _ _ (by omega),
    for_from_ge 0 0 _ _ (by omega)]

/-- The reordering loop leaves every cell outside the pixel's four bytes alone. -/
theorem remap_frame (pl u p : Nat → Nat) (o i : Nat) (hpl : ∀ c < 4, pl c < 4)
    (hi : i < o ∨ o + 4 ≤ i) :
    for_from 0 4 (fun c p => store p (o + pl c) (u c)) p i = p i := by
  rw [remap_unfold]
  have h0 := hpl 0 (by omega)
  have h1 := hpl 1 (by omega)
  have h2 := hpl 2 (by omega)
  have h3 := hpl 3 (by omega)
  have e0 : i ≠ o + pl 0 := by omega
  have e1 : i ≠ o + pl 1 := by omega
  have e2 : i ≠ o + pl 2 := by omega
  have e3 : i ≠ o + pl 3 := by omega
  simp [store_apply, e0, e1, e2, e3]

/-- When no two positions of the table agree, the reordering loop leaves the byte of channel
`c` in the cell the table gives for `c`. -/
theorem remap_written (pl u p : Nat → Nat) (o c : Nat) (hc : c < 4)
    (hinj : ∀ i < 4, ∀ j < 4, pl i = pl j → i = j) :
    for_from 0 4 (fun c p => store p (o + pl c) (u c)) p (o + pl c) = u c := by
  rw [remap_unfold]
  have h01 : pl 0 ≠ pl 1 := fun e => by have := hinj 0 (by omega) 1 (by omega) e; omega
  have h02 : pl 0 ≠ pl 2 := fun e => by have := hinj 0 (by omega) 2 (by omega) e; omega
  have h03 : pl 0 ≠ pl 3 := fun e => by have := hinj 0 (by omega) 3 (by omega) e; omega
  have h12 : pl 1 ≠ pl 2 := fun e => by have := hinj 1 (by omega) 2 (by omega) e; omega
  have h13 : pl 1 ≠ pl 3 := fun e => by have := hinj 1 (by omega) 3 (by omega) e; omega
  have h23 : pl 2 ≠ pl 3 := fun e => by have := hinj 2 (by omega) 3 (by omega) e; omega
  interval_cases c <;> simp [store_apply, h01, h02, h03, h12, h13, h23]

/-! ## The pixel loops -/

theorem pixel_loop_out_ptr (tg : Target) (T : ElemType) (buffer : Buffer)
    (pl : Nat → Nat) (a hi : Nat) (s : LoopState) (h : a ≤ hi) :
    (for_from a hi (fun x s => pixel_body tg T buffer pl x s) s).out_ptr
      = s.out_ptr + 4 * (hi - a) := by
  induction hi with
  | zero => simp [for_from_ge]
  | succ n ih =>
    by_cases hn : a ≤ n
    · rw [for_from_last a n _ _ hn]
      show (for_from a n (fun x s => pixel_body tg T buffer pl x s) s).out_ptr + 4 = _
      rw [ih hn]; omega
    · rw [for_from_ge a (n + 1) _ _ (by omega)]; omega

theorem pixel_loop_in_ptr (tg : Target) (T : ElemType) (buffer : Buffer)
    (pl : Nat → Nat) (a hi : Nat) (s : LoopState) :
    (for_from a hi (fun x s => pixel_body tg T buffer pl x s) s).in_ptr = s.in_ptr := by
  induction hi with
  | zero => simp [for_from_ge]
  | succ n ih =>
    by_cases hn : a ≤ n
    · rw [for_from_last a n _ _ hn]
      exact ih
    · rw [for_from_ge a (n + 1) _ _ (by omega)]

theorem pixel_loop_frame (tg : Target) (T : ElemType) (buffer : Buffer)
    (pl : Nat → Nat) (hpl : ∀ c < 4, pl c < 4) (a hi : Nat) (s : LoopState) (i : Nat)
    (hi0 : i < s.out_ptr) :
    (for_from a hi (fun x s => pixel_body tg T buffer pl x s) s).processed_buffer i
      = s.processed_buffer i := by
  induction hi with
  | zero => simp [for_from_ge]
  | succ n ih =>
    by_cases hn : a ≤ n
    · rw [for_from_last a n _ _ hn, pixel_body_processed, remap_frame _ _ _ _ _ hpl, ih]
      left
      rw [pixel_loop_out_ptr tg T buffer pl a n s hn]
      omega
    · rw [for_from_ge a (n + 1) _ _ (by omega)]

theorem row_body_out_ptr (tg : Target) (T : ElemType) (buffer : Buffer)
    (pl : Nat → Nat) (s : LoopState) :
    (row_body tg T buffer pl s).out_ptr
      = s.out_ptr + 4 * (static_cast_int buffer.buffer_width_f).toNat := by
  show (row_upto tg T buffer pl _ s).out_ptr = _
  unfold row_upto
  rw [pixel_loop_out_ptr tg T buffer pl 0 _ s (Nat.zero_le _)]
  simp

theorem row_body_in_ptr (tg : Target) (T : ElemType) (buffer : Buffer)
    (pl : Nat → Nat) (s : LoopState) :
    (row_body tg T buffer pl s).in_ptr = s.in_ptr + buffer.channels * buffer.step := by
  show (row_upto tg T buffer pl _ s).in_ptr + _ = _
  unfold row_upto
  rw [pixel_loop_in_ptr]

theorem row_body_frame (tg : Target) (T : ElemType) (buffer : Buffer)
    (pl : Nat → Nat) (hpl : ∀ c < 4, pl c < 4) (s : LoopState) (i : Nat)
    (hi0 : i < s.out_ptr) :
    (row_body tg T buffer pl s).processed_buffer i = s.processed_buffer i := by
  show (row_upto tg T buffer pl _ s).processed_buffer i = _
  unfold row_upto
  exact pixel_loop_frame tg T buffer pl hpl 0 _ s i hi0

theorem row_loop_out_ptr (tg : Target) (T : ElemType) (buffer : Buffer)
    (pl : Nat → Nat) (a hi : Nat) (s : LoopState) (h : a ≤ hi) :
    (for_from a hi (fun _ s => row_body tg T buffer pl s) s).out_ptr
      = s.out_ptr + 4 * (static_cast_int buffer.buffer_width_f).toNat * (hi - a) := by
  induction hi with
  | zero => simp [for_from_ge]
  | succ n ih =>
    by_cases hn : a ≤ n
    · rw [for_from_last a n _ _ hn, row_body_out_ptr, ih hn]
      have e : n + 1 - a = (n - a) + 1 := by omega
      rw [e]; ring
    · rw [for_from_ge a (n + 1) _ _ (by omega)]
      have e : n + 1 - a = 0 := by omega
      rw [e]; simp

theorem row_loop_in_ptr (tg : Target) (T : ElemType) (buffer : Buffer)
    (pl : Nat → Nat) (n : Nat) (s : LoopState) :
    (for_from 0 n (fun _ s => row_body tg T buffer pl s) s).in_ptr
      = s.in_ptr + n * (buffer.channels * buffer.step) := by
  induction n with
  | zero => simp [for_from_ge]
  | succ n ih =>
    rw [for_from_last 0 n _ _ (Nat.zero_le n), row_body_in_ptr, ih]
    push_cast; ring

theorem row_loop_frame (tg : Target) (T : ElemType) (buffer : Buffer)
    (pl : Nat → Nat) (hpl : ∀ c < 4, pl c < 4) (a hi : Nat) (s : LoopState) (i : Nat)
    (hi0 : i < s.out_ptr) :
    (for_from a hi (fun _ s => row_body tg T buffer pl s) s).processed_buffer i
      = s.processed_buffer i := by
  induction hi with
  | zero => simp [for_from_ge]
  | succ n ih =>
    by_cases hn : a ≤ n
    · rw [for_from_last a n _ _ hn, row_body_frame _ _ _ _ hpl, ih]
      rw [row_loop_out_ptr tg T buffer pl a n s hn]
      omega
    · rw [for_from_ge a (n + 1) _ _ (by omega)]

/-! ## The whole image -/

theorem rows_upto_in_ptr (tg : Target) (T : ElemType) (buffer : Buffer) (n : Nat) :
    (rows_upto tg T buffer n).in_ptr = n * (buffer.channels * buffer.step) := by
  unfold rows_upto
  rw [row_loop_in_ptr]
  simp [initial_state]

theorem rows_upto_out_ptr (tg : Target) (T : ElemType) (buffer : Buffer) (n : Nat) :
    (rows_upto tg T buffer n).out_ptr
      = 4 * (static_cast_int buffer.buffer_width_f).toNat * n := by
  unfold rows_upto
  rw [row_loop_out_ptr _ _ _ _ 0 n _ (Nat.zero_le n)]
  simp [initial_state]

theorem state_after_pixel_eq (tg : Target) (T : ElemType) (buffer : Buffer) (x y : Nat) :
    state_after_pixel tg T buffer x y =
      row_upto tg T buffer (parse_pixel_layout tg buffer) (x + 1)
        (rows_upto tg T buffer y) := by
  unfold state_after_pixel row_upto
  rw [for_from_last 0 x _ _ (Nat.zero_le x)]

theorem state_after_pixel_out_ptr (tg : Target) (T : ElemType) (buffer : Buffer) (x y : Nat) :
    (state_after_pixel tg T buffer x y).out_ptr
      = 4 * ((static_cast_int buffer.buffer_width_f).toNat * y + x) + 4 := by
  rw [state_after_pixel_eq]
  unfold row_upto
  rw [pixel_loop_out_ptr _ _ _ _ 0 (x + 1) _ (Nat.zero_le _), rows_upto_out_ptr]
  simp only [Nat.sub_zero]
  ring

/-- The bytes computed for the pixel `(x, y)` before they are reordered. -/
theorem state_after_pixel_unformatted (tg : Target) (T : ElemType) (buffer : Buffer)
    (x y j : Nat) :
    (state_after_pixel tg T buffer x y).unformatted_pixel j =
      if j < buffer.channels.toNat then
        normalized_byte T buffer.auto_buffer_contrast_brightness j
          (sample tg T buffer (y * buffer.step * buffer.channels + x * buffer.channels + j))
      else if buffer.channels = 1 ∧ j < 3 then
        normalized_byte T buffer.auto_buffer_contrast_brightness 0
          (sample tg T buffer (y * buffer.step * buffer.channels + x * buffer.channels))
      else if j < 4 then default_channel_vals j
      else (row_upto tg T buffer (parse_pixel_layout tg buffer) x
        (rows_upto tg T buffer y)).unformatted_pixel j := by
  unfold state_after_pixel
  rw [pixel_body_unformatted]
  have e : (row_upto tg T buffer (parse_pixel_layout tg buffer) x
      (rows_upto tg T buffer y)).in_ptr = y * (buffer.channels * buffer.step) := by
    unfold row_upto
    rw [pixel_loop_in_ptr, rows_upto_in_ptr]
  rw [e]
  have e1 : (y : Int) * (buffer.channels * buffer.step) + (x * buffer.channels + (j : Int))
      = y * buffer.step * buffer.channels + x * buffer.channels + j := by ring
  have e2 : (y : Int) * (buffer.channels * buffer.step) + (x * buffer.channels + ((0 : Nat) : Int))
      = y * buffer.step * buffer.channels + x * buffer.channels := by push_cast; ring
  rw [e1, e2]

/-- The run of `export_bitmap` passes through the state after each pixel of the image, and
the part of `processed_buffer` written up to then is final. -/
theorem rows_upto_processed (tg : Target) (T : ElemType) (buffer : Buffer)
    (hpl : ∀ c < 4, parse_pixel_layout tg buffer c < 4) (x y h i : Nat)
    (hx : x < (static_cast_int buffer.buffer_width_f).toNat) (hy : y < h)
    (hi : i < 4 * ((static_cast_int buffer.buffer_width_f).toNat * y + x) + 4) :
    (rows_upto tg T buffer h).processed_buffer i
      = (state_after_pixel tg T buffer x y).processed_buffer i := by
  have hrows : rows_upto tg T buffer h =
      for_from (y + 1) h (fun _ s => row_body tg T buffer (parse_pixel_layout tg buffer) s)
        (rows_upto tg T buffer (y + 1)) := by
    unfold rows_upto
    rw [← for_from_split 0 (y + 1) h _ _ (Nat.zero_le _) hy]
  have hrow : (rows_upto tg T buffer (y + 1)).processed_buffer =
      (for_from (x + 1) (static_cast_int buffer.buffer_width_f).toNat
        (fun x s => pixel_body tg T buffer (parse_pixel_layout tg buffer) x s)
        (state_after_pixel tg T buffer x y)).processed_buffer := by
    rw [state_after_pixel_eq]
    unfold rows_upto
    rw [for_from_last 0 y _ _ (Nat.zero_le y)]
    show (row_upto tg T buffer (parse_pixel_layout tg buffer) _ _).processed_buffer = _
    unfold row_upto
    rw [← for_from_split 0 (x + 1) _ _ _ (Nat.zero_le _) hx]
  have hout : (rows_upto tg T buffer (y + 1)).out_ptr
      = 4 * (static_cast_int buffer.buffer_width_f).toNat * (y + 1) :=
    rows_upto_out_ptr tg T buffer (y + 1)
  rw [hrows, row_loop_frame tg T buffer _ hpl, hrow, pixel_loop_frame tg T buffer _ hpl]
  · rw [state_after_pixel_out_ptr]; exact hi
  · rw [hout]
    have : 4 * (static_cast_int buffer.buffer_width_f).toNat * (y + 1)
        = 4 * ((static_cast_int buffer.buffer_width_f).toNat * y)
          + 4 * (static_cast_int buffer.buffer_width_f).toNat := by ring
    omega

theorem pixel_body_processed_after (tg : Target) (T : ElemType) (buffer : Buffer) (x y : Nat) :
    (state_after_pixel tg T buffer x y).processed_buffer =
      for_from 0 4 (fun c p =>
        store p (4 * ((static_cast_int buffer.buffer_width_f).toNat * y + x)
            + parse_pixel_layout tg buffer c)
          ((state_after_pixel tg T buffer x y).unformatted_pixel c))
        (row_upto tg T buffer (parse_pixel_layout tg buffer) x
          (rows_upto tg T buffer y)).processed_buffer := by
  have e : (row_upto tg T buffer (parse_pixel_layout tg buffer) x
      (rows_upto tg T buffer y)).out_ptr
      = 4 * ((static_cast_int buffer.buffer_width_f).toNat * y + x) := by
    unfold row_upto
    rw [pixel_loop_out_ptr _ _ _ _ 0 x _ (Nat.zero_le _), rows_upto_out_ptr]
    simp only [Nat.sub_zero]
    ring
  unfold state_after_pixel
  rw [pixel_body_processed, e]

/-- Every byte of a pixel of the saved image lies inside `processed_buffer`. -/
theorem pixel_index_lt (w h x y p : Nat) (hx : x < w) (hy : y < h) (hp : p < 4) :
    4 * (w * y + x) + p < 4 * w * h := by
  have h1 : w * (y + 1) ≤ w * h := Nat.mul_le_mul_left w hy
  have h2 : w * (y + 1) = w * y + w := by ring
  have h3 : 4 * w * h = 4 * (w * h) := by ring
  omega

theorem export_bitmap_data_length (tg : Target) (T : ElemType) (buffer : Buffer) :
    (export_bitmap tg T buffer).data.length
      = (4 * static_cast_int buffer.buffer_width_f
          * static_cast_int buffer.buffer_height_f).toNat := by
  simp [export_bitmap]

theorem toNat_four_mul (w h : Int) (hw : 0 ≤ w) (hh : 0 ≤ h) :
    (4 * w * h).toNat = 4 * w.toNat * h.toNat := by
  have e1 : (w.toNat : Int) = w := Int.toNat_of_nonneg hw
  have e2 : (h.toNat : Int) = h := Int.toNat_of_nonneg hh
  have : 4 * w * h = ((4 * w.toNat * h.toNat : Nat) : Int) := by
    push_cast; rw [e1, e2]
  rw [this, Int.toNat_natCast]

/-- The byte of the saved image in the cell that the table of a valid layout gives for channel
`c` of the pixel `(x, y)` is the byte computed for that channel. -/
theorem export_bitmap_data_at (tg : Target) (T : ElemType) (buffer : Buffer)
    (hv : valid_layout buffer.get_pixel_layout) (x y c : Nat)
    (hx : (x : Int) < static_cast_int buffer.buffer_width_f)
    (hy : (y : Int) < static_cast_int buffer.buffer_height_f) (hc : c < 4) :
    (export_bitmap tg T buffer).data[4 * ((static_cast_int buffer.buffer_width_f).toNat * y + x)
        + letter_index (buffer.get_pixel_layout.getD c (Char.ofNat 0))]?
      = some ((state_after_pixel tg T buffer x y).unformatted_pixel c) := by
  have hpl : ∀ c < 4, parse_pixel_layout tg buffer c < 4 := by
    intro c hc
    rw [parse_pixel_layout_valid tg buffer hv c hc]
    exact letter_index_lt _
  have hinj : ∀ i < 4, ∀ j < 4,
      parse_pixel_layout tg buffer i = parse_pixel_layout tg buffer j → i = j := by
    intro i hi j hj e
    rw [parse_pixel_layout_valid tg buffer hv i hi,
      parse_pixel_layout_valid tg buffer hv j hj] at e
    exact (valid_layout_facts _ hv i hi).2 j hj e
  have hx' : x < (static_cast_int buffer.buffer_width_f).toNat := by omega
  have hy' : y < (static_cast_int buffer.buffer_height_f).toNat := by omega
  have hlt := pixel_index_lt _ _ x y _ hx' hy'
    (letter_index_lt (buffer.get_pixel_layout.getD c (Char.ofNat 0)))
  have hlen : (4 * static_cast_int buffer.buffer_width_f
      * static_cast_int buffer.buffer_height_f).toNat
      = 4 * (static_cast_int buffer.buffer_width_f).toNat
        * (static_cast_int buffer.buffer_height_f).toNat :=
    toNat_four_mul _ _ (by omega) (by omega)
  unfold export_bitmap
  simp only []
  rw [List.getElem?_map, List.getElem?_range (by rw [hlen]; exact hlt)]
  simp only [Option.map_some']
  rw [rows_upto_processed tg T buffer hpl x y _ _ hx' hy' (by
    have := letter_index_lt (buffer.get_pixel_layout.getD c (Char.ofNat 0)); omega)]
  rw [pixel_body_processed_after tg T buffer x y, ← parse_pixel_layout_valid tg buffer hv c hc]
  rw [remap_written _ _ _ _ c hc hinj]

/-! ## The arithmetic of one channel -/

theorem get_max_intensity_eq (T : ElemType) : get_max_intensity T = spec_max_intensity T := by
  cases T <;> norm_num [get_max_intensity, spec_max_intensity, numeric_limits_max]

theorem get_multiplier_eq (T : ElemType) : get_multiplier T = 255 / spec_max_intensity T := by
  cases T <;> norm_num [get_multiplier, spec_max_intensity, numeric_limits_max]

theorem clamp_eq (v : ℚ) : clamp v 0 255 = max 0 (min 255 v) := by
  unfold clamp
  split_ifs with h1 h2
  · rw [max_eq_left]
    exact le_trans (min_le_right _ _) (le_of_lt h1)
  · rw [min_eq_left (le_of_lt h2), max_eq_right (by norm_num)]
  · push_neg at h1 h2
    rw [min_eq_right h2, max_eq_right h1]

theorem clamp_range (v : ℚ) : 0 ≤ clamp v 0 255 ∧ clamp v 0 255 ≤ 255 := by
  rw [clamp_eq]
  exact ⟨le_max_left _ _, max_le (by norm_num) (min_le_left _ _)⟩

/-- On the range of `uint8_t` the cast is the integer part. -/
theorem static_cast_uint8_eq (q : ℚ) (h0 : 0 ≤ q) (h1 : q ≤ 255) :
    static_cast_uint8 q = ⌊q⌋.toNat := by
  unfold static_cast_uint8 static_cast_int
  rw [if_pos h0]
  have f0 : 0 ≤ ⌊q⌋ := Int.floor_nonneg.mpr h0
  have f1 : ⌊q⌋ < 256 := by
    rw [Int.floor_lt]
    push_cast
    linarith
  rw [Int.emod_eq_of_lt f0 f1]

theorem normalized_byte_eq_spec (T : ElemType) (bc_comp : Nat → ℚ) (c : Nat) (v : ℚ) :
    normalized_byte T bc_comp c v = spec_byte T (bc_comp c) (bc_comp (4 + c)) v := by
  unfold normalized_byte spec_byte spec_clamped
  rw [static_cast_uint8_eq _ (clamp_range _).1 (clamp_range _).2, clamp_eq,
    get_max_intensity_eq, get_multiplier_eq]

theorem normalized_byte_lt (T : ElemType) (bc_comp : Nat → ℚ) (c : Nat) (v : ℚ) :
    normalized_byte T bc_comp c v < 256 := by
  unfold normalized_byte
  rw [static_cast_uint8_eq _ (clamp_range _).1 (clamp_range _).2]
  have f1 : ⌊clamp ((v * bc_comp c + bc_comp (4 + c) * get_max_intensity T)
      * get_multiplier T) 0 255⌋ < 256 := by
    rw [Int.floor_lt]
    push_cast
    linarith [(clamp_range ((v * bc_comp c + bc_comp (4 + c) * get_max_intensity T)
      * get_multiplier T)).2]
  omega

/-! ## Every byte fits eight bits -/

theorem for_from_invariant {σ : Type} (P : σ → Prop) (body : Nat → σ → σ)
    (hbody : ∀ i s, P s → P (body i s)) (c hi : Nat) (s : σ) (hs : P s) :
    P (for_from c hi body s) := by
  induction hi with
  | zero => rw [for_from_ge _ _ _ _ (Nat.zero_le c)]; exact hs
  | succ n ih =>
    by_cases hn : c ≤ n
    · rw [for_from_last c n _ _ hn]; exact hbody _ _ ih
    · rw [for_from_ge c (n + 1) _ _ (by omega)]; exact hs

theorem default_channel_vals_lt (c : Nat) : default_channel_vals c < 256 := by
  unfold default_channel_vals
  match c with
  | 0 => decide
  | 1 => decide
  | 2 => decide
  | 3 => decide
  | n + 4 => simp

theorem pixel_body_unformatted_lt (tg : Target) (T : ElemType) (buffer : Buffer)
    (pixel_layout : Nat → Nat) (x : Int) (s : LoopState) (j : Nat) (hj : j < 4) :
    (pixel_body tg T buffer pixel_layout x s).unformatted_pixel j < 256 := by
  rw [pixel_body_unformatted]
  split_ifs
  · exact normalized_byte_lt _ _ _ _
  · exact normalized_byte_lt _ _ _ _
  · exact default_channel_vals_lt _

theorem pixel_body_bytes (tg : Target) (T : ElemType) (buffer : Buffer)
    (pixel_layout : Nat → Nat) (x : Int) (s : LoopState)
    (hs : ∀ i, s.processed_buffer i < 256) :
    ∀ i, (pixel_body tg T buffer pixel_layout x s).processed_buffer i < 256 := by
  intro i
  rw [pixel_body_processed, remap_unfold]
  have h0 := pixel_body_unformatted_lt tg T buffer pixel_layout x s 0 (by omega)
  have h1 := pixel_body_unformatted_lt tg T buffer pixel_layout x s 1 (by omega)
  have h2 := pixel_body_unformatted_lt tg T buffer pixel_layout x s 2 (by omega)
  have h3 := pixel_body_unformatted_lt tg T buffer pixel_layout x s 3 (by omega)
  simp only [store_apply]
  split_ifs <;> first | assumption | exact hs i

theorem rows_upto_bytes (tg : Target) (T : ElemType) (buffer : Buffer) (n : Nat) :
    ∀ i, (rows_upto tg T buffer n).processed_buffer i < 256 := by
  unfold rows_upto
  apply for_from_invariant (fun s : LoopState => ∀ i, s.processed_buffer i < 256)
  · intro _ s hs
    show ∀ i, (row_upto tg T buffer _ _ s).processed_buffer i < 256
    unfold row_upto
    apply for_from_invariant (fun s : LoopState => ∀ i, s.processed_buffer i < 256)
    · intro x s hs
      exact pixel_body_bytes tg T buffer _ x s hs
    · exact hs
  · intro i
    simp [initial_state]

/-! ## Evaluation on the concrete buffers -/

theorem scenario_b_width : static_cast_int scenario_b.buffer_width_f = 1 := by
  simp [static_cast_int, scenario_b]

theorem scenario_b_height : static_cast_int scenario_b.buffer_height_f = 1 := by
  simp [static_cast_int, scenario_b]

set_option maxRecDepth 10000 in
theorem scenario_b_data :
    (export_bitmap le_target .float scenario_b).data = [191, 63, 127, 255] := by
  unfold export_bitmap
  simp only [scenario_b_width, scenario_b_height]
  simp [rows_upto, for_from, List.range', row_body, row_upto, scenario_b_width, pixel_body,
    initial_state, parse_pixel_layout, layout_case, List.range_succ]
  simp [scenario_b, normalized_byte_eq_spec, spec_byte, spec_clamped, spec_max_intensity,
    identity_contrast, default_channel_vals, le_target, elem_bytes, ElemType.sizeof,
    mem_of_list, le_unsigned, List.range_succ, binary32_value]
  norm_num [store_apply]
  decide

/-- The bytes computed for a pixel do not depend on the layout. -/
theorem state_after_pixel_layout_irrelevant (tg : Target) (T : ElemType) (buffer : Buffer)
    (l l' : List Char) (x y j : Nat) (hj : j < 4) :
    (state_after_pixel tg T { buffer with get_pixel_layout := l } x y).unformatted_pixel j
      = (state_after_pixel tg T { buffer with get_pixel_layout := l' } x y).unformatted_pixel j
    := by
  simp only [state_after_pixel_unformatted, sample]
  split_ifs
  · rfl
  · rfl
  · rfl

theorem scenario_b_samples :
    sample le_target .float scenario_b 0 = 1 / 2 ∧
    sample le_target .float scenario_b 1 = 1 / 4 ∧
    sample le_target .float scenario_b 2 = 3 / 4 := by
  refine ⟨?_, ?_, ?_⟩ <;>
  · simp [sample, le_target, elem_bytes, ElemType.sizeof, scenario_b, mem_of_list, le_unsigned,
      List.range_succ, binary32_value]
    norm_num

/-! ## The raw matrix file -/

theorem append_loop {α : Type} (g : Nat → List α) (n : Nat) (file : List α) :
    for_from 0 n (fun y file => file ++ g y) file = file ++ (List.range n).flatMap g := by
  induction n with
  | zero => simp [for_from_ge]
  | succ n ih =>
    rw [for_from_last 0 n _ _ (Nat.zero_le n), ih, List.range_succ, List.flatMap_append,
      List.flatMap_singleton, List.append_assoc]

/-- One `fwrite` of `n` elements writes the bytes of the `n` elements, one after the other. -/
theorem fwrite_elements (T : ElemType) (mem : Int → Nat) (base : Int) (n : Nat) :
    fwrite mem (base * T.sizeof) T.sizeof n
      = (List.range n).flatMap (fun i => elem_bytes T mem (base + i)) := by
  unfold fwrite
  rw [Int.toNat_natCast]
  induction n with
  | zero => simp
  | succ n ih =>
    rw [Nat.mul_succ, List.range_add, List.map_append, ih, List.range_succ,
      List.flatMap_append, List.flatMap_singleton, List.map_map]
    congr 1
    unfold elem_bytes
    apply List.map_congr_left
    intro k _
    simp only [Function.comp]
    congr 1
    push_cast
    ring

theorem elem_bytes_length (T : ElemType) (mem : Int → Nat) (i : Int) :
    (elem_bytes T mem i).length = T.sizeof := by
  simp [elem_bytes]

/-- The file `export_binary` writes, in the words of the specification. -/
theorem export_binary_eq (T : ElemType) (buffer : Buffer) (h w ch : Nat)
    (hh : static_cast_int buffer.buffer_height_f = h)
    (hw : static_cast_int buffer.buffer_width_f = w) (hch : buffer.channels = ch) :
    export_binary T true buffer
      = some (spec_raw_file T (spec_token T) buffer.buffer h w ch buffer.step) := by
  unfold export_binary spec_raw_file spec_written_indices
  simp only [if_true, hh, hw, hch, Int.toNat_natCast, append_loop]
  have e : ∀ y : Nat,
      fwrite buffer.buffer ((y : Int) * buffer.step * ch * T.sizeof) T.sizeof ((w : Int) * ch)
        = (List.range (w * ch)).flatMap
            (fun i => elem_bytes T buffer.buffer ((y : Int) * buffer.step * ch + i)) := by
    intro y
    have := fwrite_elements T buffer.buffer ((y : Int) * buffer.step * ch) (w * ch)
    rw [← this]
    push_cast
    rfl
  simp only [e]
  have t : get_type_descriptor T = spec_token T := by cases T <;> rfl
  rw [t]
  unfold fprintf_line
  simp only [List.flatMap_assoc, List.flatMap_map]

theorem spec_written_indices_length (h w ch : Nat) (step : Int) :
    (spec_written_indices h w ch step).length = h * w * ch := by
  unfold spec_written_indices
  rw [List.length_flatMap]
  simp [Function.comp_def, Nat.mul_assoc]

/-! ## Reading the raw matrix file back -/

theorem read_int_int_bytes (v : Nat) (hv : v < 2147483648) : read_int (int_bytes v) = v := by
  unfold read_int int_bytes
  have e : ((v : Int) % 4294967296).toNat = v := by omega
  simp only [e, List.getD_cons_zero, List.getD_cons_succ]
  have h : v % 256 + 256 * (v / 256 % 256) + 65536 * (v / 65536 % 256)
      + 16777216 * (v / 16777216 % 256) = v := by omega
  rw [h, if_pos hv]

theorem token_bytes_no_newline (T : ElemType) :
    ∀ b ∈ (spec_token T).toList.map Char.toNat, (b != 10) = true := by
  cases T <;> decide

theorem take_token (T : ElemType) (rest : List Nat) :
    ((spec_token T).toList.map Char.toNat ++ 10 :: rest).takeWhile (fun b => b != 10)
      = (spec_token T).toList.map Char.toNat := by
  rw [List.takeWhile_append_of_pos (token_bytes_no_newline T)]
  simp

theorem drop_token (T : ElemType) (rest : List Nat) :
    ((spec_token T).toList.map Char.toNat ++ 10 :: rest).dropWhile (fun b => b != 10)
      = 10 :: rest := by
  rw [List.dropWhile_append_of_pos (token_bytes_no_newline T)]
  simp

theorem token_width_spec (T : ElemType) :
    token_width ((spec_token T).toList.map Char.toNat) = some T.sizeof := by
  cases T <;> decide

/-- Cutting the concatenation of chunks of one length at the multiples of that length gives
the chunks back. -/
theorem flatMap_chunk {α β : Type} (f : α → List β) (k : Nat) (hlen : ∀ a, (f a).length = k)
    (l : List α) (i : Nat) (hi : i < l.length) :
    ((l.flatMap f).drop (i * k)).take k = f l[i] := by
  induction l generalizing i with
  | nil => simp at hi
  | cons a l ih =>
    rw [List.flatMap_cons]
    cases i with
    | zero =>
      simp only [Nat.zero_mul, List.drop_zero, List.getElem_cons_zero]
      exact List.take_left' (hlen a)
    | succ i =>
      have e : (i + 1) * k = (f a).length + i * k := by rw [hlen a]; ring
      rw [e, List.drop_append]
      simp only [List.getElem_cons_succ]
      exact ih i (by simpa using hi)

theorem flatMap_chunk_getElem {α β : Type} (f : α → List β) (k : Nat)
    (hlen : ∀ a, (f a).length = k) (l : List α) (i j : Nat) (hi : i < l.length) (hj : j < k) :
    (l.flatMap f)[i * k + j]? = (f l[i])[j]? := by
  rw [← flatMap_chunk f k hlen l i hi, List.getElem?_take_of_lt hj, List.getElem?_drop]

theorem chunks_eq_map {α β : Type} (f : α → List β) (k : Nat) (hlen : ∀ a, (f a).length = k)
    (l : List α) :
    (List.range l.length).map (fun i => ((l.flatMap f).drop (i * k)).take k) = l.map f := by
  apply List.ext_getElem
  · simp
  · intro i h1 h2
    simp only [List.getElem_map, List.getElem_range]
    exact flatMap_chunk f k hlen l i (by simpa using h1)

theorem flatMap_uniform_length {α β : Type} (f : α → List β) (k : Nat)
    (hlen : ∀ a, (f a).length = k) (l : List α) : (l.flatMap f).length = l.length * k := by
  induction l with
  | nil => simp
  | cons a l ih => rw [List.flatMap_cons, List.length_append, ih, hlen a, List.length_cons]; ring

/-- The index of the sample of channel `c` of pixel `(x, y)` in file order. -/
theorem spec_written_indices_at (h w ch : Nat) (step : Int) (y x c : Nat)
    (hy : y < h) (hx : x < w) (hc : c < ch) :
    (spec_written_indices h w ch step)[(y * w + x) * ch + c]?
      = some ((y : Int) * step * ch + x * ch + c) := by
  unfold spec_written_indices
  have e : (y * w + x) * ch + c = y * (w * ch) + (x * ch + c) := by ring
  have hj : x * ch + c < w * ch := by
    have : (x + 1) * ch ≤ w * ch := Nat.mul_le_mul_right ch hx
    have e2 : (x + 1) * ch = x * ch + ch := by ring
    omega
  rw [e, flatMap_chunk_getElem _ (w * ch) (by simp) _ y _ (by simpa using hy) hj]
  rw [List.getElem?_map, List.getElem?_range hj]
  simp only [List.getElem_range, Option.map_some']
  congr 1
  push_cast
  ring

/-- Reading back the file of the specification gives the header and the samples. -/
theorem read_raw_matrix_spec_raw_file (T : ElemType) (mem : Int → Nat) (h w ch : Nat)
    (step : Int) (hh : h < 2147483648) (hw : w < 2147483648) (hch : ch < 2147483648) :
    read_raw_matrix (spec_raw_file T (spec_token T) mem h w ch step) = some
      { token := (spec_token T).toList.map Char.toNat, height := h, width := w, channels := ch,
        samples := (spec_written_indices h w ch step).map (elem_bytes T mem) } := by
  have hfile : spec_raw_file T (spec_token T) mem h w ch step
      = (spec_token T).toList.map Char.toNat ++ 10 ::
          (int_bytes h ++ (int_bytes w ++ (int_bytes ch
            ++ (spec_written_indices h w ch step).flatMap (elem_bytes T mem)))) := by
    unfold spec_raw_file
    simp
  have t4 : ∀ (v : Int) (r : List Nat), (int_bytes v ++ r).take 4 = int_bytes v := by
    intro v r; simp [int_bytes]
  have d4 : ∀ (v : Int) (r : List Nat), (int_bytes v ++ r).drop 4 = r := by
    intro v r; simp [int_bytes]
  have d8 : ∀ (v v' : Int) (r : List Nat), (int_bytes v ++ (int_bytes v' ++ r)).drop 8 = r := by
    intro v v' r; simp [int_bytes]
  have d12 : ∀ (v v' v'' : Int) (r : List Nat),
      (int_bytes v ++ (int_bytes v' ++ (int_bytes v'' ++ r))).drop 12 = r := by
    intro v v' v'' r; simp [int_bytes]
  have hn : ((h : Int) * w * ch).toNat = (spec_written_indices h w ch step).length := by
    rw [spec_written_indices_length]
    have : (h : Int) * w * ch = ((h * w * ch : Nat) : Int) := by push_cast; ring
    rw [this, Int.toNat_natCast]
  have hbody : ((spec_written_indices h w ch step).flatMap (elem_bytes T mem)).length
      = (spec_written_indices h w ch step).length * T.sizeof :=
    flatMap_uniform_length _ _ (elem_bytes_length T mem) _
  unfold read_raw_matrix
  simp only [hfile, take_token, drop_token, token_width_spec, List.drop_one, List.tail_cons,
    t4, d4, d8, d12, read_int_int_bytes h hh, read_int_int_bytes w hw,
    read_int_int_bytes ch hch, hn, hbody, lt_irrefl, if_false,
    chunks_eq_map _ _ (elem_bytes_length T mem)]

theorem scenario_c_width : static_cast_int scenario_c.buffer_width_f = ((3 : Nat) : Int) := by
  simp [static_cast_int, scenario_c]

theorem scenario_c_height : static_cast_int scenario_c.buffer_height_f = ((2 : Nat) : Int) := by
  simp [static_cast_int, scenario_c]

/-! ## The dispatch of `export_buffer` -/

theorem export_buffer_bitmap (tg : Target) (bt : BufferTypeValues) (fopen_ok : Bool)
    (buffer : Buffer) (path : String) :
    export_buffer tg bt fopen_ok buffer path .Bitmap =
      match dispatched_type bt buffer.type with
      | some T => .ok (.png path (export_bitmap tg T buffer))
      | none => .ok .nothing := by
  unfold export_buffer dispatched_type
  simp only [if_true]
  split_ifs <;> rfl

theorem export_buffer_raw (tg : Target) (bt : BufferTypeValues) (fopen_ok : Bool)
    (buffer : Buffer) (path : String) :
    export_buffer tg bt fopen_ok buffer path .OctaveMatrix =
      match dispatched_type bt buffer.type with
      | some T => .ok (.raw path (export_binary T fopen_ok buffer))
      | none => .ok .nothing := by
  unfold export_buffer dispatched_type
  simp only [reduceCtorEq, if_false]
  split_ifs <;> rfl

theorem dispatched_type_supported (bt : BufferTypeValues) (t : Int)
    (h : supported_type bt t) : ∃ T, dispatched_type bt t = some T := by
  unfold dispatched_type
  unfold supported_type at h
  split_ifs with h1 h2 h3 h4 h5
  · exact ⟨_, rfl⟩
  · exact ⟨_, rfl⟩
  · exact ⟨_, rfl⟩
  · exact ⟨_, rfl⟩
  · exact ⟨_, rfl⟩
  · exfalso
    rcases h with h | h | h | h | h | h
    · exact h1 h
    · exact h2 h
    · exact h3 h
    · exact h4 h
    · exact h5 (Or.inl h)
    · exact h5 (Or.inr h)

theorem dispatched_type_unsupported (bt : BufferTypeValues) (t : Int)
    (h : ¬ supported_type bt t) : dispatched_type bt t = none := by
  unfold dispatched_type
  unfold supported_type at h
  simp only [not_or] at h
  obtain ⟨h1, h2, h3, h4, h5, h6⟩ := h
  rw [if_neg h1, if_neg h2, if_neg h3, if_neg h4, if_neg (by simp [h5, h6])]

theorem export_binary_closed_file (T : ElemType) (buffer : Buffer) :
    export_binary T false buffer = none := by
  simp [export_binary]

theorem export_binary_open_file (T : ElemType) (buffer : Buffer) :
    ∃ file, export_binary T true buffer = some file := by
  simp [export_binary]

/-- The monotonicity of the byte in the sample, for a scale that is not negative. -/
theorem normalized_byte_mono (T : ElemType) (bc_comp : Nat → ℚ) (c : Nat) (v v' : ℚ)
    (hs : 0 ≤ bc_comp c) (hv : v ≤ v') :
    normalized_byte T bc_comp c v ≤ normalized_byte T bc_comp c v' := by
  rw [normalized_byte_eq_spec, normalized_byte_eq_spec]
  unfold spec_byte spec_clamped
  have hpos : 0 < spec_max_intensity T := by
    cases T <;> norm_num [spec_max_intensity]
  have hm : 0 ≤ 255 / spec_max_intensity T := le_of_lt (div_pos (by norm_num) hpos)
  have h1 : v * bc_comp c + bc_comp (4 + c) * spec_max_intensity T
      ≤ v' * bc_comp c + bc_comp (4 + c) * spec_max_intensity T := by
    have := mul_le_mul_of_nonneg_right hv hs
    linarith
  have h2 := mul_le_mul_of_nonneg_right h1 hm
  apply Int.toNat_le_toNat
  apply Int.floor_mono
  exact max_le_max (le_refl _) (min_le_min (le_refl _) h2)

/-! ## The indices read and written by the exporters -/

theorem pixel_reads_eq (tg : Target) (T : ElemType) (buffer : Buffer) (x y : Nat) :
    pixel_reads tg T buffer x y =
      (List.range buffer.channels.toNat).map (fun (c : Nat) =>
        (y : Int) * (buffer.channels * buffer.step) + ((x : Int) * buffer.channels + c)) := by
  unfold pixel_reads row_upto
  simp only [pixel_loop_in_ptr, rows_upto_in_ptr]

/-- The bound on the element indices of a buffer whose rows are `step` pixels apart. -/
theorem element_index_bound (h step ch y x c : Int) (hy0 : 0 ≤ y) (hy : y < h) (hx0 : 0 ≤ x)
    (hx : x < step) (hc0 : 0 ≤ c) (hc : c < ch) :
    0 ≤ y * (ch * step) + (x * ch + c) ∧ y * (ch * step) + (x * ch + c) < h * step * ch := by
  have hch : 0 ≤ ch := by omega
  have hst : 0 ≤ step := by omega
  have h1 : 0 ≤ ch * step := mul_nonneg hch hst
  have h2 : 0 ≤ y * (ch * step) := mul_nonneg hy0 h1
  have h3 : 0 ≤ x * ch := mul_nonneg hx0 hch
  have h4 : 0 ≤ (step - 1 - x) * ch := mul_nonneg (by omega) hch
  have h5 : 0 ≤ (h - 1 - y) * (ch * step) := mul_nonneg (by omega) h1
  constructor
  · omega
  · nlinarith

theorem read_symbol_metadata_six {α : Type} (symbol_metadata : List α)
    (h : symbol_metadata.length = 6) :
    ∃ results, read_symbol_metadata symbol_metadata = some results ∧
      results[6]? = some none := by
  unfold read_symbol_metadata
  simp only [h, if_true]
  refine ⟨_, rfl, ?_⟩
  simp [metadata_indices_read, PyList_GetItem, h]

/-! ## The initial zoom of the camera -/

theorem zoom_in_loop_exit (c : Camera) (buf_w buf_h : ℚ) (n : Nat) :
    ∀ (p : Int) (fuel : Nat), n + 1 ≤ fuel →
      ¬ (c.canvas_width_ > c.zoom_factor ^ (p + n) * buf_w
        ∧ c.canvas_height_ > c.zoom_factor ^ (p + n) * buf_h) →
      ∃ q, zoom_in_loop c buf_w buf_h fuel p (c.zoom_factor ^ p) = some q ∧ p ≤ q ∧
        ¬ (c.canvas_width_ > c.zoom_factor ^ q * buf_w
          ∧ c.canvas_height_ > c.zoom_factor ^ q * buf_h) ∧
        ∀ r, p ≤ r → r < q →
          (c.canvas_width_ > c.zoom_factor ^ r * buf_w
            ∧ c.canvas_height_ > c.zoom_factor ^ r * buf_h) := by
  induction n with
  | zero =>
    intro p fuel hfuel hn
    obtain ⟨k, rfl⟩ : ∃ k, fuel = k + 1 := ⟨fuel - 1, by omega⟩
    simp only [Nat.cast_zero, add_zero] at hn
    refine ⟨p, ?_, le_refl p, hn, ?_⟩
    · rw [zoom_in_loop, if_neg hn]
    · intro r h1 h2; omega
  | succ m ih =>
    intro p fuel hfuel hn
    obtain ⟨k, rfl⟩ : ∃ k, fuel = k + 1 := ⟨fuel - 1, by omega⟩
    by_cases hcond : c.canvas_width_ > c.zoom_factor ^ p * buf_w
        ∧ c.canvas_height_ > c.zoom_factor ^ p * buf_h
    · have hn' : ¬ (c.canvas_width_ > c.zoom_factor ^ (p + 1 + (m : Int)) * buf_w
          ∧ c.canvas_height_ > c.zoom_factor ^ (p + 1 + (m : Int)) * buf_h) := by
        have e : p + 1 + (m : Int) = p + ((m + 1 : Nat) : Int) := by push_cast; ring
        rw [e]; exact hn
      obtain ⟨q, hq, hpq, hnot, hall⟩ := ih (p + 1) k (by omega) hn'
      refine ⟨q, ?_, by omega, hnot, ?_⟩
      · rw [zoom_in_loop, if_pos hcond]; exact hq
      · intro r h1 h2
        by_cases hr : r = p
        · rw [hr]; exact hcond
        · exact hall r (by omega) h2
    · refine ⟨p, ?_, le_refl p, hcond, ?_⟩
      · rw [zoom_in_loop, if_neg hcond]
      · intro r h1 h2; omega

theorem zoom_out_loop_exit (c : Camera) (buf_w buf_h : ℚ) (n : Nat) :
    ∀ (p : Int) (fuel : Nat), n + 1 ≤ fuel →
      ¬ (c.canvas_width_ < c.zoom_factor ^ (p - n) * buf_w
        ∨ c.canvas_height_ < c.zoom_factor ^ (p - n) * buf_h) →
      ∃ q, zoom_out_loop c buf_w buf_h fuel p (c.zoom_factor ^ p) = some q ∧ q ≤ p ∧
        ¬ (c.canvas_width_ < c.zoom_factor ^ q * buf_w
          ∨ c.canvas_height_ < c.zoom_factor ^ q * buf_h) ∧
        ∀ r, q < r → r ≤ p →
          (c.canvas_width_ < c.zoom_factor ^ r * buf_w
            ∨ c.canvas_height_ < c.zoom_factor ^ r * buf_h) := by
  induction n with
  | zero =>
    intro p fuel hfuel hn
    obtain ⟨k, rfl⟩ : ∃ k, fuel = k + 1 := ⟨fuel - 1, by omega⟩
    simp only [Nat.cast_zero, sub_zero] at hn
    refine ⟨p, ?_, le_refl p, hn, ?_⟩
    · rw [zoom_out_loop, if_neg hn]
    · intro r h1 h2; omega
  | succ m ih =>
    intro p fuel hfuel hn
    obtain ⟨k, rfl⟩ : ∃ k, fuel = k + 1 := ⟨fuel - 1, by omega⟩
    by_cases hcond : c.canvas_width_ < c.zoom_factor ^ p * buf_w
        ∨ c.canvas_height_ < c.zoom_factor ^ p * buf_h
    · have hn' : ¬ (c.canvas_width_ < c.zoom_factor ^ (p - 1 - (m : Int)) * buf_w
          ∨ c.canvas_height_ < c.zoom_factor ^ (p - 1 - (m : Int)) * buf_h) := by
        have e : p - 1 - (m : Int) = p - ((m + 1 : Nat) : Int) := by push_cast; ring
        rw [e]; exact hn
      obtain ⟨q, hq, hpq, hnot, hall⟩ := ih (p - 1) k (by omega) hn'
      refine ⟨q, ?_, by omega, hnot, ?_⟩
      · rw [zoom_out_loop, if_pos hcond]; exact hq
      · intro r h1 h2
        by_cases hr : r = p
        · rw [hr]; exact hcond
        · exact hall r h1 (by omega)
    · refine ⟨p, ?_, le_refl p, hcond, ?_⟩
      · rw [zoom_out_loop, if_neg hcond]
      · intro r h1 h2; omega

/-- A power of a factor above 1 exceeds any given ratio. -/
theorem pow_exceeds (f a b : ℚ) (hf : 1 < f) (hb : 0 < b) : ∃ n : Nat, a < f ^ n * b := by
  obtain ⟨n, hn⟩ := pow_unbounded_of_one_lt (a / b) hf
  exact ⟨n, (div_lt_iff₀ hb).mp hn⟩

/-- The result of `set_initial_zoom`, by branch. -/
theorem set_initial_zoom_result (c : Camera) (buff : Buffer) (hf : 1 < c.zoom_factor)
    (hcw : 0 < c.canvas_width_) (hch : 0 < c.canvas_height_)
    (hbw : 0 < buff.buffer_width_f) (hbh : 0 < buff.buffer_height_f) :
    ∃ fuel0, ∀ fuel, fuel0 ≤ fuel → ∃ c', set_initial_zoom fuel c buff = some c' ∧
      c'.zoom = c.zoom_factor ^ c'.zoom_power_ ∧
      c'.zoom * buff.buffer_width_f ≤ c.canvas_width_ ∧
      c'.zoom * buff.buffer_height_f ≤ c.canvas_height_ ∧
      (c.zoom_factor * c'.zoom * buff.buffer_width_f ≥ c.canvas_width_
        ∨ c.zoom_factor * c'.zoom * buff.buffer_height_f ≥ c.canvas_height_) := by
  have hf0 : c.zoom_factor ≠ 0 := by linarith
  have hf1 : (1 : ℚ) ≤ c.zoom_factor := le_of_lt hf
  by_cases hA : c.canvas_width_ > buff.buffer_width_f ∧ c.canvas_height_ > buff.buffer_height_f
  · -- Zoom in
    obtain ⟨n, hn⟩ := pow_exceeds c.zoom_factor c.canvas_width_ buff.buffer_width_f hf hbw
    have hle : c.zoom_factor ^ (n : Int) ≤ c.zoom_factor ^ ((1 : Int) + n) :=
      zpow_le_zpow_right₀ hf1 (by omega)
    have hstop : ¬ (c.canvas_width_ > c.zoom_factor ^ ((1 : Int) + n) * buff.buffer_width_f
        ∧ c.canvas_height_ > c.zoom_factor ^ ((1 : Int) + n) * buff.buffer_height_f) := by
      intro h
      rw [zpow_natCast] at hle
      have := mul_le_mul_of_nonneg_right hle (le_of_lt hbw)
      linarith [h.1]
    refine ⟨n + 1, fun fuel hfuel => ?_⟩
    obtain ⟨q, hq, hpq, hnot, hall⟩ :=
      zoom_in_loop_exit c buff.buffer_width_f buff.buffer_height_f n 1 fuel hfuel hstop
    refine ⟨{ c with zoom_power_ := q - 1, zoom := c.zoom_factor ^ (q - 1) }, ?_, rfl, ?_, ?_, ?_⟩
    · unfold set_initial_zoom
      simp only [hA, and_self, if_true, zero_add, hq]
    · show c.zoom_factor ^ (q - 1) * buff.buffer_width_f ≤ c.canvas_width_
      by_cases h1 : q = 1
      · rw [h1]; norm_num; exact le_of_lt hA.1
      · exact le_of_lt (hall (q - 1) (by omega) (by omega)).1
    · show c.zoom_factor ^ (q - 1) * buff.buffer_height_f ≤ c.canvas_height_
      by_cases h1 : q = 1
      · rw [h1]; norm_num; exact le_of_lt hA.2
      · exact le_of_lt (hall (q - 1) (by omega) (by omega)).2
    · show c.zoom_factor * c.zoom_factor ^ (q - 1) * buff.buffer_width_f ≥ c.canvas_width_
        ∨ c.zoom_factor * c.zoom_factor ^ (q - 1) * buff.buffer_height_f ≥ c.canvas_height_
      have e : c.zoom_factor * c.zoom_factor ^ (q - 1) = c.zoom_factor ^ q := by
        have := zpow_add_one₀ hf0 (q - 1)
        rw [sub_add_cancel] at this
        rw [this]; ring
      rw [e]
      by_cases hw : c.canvas_width_ > c.zoom_factor ^ q * buff.buffer_width_f
      · right
        have : ¬ c.canvas_height_ > c.zoom_factor ^ q * buff.buffer_height_f :=
          fun h => hnot ⟨hw, h⟩
        exact not_lt.mp this
      · left
        exact not_lt.mp hw
  · by_cases hB : c.canvas_width_ < buff.buffer_width_f
        ∨ c.canvas_height_ < buff.buffer_height_f
    · -- Zoom out
      obtain ⟨n1, hn1⟩ := pow_exceeds c.zoom_factor buff.buffer_width_f c.canvas_width_ hf hcw
      obtain ⟨n2, hn2⟩ := pow_exceeds c.zoom_factor buff.buffer_height_f c.canvas_height_ hf hch
      have key : ∀ (m : Nat) (b cv : ℚ), 0 < cv → b < c.zoom_factor ^ m * cv → m ≤ max n1 n2 →
          c.zoom_factor ^ ((-1 : Int) - (max n1 n2 : Nat)) * b ≤ cv := by
        intro m b cv hcv hb hm
        have hpos : 0 < c.zoom_factor ^ m := pow_pos (by linarith) m
        have h1 : c.zoom_factor ^ ((-1 : Int) - (max n1 n2 : Nat))
            ≤ c.zoom_factor ^ (-(m : Int)) := zpow_le_zpow_right₀ hf1 (by omega)
        rw [zpow_neg, zpow_natCast] at h1
        by_cases hb0 : 0 ≤ b
        · have h2 := mul_le_mul_of_nonneg_right h1 hb0
          have h3 : (c.zoom_factor ^ m)⁻¹ * b < cv := by
            rw [inv_mul_lt_iff₀ hpos]; exact hb
          linarith
        · have hz : 0 < c.zoom_factor ^ ((-1 : Int) - (max n1 n2 : Nat)) :=
            zpow_pos (by linarith) _
          have : c.zoom_factor ^ ((-1 : Int) - (max n1 n2 : Nat)) * b ≤ 0 :=
            mul_nonpos_of_nonneg_of_nonpos (le_of_lt hz) (le_of_lt (not_le.mp hb0))
          linarith
      have hstop : ¬ (c.canvas_width_
            < c.zoom_factor ^ ((-1 : Int) - (max n1 n2 : Nat)) * buff.buffer_width_f
          ∨ c.canvas_height_
            < c.zoom_factor ^ ((-1 : Int) - (max n1 n2 : Nat)) * buff.buffer_height_f) := by
        intro h
        rcases h with h | h
        · exact absurd h (not_lt.mpr (key n1 _ _ hcw hn1 (le_max_left _ _)))
        · exact absurd h (not_lt.mpr (key n2 _ _ hch hn2 (le_max_right _ _)))
      refine ⟨max n1 n2 + 1, fun fuel hfuel => ?_⟩
      obtain ⟨q, hq, hpq, hnot, hall⟩ :=
        zoom_out_loop_exit c buff.buffer_width_f buff.buffer_height_f (max n1 n2) (-1) fuel
          hfuel hstop
      refine ⟨{ c with zoom_power_ := q, zoom := c.zoom_factor ^ q }, ?_, rfl, ?_, ?_, ?_⟩
      · unfold set_initial_zoom
        simp only [hA, hB, if_true, if_false, zero_sub, hq]
      · show c.zoom_factor ^ q * buff.buffer_width_f ≤ c.canvas_width_
        exact not_lt.mp (fun h => hnot (Or.inl h))
      · show c.zoom_factor ^ q * buff.buffer_height_f ≤ c.canvas_height_
        exact not_lt.mp (fun h => hnot (Or.inr h))
      · show c.zoom_factor * c.zoom_factor ^ q * buff.buffer_width_f ≥ c.canvas_width_
          ∨ c.zoom_factor * c.zoom_factor ^ q * buff.buffer_height_f ≥ c.canvas_height_
        have e : c.zoom_factor * c.zoom_factor ^ q = c.zoom_factor ^ (q + 1) := by
          rw [zpow_add_one₀ hf0]; ring
        rw [e]
        by_cases h1 : q = -1
        · rw [h1]
          norm_num
          rcases hB with h | h
          · left; exact le_of_lt h
          · right; exact le_of_lt h
        · rcases hall (q + 1) (by omega) (by omega) with h | h
          · left; exact le_of_lt h
          · right; exact le_of_lt h
    · -- Neither
      refine ⟨0, fun fuel _ => ?_⟩
      refine ⟨{ c with zoom_power_ := 0, zoom := c.zoom_factor ^ (0 : Int) }, ?_, rfl, ?_, ?_, ?_⟩
      · unfold set_initial_zoom
        simp only [hA, hB, if_false]
      · show c.zoom_factor ^ (0 : Int) * buff.buffer_width_f ≤ c.canvas_width_
        rw [zpow_zero, one_mul]
        exact not_lt.mp (fun h => hB (Or.inl h))
      · show c.zoom_factor ^ (0 : Int) * buff.buffer_height_f ≤ c.canvas_height_
        rw [zpow_zero, one_mul]
        exact not_lt.mp (fun h => hB (Or.inr h))
      · show c.zoom_factor * c.zoom_factor ^ (0 : Int) * buff.buffer_width_f ≥ c.canvas_width_
          ∨ c.zoom_factor * c.zoom_factor ^ (0 : Int) * buff.buffer_height_f ≥ c.canvas_height_
        rw [zpow_zero, mul_one]
        have hw : buff.buffer_width_f ≤ c.canvas_width_ := not_lt.mp (fun h => hB (Or.inl h))
        have hh : buff.buffer_height_f ≤ c.canvas_height_ := not_lt.mp (fun h => hB (Or.inr h))
        by_cases h1 : c.canvas_width_ > buff.buffer_width_f
        · right
          have h2 : ¬ c.canvas_height_ > buff.buffer_height_f := fun h => hA ⟨h1, h⟩
          have h3 : c.canvas_height_ = buff.buffer_height_f := le_antisymm (not_lt.mp h2) hh
          rw [h3]
          nlinarith
        · left
          have h3 : c.canvas_width_ = buff.buffer_width_f := le_antisymm (not_lt.mp h1) hw
          rw [h3]
          nlinarith

theorem sample_camera_zoom :
    ∃ c', set_initial_zoom 4 sample_camera small_buffer = some c' ∧ c'.zoom_power_ = 3 ∧
      c'.zoom = 8 := by
  refine ⟨{ sample_camera with zoom_power_ := 3, zoom := 8 }, ?_, rfl, rfl⟩
  simp [set_initial_zoom, zoom_in_loop, sample_camera, small_buffer]
  norm_num

/-! ## Claims -/

/-- C8. Permutation law: for every buffer and contrast, at every pixel of the image the plane
made with the layout `bgra` is the plane made with the layout `rgba` with bytes 0 and 2 of the
pixel exchanged and bytes 1 and 3 unchanged; the two planes have the same length. -/
theorem export_bitmap_bgra_swaps_red_blue (tg : Target) (T : ElemType) (buffer : Buffer)
    (x y : Nat) (hx : (x : Int) < static_cast_int buffer.buffer_width_f)
    (hy : (y : Int) < static_cast_int buffer.buffer_height_f) :
    (export_bitmap tg T { buffer with get_pixel_layout := ['b', 'g', 'r', 'a'] }).data[
        4 * ((static_cast_int buffer.buffer_width_f).toNat * y + x)]?
      = (export_bitmap tg T { buffer with get_pixel_layout := ['r', 'g', 'b', 'a'] }).data[
        4 * ((static_cast_int buffer.buffer_width_f).toNat * y + x) + 2]? ∧
    (export_bitmap tg T { buffer with get_pixel_layout := ['b', 'g', 'r', 'a'] }).data[
        4 * ((static_cast_int buffer.buffer_width_f).toNat * y + x) + 2]?
      = (export_bitmap tg T { buffer with get_pixel_layout := ['r', 'g', 'b', 'a'] }).data[
        4 * ((static_cast_int buffer.buffer_width_f).toNat * y + x)]? ∧
    (export_bitmap tg T { buffer with get_pixel_layout := ['b', 'g', 'r', 'a'] }).data[
        4 * ((static_cast_int buffer.buffer_width_f).toNat * y + x) + 1]?
      = (export_bitmap tg T { buffer with get_pixel_layout := ['r', 'g', 'b', 'a'] }).data[
        4 * ((static_cast_int buffer.buffer_width_f).toNat * y + x) + 1]? ∧
    (export_bitmap tg T { buffer with get_pixel_layout := ['b', 'g', 'r', 'a'] }).data[
        4 * ((static_cast_int buffer.buffer_width_f).toNat * y + x) + 3]?
      = (export_bitmap tg T { buffer with get_pixel_layout := ['r', 'g', 'b', 'a'] }).data[
        4 * ((static_cast_int buffer.buffer_width_f).toNat * y + x) + 3]? ∧
    (export_bitmap tg T { buffer with get_pixel_layout := ['b', 'g', 'r', 'a'] }).data.length
      = (export_bitmap tg T { buffer with get_pixel_layout := ['r', 'g', 'b', 'a'] }).data.length
    := by
  have vr : valid_layout ['r', 'g', 'b', 'a'] := by decide
  have vb : valid_layout ['b', 'g', 'r', 'a'] := by decide
  have r := fun c hc => export_bitmap_data_at tg T
    { buffer with get_pixel_layout := ['r', 'g', 'b', 'a'] } vr x y c hx hy hc
  have b := fun c hc => export_bitmap_data_at tg T
    { buffer with get_pixel_layout := ['b', 'g', 'r', 'a'] } vb x y c hx hy hc
  have r0 := r 0 (by omega)
  have r1 := r 1 (by omega)
  have r2 := r 2 (by omega)
  have r3 := r 3 (by omega)
  have b0 := b 0 (by omega)
  have b1 := b 1 (by omega)
  have b2 := b 2 (by omega)
  have b3 := b 3 (by omega)
  have q := fun j hj => state_after_pixel_layout_irrelevant tg T buffer ['b', 'g', 'r', 'a']
    ['r', 'g', 'b', 'a'] x y j hj
  simp only [List.getD_cons_zero, List.getD_cons_succ, letter_index] at r0 r1 r2 r3 b0 b1 b2 b3
  simp only [Char.reduceEq, if_true, if_false, Nat.add_zero] at r0 r1 r2 r3 b0 b1 b2 b3
  refine ⟨?_, ?_, ?_, ?_, ?_⟩
  · rw [b2, r2, q 2 (by omega)]
  · rw [b0, r0, q 0 (by omega)]
  · rw [b1, r1, q 1 (by omega)]
  · rw [b3, r3, q 3 (by omega)]
  · rw [export_bitmap_data_length, export_bitmap_data_length]

/-- C8, at the pixel of scenario B. -/
theorem export_bitmap_bgra_swaps_red_blue_witness :
    (export_bitmap le_target .float
        { scenario_b with get_pixel_layout := ['b', 'g', 'r', 'a'] }).data[
        4 * ((static_cast_int scenario_b.buffer_width_f).toNat * 0 + 0)]?
      = (export_bitmap le_target .float
        { scenario_b with get_pixel_layout := ['r', 'g', 'b', 'a'] }).data[
        4 * ((static_cast_int scenario_b.buffer_width_f).toNat * 0 + 0) + 2]? :=
  (export_bitmap_bgra_swaps_red_blue le_target .float scenario_b 0 0
    (by rw [scenario_b_width]; decide) (by rw [scenario_b_height]; decide)).1

/-- C10. Scenario B: for the 1x1 three-channel `float` buffer with the samples 0.5, 0.25 and
0.75, scale 1 and bias 0 on every channel and layout `bgra`, the four output bytes are 191,
63, 127 and 255: each of the first three is within 1 of 191, 64 and 128, and the fourth is
exactly 255. -/
theorem export_bitmap_scenario_b :
    (sample le_target .float scenario_b 0 = 1 / 2 ∧
      sample le_target .float scenario_b 1 = 1 / 4 ∧
      sample le_target .float scenario_b 2 = 3 / 4) ∧
    (export_bitmap le_target .float scenario_b).data = [191, 63, 127, 255] ∧
    ∃ b0 b1 b2 b3 : Nat,
      (export_bitmap le_target .float scenario_b).data = [b0, b1, b2, b3] ∧
      ((b0 : Int) - 191).natAbs ≤ 1 ∧ ((b1 : Int) - 64).natAbs ≤ 1 ∧
      ((b2 : Int) - 128).natAbs ≤ 1 ∧ b3 = 255 :=
  ⟨scenario_b_samples, scenario_b_data,
    191, 63, 127, 255, scenario_b_data, by decide, by decide, by decide, rfl⟩

/-- C12, as stated, fails. The buffer `unsupported_buffer` has the kind value 7, none of the
six enumerators; for both output types `export_buffer` writes nothing and returns to its
caller as from any other call, without the error `UnsupportedElementKind`. -/
theorem export_buffer_unsupported_counterexample :
    ¬ supported_type sample_buffer_types unsupported_buffer.type ∧
    export_buffer le_target sample_buffer_types true unsupported_buffer "out.png" .Bitmap
      = .ok .nothing ∧
    export_buffer le_target sample_buffer_types true unsupported_buffer "out.oct" .OctaveMatrix
      = .ok .nothing ∧
    export_buffer le_target sample_buffer_types true unsupported_buffer "out.png" .Bitmap
      ≠ .error .UnsupportedElementKind ∧
    export_buffer le_target sample_buffer_types true unsupported_buffer "out.oct" .OctaveMatrix
      ≠ .error .UnsupportedElementKind := by
  have hu : ¬ supported_type sample_buffer_types unsupported_buffer.type := by
    unfold supported_type; decide
  have hb : export_buffer le_target sample_buffer_types true unsupported_buffer "out.png"
      .Bitmap = .ok .nothing := by
    rw [export_buffer_bitmap, dispatched_type_unsupported _ _ hu]
  have hr : export_buffer le_target sample_buffer_types true unsupported_buffer "out.oct"
      .OctaveMatrix = .ok .nothing := by
    rw [export_buffer_raw, dispatched_type_unsupported _ _ hu]
  refine ⟨hu, hb, hr, ?_, ?_⟩
  · rw [hb]; intro h; cases h
  · rw [hr]; intro h; cases h

/-- C12, amended. For every buffer whose kind value is none of the six enumerators,
`export_buffer` calls no exporter and writes no file, for both output types, and returns
without reporting an error. -/
theorem export_buffer_unsupported (tg : Target) (bt : BufferTypeValues) (fopen_ok : Bool)
    (buffer : Buffer) (path : String) (type : OutputType)
    (h : ¬ supported_type bt buffer.type) :
    export_buffer tg bt fopen_ok buffer path type = .ok .nothing := by
  cases type
  · rw [export_buffer_bitmap, dispatched_type_unsupported _ _ h]
  · rw [export_buffer_raw, dispatched_type_unsupported _ _ h]

/-- C12, amended, at the buffer with the kind value 7 and the raw output type. -/
theorem export_buffer_unsupported_witness :
    export_buffer le_target sample_buffer_types true unsupported_buffer "out.oct" .OctaveMatrix
      = .ok .nothing :=
  export_buffer_unsupported le_target sample_buffer_types true unsupported_buffer "out.oct"
    .OctaveMatrix (by unfold supported_type; decide)

/-- C14, as stated, fails. When `fopen` gives no handle, the raw export of scenario C writes
no file and returns to its caller as from a successful call, without the error
`DestinationUnwritable`. -/
theorem export_buffer_open_failure_counterexample :
    export_binary .int16_t false scenario_c = none ∧
    export_buffer le_target sample_buffer_types false scenario_c "out.oct" .OctaveMatrix
      = .ok (.raw "out.oct" none) ∧
    export_buffer le_target sample_buffer_types false scenario_c "out.oct" .OctaveMatrix
      ≠ .error .DestinationUnwritable := by
  have hd : dispatched_type sample_buffer_types scenario_c.type = some .int16_t := by decide
  have hr : export_buffer le_target sample_buffer_types false scenario_c "out.oct"
      .OctaveMatrix = .ok (.raw "out.oct" none) := by
    rw [export_buffer_raw, hd]
    simp only [export_binary_closed_file]
  refine ⟨export_binary_closed_file _ _, hr, ?_⟩
  rw [hr]; intro h; cases h

/-- C14, amended. On the raw path, for every buffer of a supported kind, `export_buffer`
runs `export_binary` and returns without reporting an error whether or not the destination
could be opened; the file is written exactly when the opening succeeds, and when it fails
nothing is written. -/
theorem export_buffer_open_failure (tg : Target) (bt : BufferTypeValues) (fopen_ok : Bool)
    (buffer : Buffer) (path : String) (h : supported_type bt buffer.type) :
    ∃ T, export_buffer tg bt fopen_ok buffer path .OctaveMatrix
        = .ok (.raw path (export_binary T fopen_ok buffer)) ∧
      (export_binary T fopen_ok buffer = none ↔ fopen_ok = false) := by
  obtain ⟨T, hT⟩ := dispatched_type_supported bt buffer.type h
  refine ⟨T, ?_, ?_⟩
  · rw [export_buffer_raw, hT]
  · cases fopen_ok
    · simp [export_binary_closed_file]
    · obtain ⟨file, hf⟩ := export_binary_open_file T buffer
      simp [hf]

/-- C14, amended, at scenario C with a destination that cannot be opened. -/
theorem export_buffer_open_failure_witness :
    ∃ T, export_buffer le_target sample_buffer_types false scenario_c "out.oct" .OctaveMatrix
        = .ok (.raw "out.oct" (export_binary T false scenario_c)) ∧
      (export_binary T false scenario_c = none ↔ false = false) :=
  export_buffer_open_failure le_target sample_buffer_types false scenario_c "out.oct"
    (by unfold supported_type; decide)

/-- C16 fails on the code. For the `Float64` request `padded_double_request` (1x2, one
channel, stride 2) the buffer built from the doubles has `1 * 2 * 1 = 2` elements, while both
exporters, run on the buffer component with the stride of the request, read the element
index 2: `export_bitmap` at the pixel `(0, 1)` of the image, `export_binary` in its second
row. -/
theorem float_buffer_read_past_end :
    padded_double_request.type = sample_buffer_types.Float64 ∧
    padded_double_request.width_i ≤ padded_double_request.step ∧
    float_buffer_length padded_double_request = 2 ∧
    ((0 : Int) < static_cast_int
        (stage_buffer (mem_of_list []) identity_contrast padded_double_request).buffer_width_f ∧
      (1 : Int) < static_cast_int
        (stage_buffer (mem_of_list []) identity_contrast padded_double_request).buffer_height_f)
      ∧
    (2 : Int) ∈ pixel_reads le_target .float
      (stage_buffer (mem_of_list []) identity_contrast padded_double_request) 0 1 ∧
    (2 : Int) ∈ export_binary_reads
      (stage_buffer (mem_of_list []) identity_contrast padded_double_request) ∧
    ¬ ((2 : Int) < float_buffer_length padded_double_request) := by
  have hw : static_cast_int
      (stage_buffer (mem_of_list []) identity_contrast padded_double_request).buffer_width_f
      = 1 := by
    simp [static_cast_int, stage_buffer, padded_double_request]
  have hh : static_cast_int
      (stage_buffer (mem_of_list []) identity_contrast padded_double_request).buffer_height_f
      = 2 := by
    simp [static_cast_int, stage_buffer, padded_double_request]
  refine ⟨rfl, by decide, by decide, by rw [hw, hh]; decide, ?_, ?_, by decide⟩
  · rw [pixel_reads_eq]
    simp only [List.mem_map, List.mem_range]
    exact ⟨0, by decide, by decide⟩
  · unfold export_binary_reads
    simp only [hw, hh, List.mem_flatMap, List.mem_map, List.mem_range]
    exact ⟨1, by decide, 0, by decide, by decide⟩

/-- C18. Monotonicity: for every element kind and every channel `c` below the channel count
whose scale is not negative, whatever the bias, the byte `export_bitmap` computes does not
decrease with the sample: a pixel whose sample is at most that of another pixel gets a byte
that is at most the byte of the other. -/
theorem export_bitmap_byte_monotone (tg : Target) (T : ElemType) (buffer : Buffer)
    (x y x' y' c : Nat) (hc : (c : Int) < buffer.channels)
    (hs : 0 ≤ buffer.auto_buffer_contrast_brightness c)
    (hv : sample tg T buffer (y * buffer.step * buffer.channels + x * buffer.channels + c)
      ≤ sample tg T buffer (y' * buffer.step * buffer.channels + x' * buffer.channels + c)) :
    (state_after_pixel tg T buffer x y).unformatted_pixel c
      ≤ (state_after_pixel tg T buffer x' y').unformatted_pixel c := by
  rw [state_after_pixel_unformatted, if_pos (by omega), state_after_pixel_unformatted,
    if_pos (by omega)]
  exact normalized_byte_mono T _ c _ _ hs hv

/-- C18, on scenario A: the sample 10 of the first pixel is at most the sample 200 of the
second, and so are the bytes. -/
theorem export_bitmap_byte_monotone_witness :
    (state_after_pixel le_target .uint8_t scenario_a 0 0).unformatted_pixel 0
      ≤ (state_after_pixel le_target .uint8_t scenario_a 1 0).unformatted_pixel 0 :=
  export_bitmap_byte_monotone le_target .uint8_t scenario_a 0 0 1 0 0 (by decide)
    (by norm_num [scenario_a, identity_contrast])
    (by
      simp [sample, le_target, elem_bytes, ElemType.sizeof, scenario_a, mem_of_list,
        le_unsigned]
      norm_num)

/-- C20 fails on the code. A metadata list of exactly 6 items passes `assert(count == 6)`,
and the request is then built from the indices 0 to 6: the lookup of `pixel_layout` at index
6 finds no item, since 6 is no index of a list of 6 items. -/
theorem update_available_variables_index_six :
    read_symbol_metadata [10, 11, 12, 13, 14, 15]
      = some [some 10, some 11, some 12, some 13, some 14, some 15, none] ∧
    6 ∈ metadata_indices_read ∧
    ¬ (6 < [10, 11, 12, 13, 14, 15].length) ∧
    PyList_GetItem [10, 11, 12, 13, 14, 15] 6 = none := by
  decide

/-- C19. For every zoom factor above 1, positive canvas width and height and positive buffer
width and height, `Camera::set_initial_zoom` terminates (with enough fuel the run ends) with
`zoom = zoom_factor ^ zoom_power_` for a whole `zoom_power_` such that the scaled buffer fits
the canvas in both directions, while one more step of the zoom factor makes it reach or
exceed the canvas in at least one direction. -/
theorem set_initial_zoom_fits (c : Camera) (buff : Buffer) (hf : 1 < c.zoom_factor)
    (hcw : 0 < c.canvas_width_) (hch : 0 < c.canvas_height_)
    (hbw : 0 < buff.buffer_width_f) (hbh : 0 < buff.buffer_height_f) :
    ∃ fuel0, ∀ fuel, fuel0 ≤ fuel → ∃ c', set_initial_zoom fuel c buff = some c' ∧
      c'.zoom = c.zoom_factor ^ c'.zoom_power_ ∧
      c'.zoom * buff.buffer_width_f ≤ c.canvas_width_ ∧
      c'.zoom * buff.buffer_height_f ≤ c.canvas_height_ ∧
      (c.zoom_factor * c'.zoom * buff.buffer_width_f ≥ c.canvas_width_
        ∨ c.zoom_factor * c'.zoom * buff.buffer_height_f ≥ c.canvas_height_) :=
  set_initial_zoom_result c buff hf hcw hch hbw hbh

/-- C19, for zoom factor 2, a 100x100 canvas and a 10x10 buffer: the run ends with
`zoom_power_ = 3` and `zoom = 8`. -/
theorem set_initial_zoom_fits_witness :
    (∃ fuel0, ∀ fuel, fuel0 ≤ fuel → ∃ c', set_initial_zoom fuel sample_camera small_buffer
        = some c' ∧
      c'.zoom = sample_camera.zoom_factor ^ c'.zoom_power_ ∧
      c'.zoom * small_buffer.buffer_width_f ≤ sample_camera.canvas_width_ ∧
      c'.zoom * small_buffer.buffer_height_f ≤ sample_camera.canvas_height_ ∧
      (sample_camera.zoom_factor * c'.zoom * small_buffer.buffer_width_f
          ≥ sample_camera.canvas_width_
        ∨ sample_camera.zoom_factor * c'.zoom * small_buffer.buffer_height_f
          ≥ sample_camera.canvas_height_)) ∧
    ∃ c', set_initial_zoom 4 sample_camera small_buffer = some c' ∧ c'.zoom_power_ = 3 ∧
      c'.zoom = 8 :=
  ⟨set_initial_zoom_fits sample_camera small_buffer
      (by norm_num [sample_camera]) (by norm_num [sample_camera])
      (by norm_num [sample_camera]) (by norm_num [small_buffer]) (by norm_num [small_buffer]),
    sample_camera_zoom⟩

/-! ## The machine model: integers, layout table, one pixel -/

theorem int32_of_range (x : Int) (h1 : -2147483648 ≤ x) (h2 : x < 2147483648) :
    Machine.int32 x = x := by
  unfold Machine.int32
  omega

theorem int32_range (x : Int) :
    -2147483648 ≤ Machine.int32 x ∧ Machine.int32 x < 2147483648 := by
  unfold Machine.int32
  omega

theorem parse_pixel_layout_apply_m (tg : Machine.Target) (buffer : Machine.Buffer) (j : Nat) :
    Machine.parse_pixel_layout tg buffer j =
      if 0 ≤ j ∧ j < 4 then
        layout_case (buffer.get_pixel_layout.getD j (Char.ofNat 0))
          (tg.uninit_pixel_layout j % 256)
      else tg.uninit_pixel_layout j % 256 := by
  unfold Machine.parse_pixel_layout
  rw [for_from_cellwise
    (fun i d => layout_case (buffer.get_pixel_layout.getD i (Char.ofNat 0)) d)]
  intro i u j
  simp only [store_apply]

/-- When the character at a position is a channel letter, the table holds the index of the
letter there. -/
theorem parse_pixel_layout_letter_m (tg : Machine.Target) (buffer : Machine.Buffer) (c : Nat)
    (hc : c < 4)
    (hl : buffer.get_pixel_layout.getD c (Char.ofNat 0) ∈ ['r', 'g', 'b', 'a']) :
    Machine.parse_pixel_layout tg buffer c
      = letter_index (buffer.get_pixel_layout.getD c (Char.ofNat 0)) := by
  rw [parse_pixel_layout_apply_m]
  simp only [List.mem_cons, List.mem_singleton, List.not_mem_nil, or_false] at hl
  have h4 : 0 ≤ c ∧ c < 4 := ⟨Nat.zero_le c, hc⟩
  rw [if_pos h4]
  rcases hl with e | e | e | e <;> rw [e] <;> simp [layout_case, letter_index]

theorem parse_pixel_layout_lt_m (tg : Machine.Target) (buffer : Machine.Buffer)
    (hl : ∀ c < 4, buffer.get_pixel_layout.getD c (Char.ofNat 0) ∈ ['r', 'g', 'b', 'a'])
    (c : Nat) (hc : c < 4) : Machine.parse_pixel_layout tg buffer c < 4 := by
  rw [parse_pixel_layout_letter_m tg buffer c hc (hl c hc)]
  exact letter_index_lt _

/-- The content of `unformatted_pixel` after the iteration for a pixel, machine model. -/
theorem pixel_body_unformatted_m (tg : Machine.Target) (T : ElemType) (buffer : Machine.Buffer)
    (size : Nat) (pixel_layout : Nat → Nat) (x : Int) (s : Machine.LoopState) (j : Nat) :
    (Machine.pixel_body tg T buffer size pixel_layout x s).unformatted_pixel j =
      if j < buffer.channels.toNat then
        Machine.normalized_byte tg T buffer.auto_buffer_contrast_brightness j
          (tg.value_of T (elem_bytes T buffer.buffer
            (s.in_ptr + Machine.int32 (Machine.int32 (x * buffer.channels) + j))))
      else if buffer.channels = 1 ∧ j < 3 then
        Machine.normalized_byte tg T buffer.auto_buffer_contrast_brightness 0
          (tg.value_of T (elem_bytes T buffer.buffer
            (s.in_ptr + Machine.int32 (Machine.int32 (x * buffer.channels) + (0 : Nat)))))
      else if j < 4 then default_channel_vals j
      else s.unformatted_pixel j := by
  unfold Machine.pixel_body
  by_cases h1 : buffer.channels = 1
  · simp only [h1, if_true, Int.toNat_one, true_and]
    rw [default_loop_apply, grayscale_loop_apply]
    rw [normalization_loop_apply (fun c => Machine.normalized_byte tg T
      buffer.auto_buffer_contrast_brightness c
      (tg.value_of T (elem_bytes T buffer.buffer
        (s.in_ptr + Machine.int32 (Machine.int32 (x * 1) + (c : Int))))))]
    rw [normalization_loop_apply (fun c => Machine.normalized_byte tg T
      buffer.auto_buffer_contrast_brightness c
      (tg.value_of T (elem_bytes T buffer.buffer
        (s.in_ptr + Machine.int32 (Machine.int32 (x * 1) + (c : Int))))))]
    by_cases hj0 : j < 1
    · have : ¬ (max 1 3 ≤ j ∧ j < 4) := by omega
      have h13 : ¬ (1 ≤ j ∧ j < 3) := by omega
      simp [hj0, this, h13]
      intros; omega
    · by_cases hj3 : j < 3
      · have : ¬ (max 1 3 ≤ j ∧ j < 4) := by omega
        have h13 : (1 ≤ j ∧ j < 3) := by omega
        simp [hj0, this, h13, hj3]
      · by_cases hj4 : j < 4
        · have : (max 1 3 ≤ j ∧ j < 4) := by omega
          simp [hj0, this, hj3, hj4]
        · have : ¬ (max 1 3 ≤ j ∧ j < 4) := by omega
          have h13 : ¬ (1 ≤ j ∧ j < 3) := by omega
          simp [hj0, this, h13, hj3, hj4]
  · simp only [h1, if_false, false_and]
    rw [default_loop_apply]
    rw [normalization_loop_apply (fun c => Machine.normalized_byte tg T
      buffer.auto_buffer_contrast_brightness c
      (tg.value_of T (elem_bytes T buffer.buffer
        (s.in_ptr + Machine.int32 (Machine.int32 (x * buffer.channels) + (c : Int))))))]
    by_cases hj : j < buffer.channels.toNat
    · have : ¬ (buffer.channels.toNat ≤ j ∧ j < 4) := by omega
      simp [hj, this]
      intros; omega
    · by_cases hj4 : j < 4
      · have : (buffer.channels.toNat ≤ j ∧ j < 4) := by omega
        simp [hj, this, hj4]
      · have : ¬ (buffer.channels.toNat ≤ j ∧ j < 4) := by omega
        simp [hj, this, hj4]

theorem pixel_body_fault_m (tg : Machine.Target) (T : ElemType) (buffer : Machine.Buffer)
    (size : Nat) (pixel_layout : Nat → Nat) (x : Int) (s : Machine.LoopState) :
    (Machine.pixel_body tg T buffer size pixel_layout x s).fault =
      (s.fault || decide (4 < buffer.channels)
        || (List.range 4).any (fun c => decide (size ≤ s.out_ptr + pixel_layout c))) :=
  rfl

/-! ## The machine model: the pixel loops -/

theorem pixel_loop_out_ptr_m (tg : Machine.Target) (T : ElemType) (buffer : Machine.Buffer)
    (size : Nat) (pl : Nat → Nat) (a hi : Nat) (s : Machine.LoopState) (h : a ≤ hi) :
    (for_from a hi (fun x s => Machine.pixel_body tg T buffer size pl x s) s).out_ptr
      = s.out_ptr + 4 * (hi - a) := by
  induction hi with
  | zero => simp [for_from_ge]
  | succ n ih =>
    by_cases hn : a ≤ n
    · rw [for_from_last a n _ _ hn]
      show (for_from a n (fun x s => Machine.pixel_body tg T buffer size pl x s) s).out_ptr + 4
        = _
      rw [ih hn]; omega
    · rw [for_from_ge a (n + 1) _ _ (by omega)]; omega

theorem pixel_loop_in_ptr_m (tg : Machine.Target) (T : ElemType) (buffer : Machine.Buffer)
    (size : Nat) (pl : Nat → Nat) (a hi : Nat) (s : Machine.LoopState) :
    (for_from a hi (fun x s => Machine.pixel_body tg T buffer size pl x s) s).in_ptr
      = s.in_ptr := by
  induction hi with
  | zero => simp [for_from_ge]
  | succ n ih =>
    by_cases hn : a ≤ n
    · rw [for_from_last a n _ _ hn]
      exact ih
    · rw [for_from_ge a (n + 1) _ _ (by omega)]

/-- No store of the pixel loop leaves the arrays when there are at most 4 channels, every
entry of the table is below 4 and the pixels of the loop fit the plane. -/
theorem pixel_loop_fault_m (tg : Machine.Target) (T : ElemType) (buffer : Machine.Buffer)
    (size : Nat) (pl : Nat → Nat) (hch : buffer.channels ≤ 4) (hpl : ∀ c < 4, pl c < 4)
    (a hi : Nat) (s : Machine.LoopState) (hs : s.fault = false)
    (hfit : s.out_ptr + 4 * (hi - a) ≤ size) :
    (for_from a hi (fun x s => Machine.pixel_body tg T buffer size pl x s) s).fault
      = false := by
  induction hi with
  | zero => simp [for_from_ge, hs]
  | succ n ih =>
    by_cases hn : a ≤ n
    · rw [for_from_last a n _ _ hn, pixel_body_fault_m, ih (by omega),
        pixel_loop_out_ptr_m tg T buffer size pl a n s hn]
      have h4 : ¬ (4 < buffer.channels) := by omega
      simp only [h4, decide_False, Bool.or_false, Bool.false_or, List.any_eq_false,
        List.mem_range, decide_eq_true_eq, not_le]
      intro c hc
      have := hpl c hc
      omega
    · rw [for_from_ge a (n + 1) _ _ (by omega)]; exact hs

theorem row_body_out_ptr_m (tg : Machine.Target) (T : ElemType) (buffer : Machine.Buffer)
    (width_i : Int) (size : Nat) (pl : Nat → Nat) (s : Machine.LoopState) :
    (Machine.row_body tg T buffer width_i size pl s).out_ptr
      = s.out_ptr + 4 * width_i.toNat := by
  show (for_from 0 width_i.toNat
    (fun x s => Machine.pixel_body tg T buffer size pl x s) s).out_ptr = _
  rw [pixel_loop_out_ptr_m tg T buffer size pl 0 width_i.toNat s (Nat.zero_le _)]
  simp

theorem row_body_in_ptr_m (tg : Machine.Target) (T : ElemType) (buffer : Machine.Buffer)
    (width_i : Int) (size : Nat) (pl : Nat → Nat) (s : Machine.LoopState) :
    (Machine.row_body tg T buffer width_i size pl s).in_ptr
      = s.in_ptr + Machine.int32 (buffer.channels * buffer.step) := by
  show (for_from 0 width_i.toNat
    (fun x s => Machine.pixel_body tg T buffer size pl x s) s).in_ptr + _ = _
  rw [pixel_loop_in_ptr_m]

theorem row_body_fault_m (tg : Machine.Target) (T : ElemType) (buffer : Machine.Buffer)
    (width_i : Int) (size : Nat) (pl : Nat → Nat) (hch : buffer.channels ≤ 4)
    (hpl : ∀ c < 4, pl c < 4) (s : Machine.LoopState) (hs : s.fault = false)
    (hfit : s.out_ptr + 4 * width_i.toNat ≤ size) :
    (Machine.row_body tg T buffer width_i size pl s).fault = false := by
  show (for_from 0 width_i.toNat
    (fun x s => Machine.pixel_body tg T buffer size pl x s) s).fault = false
  exact pixel_loop_fault_m tg T buffer size pl hch hpl 0 width_i.toNat s hs (by simpa using hfit)

theorem row_loop_out_ptr_m (tg : Machine.Target) (T : ElemType) (buffer : Machine.Buffer)
    (width_i : Int) (size : Nat) (pl : Nat → Nat) (n : Nat) (s : Machine.LoopState) :
    (for_from 0 n (fun _ s => Machine.row_body tg T buffer width_i size pl s) s).out_ptr
      = s.out_ptr + 4 * width_i.toNat * n := by
  induction n with
  | zero => simp [for_from_ge]
  | succ n ih =>
    rw [for_from_last 0 n _ _ (Nat.zero_le _), row_body_out_ptr_m, ih]
    ring

theorem row_loop_in_ptr_m (tg : Machine.Target) (T : ElemType) (buffer : Machine.Buffer)
    (width_i : Int) (size : Nat) (pl : Nat → Nat) (n : Nat) (s : Machine.LoopState) :
    (for_from 0 n (fun _ s => Machine.row_body tg T buffer width_i size pl s) s).in_ptr
      = s.in_ptr + n * Machine.int32 (buffer.channels * buffer.step) := by
  induction n with
  | zero => simp [for_from_ge]
  | succ n ih =>
    rw [for_from_last 0 n _ _ (Nat.zero_le _), row_body_in_ptr_m, ih]
    push_cast
    ring

theorem row_loop_fault_m (tg : Machine.Target) (T : ElemType) (buffer : Machine.Buffer)
    (width_i : Int) (size : Nat) (pl : Nat → Nat) (hch : buffer.channels ≤ 4)
    (hpl : ∀ c < 4, pl c < 4) (n : Nat) (s : Machine.LoopState) (hs : s.fault = false)
    (hfit : s.out_ptr + 4 * width_i.toNat * n ≤ size) :
    (for_from 0 n (fun _ s => Machine.row_body tg T buffer width_i size pl s) s).fault
      = false := by
  induction n with
  | zero => simp [for_from_ge, hs]
  | succ n ih =>
    have h1 : 4 * width_i.toNat * (n + 1) = 4 * width_i.toNat * n + 4 * width_i.toNat := by
      ring
    rw [for_from_last 0 n _ _ (Nat.zero_le _)]
    apply row_body_fault_m tg T buffer width_i size pl hch hpl _ (ih (by omega))
    rw [row_loop_out_ptr_m]
    omega

/-- The value the clamp hands to the cast is a NaN or a number between 0 and 255. -/
theorem clamp_cases_m (v : Machine.F32) :
    Machine.clamp v (.fin 0) (.fin 255) = .nan ∨
      ∃ q : ℚ, Machine.clamp v (.fin 0) (.fin 255) = .fin q ∧ 0 ≤ q ∧ q ≤ 255 := by
  cases v with
  | nan => left; rfl
  | inf s =>
    right
    cases s
    · exact ⟨255, by simp [Machine.clamp, Machine.F32.lt], by norm_num, le_refl _⟩
    · exact ⟨0, by simp [Machine.clamp, Machine.F32.lt], le_refl _, by norm_num⟩
  | fin q =>
    right
    by_cases h0 : q < 0
    · exact ⟨0, by simp [Machine.clamp, Machine.F32.lt, h0], le_refl _, by norm_num⟩
    · by_cases h1 : 255 < q
      · exact ⟨255, by simp [Machine.clamp, Machine.F32.lt, h0, h1], by norm_num, le_refl _⟩
      · exact ⟨q, by simp [Machine.clamp, Machine.F32.lt, h0, h1], by linarith, by linarith⟩

theorem static_cast_uint8_fin_m (tg : Machine.Target) (q : ℚ) (h0 : 0 ≤ q) (h1 : q ≤ 255) :
    Machine.static_cast_uint8 tg (.fin q) = ⌊q⌋.toNat ∧ ⌊q⌋.toNat < 256 := by
  have f0 : 0 ≤ ⌊q⌋ := Int.floor_nonneg.mpr h0
  have f1 : ⌊q⌋ < 256 := by
    rw [Int.floor_lt]
    push_cast
    linarith
  constructor
  · show (if -1 < q ∧ q < 256 then (static_cast_int q).toNat
      else tg.cast_undefined % 256) = _
    unfold static_cast_int
    rw [if_pos ⟨by linarith, by linarith⟩, if_pos h0]
  · omega

theorem rows_upto_out_ptr_m (tg : Machine.Target) (T : ElemType) (buffer : Machine.Buffer)
    (width_i : Int) (size : Nat) (n : Nat) :
    (Machine.rows_upto tg T buffer width_i size n).out_ptr = 4 * width_i.toNat * n := by
  unfold Machine.rows_upto
  rw [row_loop_out_ptr_m]
  simp [Machine.initial_state]

theorem rows_upto_in_ptr_m (tg : Machine.Target) (T : ElemType) (buffer : Machine.Buffer)
    (width_i : Int) (size : Nat) (n : Nat) :
    (Machine.rows_upto tg T buffer width_i size n).in_ptr
      = n * Machine.int32 (buffer.channels * buffer.step) := by
  unfold Machine.rows_upto
  rw [row_loop_in_ptr_m]
  simp [Machine.initial_state]

theorem rows_upto_fault_m (tg : Machine.Target) (T : ElemType) (buffer : Machine.Buffer)
    (width_i : Int) (size : Nat) (n : Nat) (hch : buffer.channels ≤ 4)
    (hl : ∀ c < 4, buffer.get_pixel_layout.getD c (Char.ofNat 0) ∈ ['r', 'g', 'b', 'a'])
    (hfit : 4 * width_i.toNat * n ≤ size) :
    (Machine.rows_upto tg T buffer width_i size n).fault = false := by
  unfold Machine.rows_upto
  apply row_loop_fault_m tg T buffer width_i size _ hch (parse_pixel_layout_lt_m tg buffer hl)
  · rfl
  · simpa [Machine.initial_state] using hfit

theorem row_upto_in_ptr_m (tg : Machine.Target) (T : ElemType) (buffer : Machine.Buffer)
    (size : Nat) (pl : Nat → Nat) (n : Nat) (s : Machine.LoopState) :
    (Machine.row_upto tg T buffer size pl n s).in_ptr = s.in_ptr :=
  pixel_loop_in_ptr_m tg T buffer size pl 0 n s

theorem row_upto_out_ptr_m (tg : Machine.Target) (T : ElemType) (buffer : Machine.Buffer)
    (size : Nat) (pl : Nat → Nat) (n : Nat) (s : Machine.LoopState) :
    (Machine.row_upto tg T buffer size pl n s).out_ptr = s.out_ptr + 4 * n := by
  unfold Machine.row_upto
  rw [pixel_loop_out_ptr_m tg T buffer size pl 0 n s (Nat.zero_le _)]
  simp

/-- The byte that the iteration for the pixel `(x, y)` leaves in `unformatted_pixel[c]` for a
source channel `c`, with the element index as the code computes it. -/
theorem state_after_pixel_unformatted_m (tg : Machine.Target) (T : ElemType)
    (buffer : Machine.Buffer) (width_i : Int) (size : Nat) (x y c : Nat)
    (hc : (c : Int) < buffer.channels) :
    (Machine.state_after_pixel tg T buffer width_i size x y).unformatted_pixel c =
      Machine.normalized_byte tg T buffer.auto_buffer_contrast_brightness c
        (tg.value_of T (elem_bytes T buffer.buffer
          (y * Machine.int32 (buffer.channels * buffer.step)
            + Machine.int32 (Machine.int32 (x * buffer.channels) + c)))) := by
  unfold Machine.state_after_pixel
  rw [pixel_body_unformatted_m, if_pos (by omega), row_upto_in_ptr_m, rows_upto_in_ptr_m]

/-- The element index of channel `c` of the pixel `(x, y)` when no product overflows. -/
theorem pixel_index_m (buffer : Machine.Buffer) (x y c : Nat) (hch : 0 ≤ buffer.channels)
    (hstride : -2147483648 ≤ buffer.channels * buffer.step ∧
      buffer.channels * buffer.step < 2147483648)
    (hcol : (x : Int) * buffer.channels + c < 2147483648) :
    (y : Int) * Machine.int32 (buffer.channels * buffer.step)
        + Machine.int32 (Machine.int32 (x * buffer.channels) + c)
      = y * buffer.step * buffer.channels + x * buffer.channels + c := by
  have hx0 : (0 : Int) ≤ x := Int.ofNat_nonneg x
  have hc0 : (0 : Int) ≤ c := Int.ofNat_nonneg c
  have h2 : (0 : Int) ≤ x * buffer.channels := mul_nonneg hx0 hch
  rw [int32_of_range _ hstride.1 hstride.2,
    int32_of_range (x * buffer.channels) (by omega) (by omega),
    int32_of_range _ (by omega) (by omega)]
  ring

/-- The size of the plane when no product overflows. -/
theorem plane_size_m (w h : Int) (hw : 0 ≤ w) (hh : 0 ≤ h) (hrow : 4 * w < 2147483648)
    (hsz : 4 * w * h < 2147483648) : Machine.plane_size w h = 4 * w * h := by
  unfold Machine.plane_size
  have : 0 ≤ 4 * w * h := mul_nonneg (by omega) hh
  rw [int32_of_range (4 * w) (by omega) hrow, int32_of_range _ (by omega) hsz]

/-- When the sizes fit an `int`, there are at most 4 channels and the four characters of the
layout are channel letters, `export_bitmap` returns, and the plane it hands to `save` holds
the first `4 * width * height` cells of `processed_buffer` after the last row. -/
theorem export_bitmap_returned_m (tg : Machine.Target) (T : ElemType) (buffer : Machine.Buffer)
    (w h : Int) (hwf : Machine.static_cast_int32 buffer.buffer_width_f = some w)
    (hhf : Machine.static_cast_int32 buffer.buffer_height_f = some h)
    (hw : 0 ≤ w) (hh : 0 ≤ h) (hrow : 4 * w < 2147483648) (hsz : 4 * w * h < 2147483648)
    (hch : buffer.channels ≤ 4)
    (hl : ∀ c < 4, buffer.get_pixel_layout.getD c (Char.ofNat 0) ∈ ['r', 'g', 'b', 'a']) :
    Machine.export_bitmap tg T buffer = .returned
      { data := (List.range (4 * w * h).toNat).map
          (Machine.rows_upto tg T buffer w (4 * w * h).toNat h.toNat).processed_buffer,
        width := w, height := h, bytes_per_line := 4 * w } := by
  have hp := plane_size_m w h hw hh hrow hsz
  have h0 : 0 ≤ 4 * w * h := mul_nonneg (by omega) hh
  unfold Machine.export_bitmap
  rw [hwf, hhf]
  simp only [hp]
  rw [if_neg (by omega),
    rows_upto_fault_m tg T buffer w _ h.toNat hch hl (le_of_eq (toNat_four_mul w h hw hh).symm)]
  simp only [Bool.false_eq_true, if_false]
  rw [int32_of_range (w * 4) (by omega) (by omega)]
  congr 2
  ring

/-! ## The machine model: the constants of the normalisation -/

theorem get_max_intensity_m (T : ElemType) :
    Machine.get_max_intensity T = spec_max_binary32 T := by
  cases T <;> decide!

theorem get_multiplier_m (T : ElemType) :
    Machine.get_multiplier T = Machine.F32.div (.fin 255) (spec_max_binary32 T) := by
  cases T <;> decide!

/-- The maximum intensity times the multiplier is 255 in binary32, for every kind. -/
theorem max_times_multiplier_m (T : ElemType) :
    Machine.F32.mul (spec_max_binary32 T) (Machine.F32.div (.fin 255) (spec_max_binary32 T))
      = .fin 255 := by
  cases T <;> decide!

theorem zero_times_multiplier_m (T : ElemType) :
    Machine.F32.mul (.fin 0) (Machine.F32.div (.fin 255) (spec_max_binary32 T)) = .fin 0 := by
  cases T <;> decide!

theorem clamped_value_m (T : ElemType) (bc_comp : Nat → Machine.F32) (c : Nat)
    (v : Machine.F32) :
    Machine.clamped_value T bc_comp c v
      = spec_clamped_binary32 T (bc_comp c) (bc_comp (4 + c)) v := by
  unfold Machine.clamped_value spec_clamped_binary32
  rw [get_max_intensity_m, get_multiplier_m]

/-- The byte is the integer part of the clamped value whenever that value is a number. -/
theorem normalized_byte_cases_m (tg : Machine.Target) (T : ElemType)
    (bc_comp : Nat → Machine.F32) (c : Nat) (v : Machine.F32) :
    Machine.clamped_value T bc_comp c v = .nan ∨
      ∃ q : ℚ, Machine.clamped_value T bc_comp c v = .fin q ∧ 0 ≤ q ∧ q ≤ 255 ∧
        Machine.normalized_byte tg T bc_comp c v = ⌊q⌋.toNat := by
  unfold Machine.normalized_byte
  unfold Machine.clamped_value
  rcases clamp_cases_m (Machine.F32.mul (Machine.F32.add (Machine.F32.mul v (bc_comp c))
    (Machine.F32.mul (bc_comp (4 + c)) (Machine.get_max_intensity T)))
    (Machine.get_multiplier T)) with h | ⟨q, hq, h0, h1⟩
  · left; exact h
  · right
    refine ⟨q, hq, h0, h1, ?_⟩
    rw [hq]
    exact (static_cast_uint8_fin_m tg q h0 h1).1

/-- The rounding at known binary32 values: the maximum of `int32_t` rounds up to `2 ^ 31`; the
multipliers of `uint16_t`, `int16_t` and `int32_t`; a tie goes to the even neighbour
(`2 ^ 24 + 1` to `2 ^ 24`, `2 ^ 24 + 3` to `2 ^ 24 + 4`); the least subnormal is
`2 ^ (-149)`, and half of it rounds to 0; `FLT_MAX` is kept and `2 ^ 128` overflows. -/
theorem round32_values :
    Machine.round32 2147483647 = .fin 2147483648 ∧
    Machine.get_multiplier .uint16_t = .fin (16711935 / 4294967296) ∧
    Machine.get_multiplier .int16_t = .fin (8356095 / 1073741824) ∧
    Machine.get_multiplier .int32_t = .fin (255 / 2147483648) ∧
    Machine.round32 16777217 = .fin 16777216 ∧
    Machine.round32 16777219 = .fin 16777220 ∧
    Machine.round32 (1 / 3) = .fin (11184811 / 33554432) ∧
    Machine.round32 (-15000805 / 33554432) = .fin (-15000805 / 33554432) ∧
    Machine.round32 (1 / 2 ^ 149) = .fin (1 / 2 ^ 149) ∧
    Machine.round32 (1 / 2 ^ 150) = .fin 0 ∧
    Machine.round32 (3 / 2 ^ 150) = .fin (2 / 2 ^ 149) ∧
    Machine.round32 340282346638528859811704183484516925440
      = .fin 340282346638528859811704183484516925440 ∧
    Machine.round32 (2 ^ 128) = .inf false ∧
    Machine.round32 (-(2 ^ 128)) = .inf true := by
  decide!

/-! ## The machine model: the raw matrix file -/

theorem static_cast_int32_range (f : Machine.F32) (v : Int)
    (h : Machine.static_cast_int32 f = some v) : -2147483648 ≤ v ∧ v < 2147483648 := by
  cases f with
  | nan => cases h
  | inf s => cases h
  | fin q =>
    have h' : (if -2147483648 ≤ static_cast_int q ∧ static_cast_int q < 2147483648
        then some (static_cast_int q) else none) = some v := h
    split_ifs at h' with hr
    cases h'
    exact hr

/-- The offset of a row when the product does not overflow. -/
theorem row_offset_m (buffer : Machine.Buffer) (y : Int) (hch : 1 ≤ buffer.channels)
    (h : -2147483648 ≤ y * buffer.step * buffer.channels ∧
      y * buffer.step * buffer.channels < 2147483648) :
    Machine.row_offset buffer y = y * buffer.step * buffer.channels := by
  unfold Machine.row_offset
  have h1 : -2147483648 ≤ y * buffer.step ∧ y * buffer.step < 2147483648 := by
    constructor <;> nlinarith [h.1, h.2]
  rw [int32_of_range _ h1.1 h1.2, int32_of_range _ h.1 h.2]

theorem flatMap_congr_mem {α β : Type} (l : List α) (f g : α → List β)
    (h : ∀ a ∈ l, f a = g a) : l.flatMap f = l.flatMap g := by
  induction l with
  | nil => rfl
  | cons a l ih =>
    rw [List.flatMap_cons, List.flatMap_cons, h a (List.mem_cons_self a l),
      ih (fun b hb => h b (List.mem_cons_of_mem a hb))]

/-- The file `export_binary` writes, in the words of the specification, when neither the
element count of a row nor the offset of a row overflows. -/
theorem export_binary_eq_m (T : ElemType) (buffer : Machine.Buffer) (h w ch : Nat)
    (hh : Machine.static_cast_int32 buffer.buffer_height_f = some (h : Int))
    (hw : Machine.static_cast_int32 buffer.buffer_width_f = some (w : Int))
    (hch : buffer.channels = ch) (hch1 : 1 ≤ ch)
    (hcount : (w : Int) * ch < 2147483648)
    (hoff : ∀ y : Nat, y < h → -2147483648 ≤ (y : Int) * buffer.step * ch ∧
      (y : Int) * buffer.step * ch < 2147483648) :
    Machine.export_binary T true buffer
      = .returned (some (spec_raw_file T (spec_token T) buffer.buffer h w ch buffer.step)) := by
  have hc0 : (0 : Int) ≤ (w : Int) * ch := mul_nonneg (Int.ofNat_nonneg _) (Int.ofNat_nonneg _)
  have hcnt : Machine.int32 ((w : Int) * ch) = ((w * ch : Nat) : Int) := by
    rw [int32_of_range _ (by omega) hcount]
    push_cast
    rfl
  unfold Machine.export_binary spec_raw_file spec_written_indices
  rw [hw, hh]
  simp only [if_true, hch, hcnt, Int.toNat_natCast, append_loop]
  rw [if_neg (by omega)]
  have e : ∀ y ∈ List.range h,
      fwrite buffer.buffer (Machine.row_offset buffer y * T.sizeof) T.sizeof ((w * ch : Nat) : Int)
        = (List.range (w * ch)).flatMap
            (fun i => elem_bytes T buffer.buffer ((y : Int) * buffer.step * ch + i)) := by
    intro y hy
    rw [row_offset_m buffer y (by omega) (by rw [hch]; exact hoff y (List.mem_range.mp hy)), hch]
    exact fwrite_elements T buffer.buffer ((y : Int) * buffer.step * ch) (w * ch)
  rw [flatMap_congr_mem _ _ _ e]
  have t : get_type_descriptor T = spec_token T := by cases T <;> rfl
  rw [t]
  unfold fprintf_line
  simp only [List.flatMap_assoc, List.flatMap_map]

/-! ## The machine model: the indices read and written -/

theorem pixel_reads_m (tg : Machine.Target) (T : ElemType) (buffer : Machine.Buffer)
    (width_i : Int) (size : Nat) (x y : Nat) :
    Machine.pixel_reads tg T buffer width_i size x y
      = (List.range buffer.channels.toNat).map (fun (c : Nat) =>
          (y : Int) * Machine.int32 (buffer.channels * buffer.step)
            + Machine.int32 (Machine.int32 ((x : Int) * buffer.channels) + c)) := by
  unfold Machine.pixel_reads
  simp only [row_upto_in_ptr_m, rows_upto_in_ptr_m]

theorem pixel_writes_m (tg : Machine.Target) (T : ElemType) (buffer : Machine.Buffer)
    (width_i : Int) (size : Nat) (x y : Nat) :
    Machine.pixel_writes tg T buffer width_i size x y
      = (List.range 4).map (fun (c : Nat) =>
          4 * width_i.toNat * y + 4 * x + Machine.parse_pixel_layout tg buffer c) := by
  unfold Machine.pixel_writes
  simp only [row_upto_out_ptr_m, rows_upto_out_ptr_m]

/-- The indices read and written stay inside the source and the plane when the layout is made
of channel letters and neither `height * step * channels` nor `4 * width * height`
overflows. -/
theorem read_write_safety_m (tg : Machine.Target) (T : ElemType) (buffer : Machine.Buffer)
    (w h : Int)
    (hl : ∀ c < 4, buffer.get_pixel_layout.getD c (Char.ofNat 0) ∈ ['r', 'g', 'b', 'a'])
    (hw : 0 < w) (hch : 1 ≤ buffer.channels) (hstep : w ≤ buffer.step)
    (hsrc : h * buffer.step * buffer.channels < 2147483648)
    (hsz : 4 * w * h < 2147483648) :
    (∀ x y : Nat, (x : Int) < w → (y : Int) < h →
      (∀ idx ∈ Machine.pixel_reads tg T buffer w (Machine.plane_size w h).toNat x y,
        0 ≤ idx ∧ idx < h * buffer.step * buffer.channels) ∧
      (∀ o ∈ Machine.pixel_writes tg T buffer w (Machine.plane_size w h).toNat x y,
        (o : Int) < 4 * w * h ∧ (o : Int) < Machine.plane_size w h)) ∧
    (∀ idx ∈ Machine.export_binary_reads buffer w h,
      0 ≤ idx ∧ idx < h * buffer.step * buffer.channels) := by
  have hst : 0 < buffer.step := by omega
  have hcs : 0 < buffer.channels * buffer.step := mul_pos (by omega) hst
  have hwc : w * buffer.channels ≤ buffer.channels * buffer.step := by nlinarith
  constructor
  · intro x y hx hy
    have hy0 : (0 : Int) ≤ y := Int.ofNat_nonneg y
    have hx0 : (0 : Int) ≤ x := Int.ofNat_nonneg x
    have hh : 1 ≤ h := by omega
    have hcs2 : buffer.channels * buffer.step ≤ h * buffer.step * buffer.channels := by
      nlinarith
    constructor
    · intro idx hidx
      rw [pixel_reads_m] at hidx
      simp only [List.mem_map, List.mem_range] at hidx
      obtain ⟨c, hc, rfl⟩ := hidx
      have hc' : (c : Int) < buffer.channels := by omega
      have hxc : (x : Int) * buffer.channels + buffer.channels ≤ w * buffer.channels := by
        nlinarith
      rw [pixel_index_m buffer x y c (by omega) ⟨by omega, by omega⟩ (by omega)]
      have := element_index_bound h buffer.step buffer.channels y x c hy0 hy hx0 (by omega)
        (Int.ofNat_nonneg c) hc'
      constructor
      · linarith [this.1]
      · linarith [this.2]
    · intro o ho
      rw [pixel_writes_m] at ho
      simp only [List.mem_map, List.mem_range] at ho
      obtain ⟨c, hc, rfl⟩ := ho
      have hp := parse_pixel_layout_lt_m tg buffer hl c hc
      have hlt := pixel_index_lt w.toNat h.toNat x y _ (by omega) (by omega) hp
      have e := toNat_four_mul w h (by omega) (by omega)
      rw [← e] at hlt
      have h4w : 4 * w ≤ 4 * w * h := by nlinarith
      rw [plane_size_m w h (by omega) (by omega) (by omega) hsz]
      have e3 : 4 * w.toNat * y + 4 * x = 4 * (w.toNat * y + x) := by ring
      rw [e3]
      constructor <;> omega
  · intro idx hidx
    unfold Machine.export_binary_reads at hidx
    simp only [List.mem_flatMap, List.mem_map, List.mem_range] at hidx
    obtain ⟨y, hy, i, hi, rfl⟩ := hidx
    have hy0 : (0 : Int) ≤ y := Int.ofNat_nonneg y
    have hyh : (y : Int) < h := by omega
    have hh : 1 ≤ h := by omega
    have hcs2 : buffer.channels * buffer.step ≤ h * buffer.step * buffer.channels := by
      nlinarith
    have hw0 : 0 ≤ w * buffer.channels := mul_nonneg (by omega) (by omega)
    rw [int32_of_range _ (by omega) (by omega)] at hi
    have hys : 0 ≤ (y : Int) * buffer.step * buffer.channels :=
      mul_nonneg (mul_nonneg hy0 (by omega)) (by omega)
    have hys2 : ((y : Int) + 1) * (buffer.step * buffer.channels)
        ≤ h * (buffer.step * buffer.channels) :=
      mul_le_mul_of_nonneg_right (by omega) (by nlinarith)
    have hi2 : (i : Int) < w * buffer.channels := by
      have := Int.toNat_of_nonneg hw0
      omega
    rw [row_offset_m buffer y hch ⟨by omega, by nlinarith⟩]
    constructor
    · omega
    · have e4 : ((y : Int) + 1) * (buffer.step * buffer.channels)
          = (y : Int) * buffer.step * buffer.channels + buffer.channels * buffer.step := by
        ring
      have e5 : h * (buffer.step * buffer.channels) = h * buffer.step * buffer.channels := by
        ring
      omega

/-- C1, as stated, fails, for three reasons. Rounding: for the `uint8` sample 124 with scale
1.5 and bias `-15000805/33554432` (a binary32 value) the formula of the claim gives 71, while
`export_bitmap`, which rounds every operation to binary32, computes 72. NaN: for a `float`
sample that is a NaN the value handed to the truncation is a NaN, which has no integer part.
Overflow: for a 1x2 four-channel buffer with a stride of `2 ^ 29` pixels the sample of pixel
`(0, 1)` is read at element index `-2 ^ 31`, not at `y*step*channels = 2 ^ 31`. -/
theorem export_bitmap_exact_formula_counterexample :
    (Machine.rounding_buffer.auto_buffer_contrast_brightness 0 = .fin (3 / 2) ∧
      Machine.rounding_buffer.auto_buffer_contrast_brightness (4 + 0)
        = .fin (-15000805 / 33554432) ∧
      Machine.le_target.value_of .uint8_t
        (elem_bytes .uint8_t Machine.rounding_buffer.buffer 0) = .fin 124 ∧
      spec_byte .uint8_t (3 / 2) (-15000805 / 33554432) 124 = 71 ∧
      (Machine.state_after_pixel Machine.le_target .uint8_t Machine.rounding_buffer 1 4 0
        0).unformatted_pixel 0 = 72 ∧
      Machine.export_bitmap Machine.le_target .uint8_t Machine.rounding_buffer
        = .returned { data := [72, 72, 72, 255], width := 1, height := 1,
                      bytes_per_line := 4 }) ∧
    (Machine.le_target.value_of .float (elem_bytes .float Machine.nan_buffer.buffer 0) = .nan ∧
      Machine.clamped_value .float Machine.nan_buffer.auto_buffer_contrast_brightness 0
        (Machine.le_target.value_of .float (elem_bytes .float Machine.nan_buffer.buffer 0))
        = .nan) ∧
    (Machine.pixel_reads Machine.le_target .uint8_t Machine.half_step_buffer 1 8 0 1
        = [-2147483648, -2147483647, -2147483646, -2147483645] ∧
      ((1 : Nat) : Int) * Machine.half_step_buffer.step * Machine.half_step_buffer.channels
        + ((0 : Nat) : Int) * Machine.half_step_buffer.channels + ((0 : Nat) : Int)
        = 2147483648) := by
  decide!
/-- C1, amended. For every element kind, every pixel `(x, y)` and every source channel `c`
below the channel count, when neither `channels * step` nor `x*channels + c` overflows a
32-bit `int`, the byte `export_bitmap` computes before reordering is the conversion to 8 bits
of `clamp((v*scale_c + bias_c*maxI) * (255/maxI), 0, 255)` with every operation rounded to
binary32, where `v` is the sample at element index `y*step*channels + x*channels + c` as a
`float`, `scale_c` and `bias_c` are entries `c` and `4 + c` of the contrast array and `maxI`
is the binary32 value nearest to the maximum of an integer kind and 1 for `float`. That
clamped value is a NaN or a number between 0 and 255, and in the second case the byte is its
integer part. -/
theorem export_bitmap_binary32_byte (tg : Machine.Target) (T : ElemType)
    (buffer : Machine.Buffer) (width_i : Int) (size : Nat) (x y c : Nat)
    (hc : (c : Int) < buffer.channels)
    (hstride : -2147483648 ≤ buffer.channels * buffer.step ∧
      buffer.channels * buffer.step < 2147483648)
    (hcol : (x : Int) * buffer.channels + c < 2147483648) :
    (Machine.state_after_pixel tg T buffer width_i size x y).unformatted_pixel c
      = Machine.static_cast_uint8 tg
          (spec_clamped_binary32 T (buffer.auto_buffer_contrast_brightness c)
            (buffer.auto_buffer_contrast_brightness (4 + c))
            (tg.value_of T (elem_bytes T buffer.buffer
              (y * buffer.step * buffer.channels + x * buffer.channels + c)))) ∧
    (spec_clamped_binary32 T (buffer.auto_buffer_contrast_brightness c)
        (buffer.auto_buffer_contrast_brightness (4 + c))
        (tg.value_of T (elem_bytes T buffer.buffer
          (y * buffer.step * buffer.channels + x * buffer.channels + c))) = .nan ∨
      ∃ q : ℚ,
        spec_clamped_binary32 T (buffer.auto_buffer_contrast_brightness c)
          (buffer.auto_buffer_contrast_brightness (4 + c))
          (tg.value_of T (elem_bytes T buffer.buffer
            (y * buffer.step * buffer.channels + x * buffer.channels + c))) = .fin q ∧
        0 ≤ q ∧ q ≤ 255 ∧
        (Machine.state_after_pixel tg T buffer width_i size x y).unformatted_pixel c
          = ⌊q⌋.toNat) := by
  have hch : 0 ≤ buffer.channels := by omega
  rw [state_after_pixel_unformatted_m tg T buffer width_i size x y c hc,
    pixel_index_m buffer x y c hch hstride hcol]
  constructor
  · unfold Machine.normalized_byte
    rw [clamped_value_m]
  · have h := normalized_byte_cases_m tg T buffer.auto_buffer_contrast_brightness c
      (tg.value_of T (elem_bytes T buffer.buffer
        (y * buffer.step * buffer.channels + x * buffer.channels + c)))
    rw [clamped_value_m] at h
    exact h

/-- C1, amended, at the pixel of `rounding_buffer`: the clamped value is 72 (the product of
the bias and 255 rounds to -114), and so is the byte. -/
theorem export_bitmap_binary32_byte_witness :
    ((Machine.state_after_pixel Machine.le_target .uint8_t Machine.rounding_buffer 1 4 0
        0).unformatted_pixel 0
      = Machine.static_cast_uint8 Machine.le_target
          (spec_clamped_binary32 .uint8_t
            (Machine.rounding_buffer.auto_buffer_contrast_brightness 0)
            (Machine.rounding_buffer.auto_buffer_contrast_brightness (4 + 0))
            (Machine.le_target.value_of .uint8_t
              (elem_bytes .uint8_t Machine.rounding_buffer.buffer
                (((0 : Nat) : Int) * Machine.rounding_buffer.step
                  * Machine.rounding_buffer.channels
                  + ((0 : Nat) : Int) * Machine.rounding_buffer.channels
                  + ((0 : Nat) : Int)))))) ∧
    spec_clamped_binary32 .uint8_t
        (Machine.rounding_buffer.auto_buffer_contrast_brightness 0)
        (Machine.rounding_buffer.auto_buffer_contrast_brightness (4 + 0))
        (Machine.le_target.value_of .uint8_t
          (elem_bytes .uint8_t Machine.rounding_buffer.buffer 0))
      = .fin 72 :=
  ⟨(export_bitmap_binary32_byte Machine.le_target .uint8_t Machine.rounding_buffer 1 4 0 0 0
      (by decide) (by decide) (by decide)).1, by decide!⟩
/-- C5, as stated, fails. For `uint16` with scale 65535 and bias -257 the coefficients send
257 to 0 and 258 to 65535 in exact arithmetic, as the claim asks, and all of these numbers
are binary32 values; but `export_bitmap` rounds the product `-257 * 65535` to -16842496, so
for the sample 258 the sum is 65534 and the byte is 254, not 255. -/
theorem export_bitmap_endpoint_rounding_counterexample :
    ((257 : ℚ) * 65535 + (-257) * spec_max_intensity .uint16_t = 0 ∧
      (258 : ℚ) * 65535 + (-257) * spec_max_intensity .uint16_t
        = spec_max_intensity .uint16_t) ∧
    (Machine.narrow_range_buffer.auto_buffer_contrast_brightness 0 = .fin 65535 ∧
      Machine.narrow_range_buffer.auto_buffer_contrast_brightness (4 + 0) = .fin (-257) ∧
      Machine.le_target.value_of .uint16_t
        (elem_bytes .uint16_t Machine.narrow_range_buffer.buffer 0) = .fin 257 ∧
      Machine.le_target.value_of .uint16_t
        (elem_bytes .uint16_t Machine.narrow_range_buffer.buffer 1) = .fin 258) ∧
    Machine.F32.mul (.fin (-257)) (Machine.get_max_intensity .uint16_t) = .fin (-16842496) ∧
    Machine.normalized_byte Machine.le_target .uint16_t
      Machine.narrow_range_buffer.auto_buffer_contrast_brightness 0 (.fin 258) = 254 ∧
    (Machine.state_after_pixel Machine.le_target .uint16_t Machine.narrow_range_buffer 2 8 1
      0).unformatted_pixel 0 = 254 ∧
    Machine.export_bitmap Machine.le_target .uint16_t Machine.narrow_range_buffer
      = .returned { data := [0, 0, 0, 255, 254, 254, 254, 255], width := 2, height := 1,
                    bytes_per_line := 8 } := by
  decide!

/-- C5, amended. For every element kind and channel `c`, when the contrast coefficients send
the sample `vmin` to 0 and the sample `vmax` to the maximum intensity of the kind in binary32
arithmetic (both products and the sum rounded, as `export_bitmap` evaluates them), the byte
`export_bitmap` computes is 0 for `vmin` and 255 for `vmax`. -/
theorem export_bitmap_binary32_endpoints (tg : Machine.Target) (T : ElemType)
    (bc_comp : Nat → Machine.F32) (c : Nat) (vmin vmax : Machine.F32)
    (hmin : Machine.F32.add (Machine.F32.mul vmin (bc_comp c))
      (Machine.F32.mul (bc_comp (4 + c)) (spec_max_binary32 T)) = .fin 0)
    (hmax : Machine.F32.add (Machine.F32.mul vmax (bc_comp c))
      (Machine.F32.mul (bc_comp (4 + c)) (spec_max_binary32 T)) = spec_max_binary32 T) :
    Machine.normalized_byte tg T bc_comp c vmin = 0 ∧
    Machine.normalized_byte tg T bc_comp c vmax = 255 := by
  unfold Machine.normalized_byte
  rw [clamped_value_m, clamped_value_m]
  unfold spec_clamped_binary32
  have e0 : Machine.clamp (.fin 0) (.fin 0) (.fin 255) = .fin 0 := by decide!
  have e1 : Machine.clamp (.fin 255) (.fin 0) (.fin 255) = .fin 255 := by decide!
  have f0 : ⌊(0 : ℚ)⌋.toNat = 0 := by norm_num
  have f1 : ⌊(255 : ℚ)⌋.toNat = 255 := by
    have : ⌊(255 : ℚ)⌋ = 255 := by norm_num
    rw [this]
    rfl
  rw [hmin, hmax, zero_times_multiplier_m, max_times_multiplier_m, e0, e1,
    (static_cast_uint8_fin_m tg 0 (le_refl _) (by norm_num)).1,
    (static_cast_uint8_fin_m tg 255 (by norm_num) (le_refl _)).1]
  exact ⟨f0, f1⟩

/-- C5, amended, on the contrast range 0..255 of `uint8` (scale 1, bias 0): the sample 0 gives
the byte 0 and the sample 255 the byte 255, and the image of `endpoints_buffer`, whose two
pixels hold these samples, is black and white. -/
theorem export_bitmap_binary32_endpoints_witness :
    (Machine.normalized_byte Machine.le_target .uint8_t Machine.identity_contrast 0 (.fin 0)
        = 0 ∧
      Machine.normalized_byte Machine.le_target .uint8_t Machine.identity_contrast 0
        (.fin 255) = 255) ∧
    Machine.export_bitmap Machine.le_target .uint8_t Machine.endpoints_buffer
      = .returned { data := [0, 0, 0, 255, 255, 255, 255, 255], width := 2, height := 1,
                    bytes_per_line := 8 } :=
  ⟨export_bitmap_binary32_endpoints Machine.le_target .uint8_t Machine.identity_contrast 0
      (.fin 0) (.fin 255) (by decide!) (by decide!), by decide!⟩
/-- C15, as stated, fails, for three reasons. The buffer `xgba_buffer` is 1x1 with 3 channels
and a stride of 1 pixel, but the first character of its layout is no channel letter, so
`pixel_layout[0]` is never stored; on a platform where the uninitialised cell holds 200,
`export_bitmap` writes at output index 200, outside the 4 bytes of the plane. The buffer
`half_step_buffer` is 1x2 with 4 channels, a valid layout and a stride of `2 ^ 29` pixels;
`channels * step` and `y * step * channels` are `2 ^ 31` and wrap to `-2 ^ 31` in the `int`
they are computed in, so the reads of row 1 by `export_bitmap` and by `export_binary` start
at element index `-2 ^ 31`, before the buffer. And for a 23171x23171 image the size
`4 * width * height` of the plane wraps to a negative number. -/
theorem export_index_safety_counterexample :
    ((Machine.static_cast_int32 Machine.xgba_buffer.buffer_width_f = some 1 ∧
        Machine.static_cast_int32 Machine.xgba_buffer.buffer_height_f = some 1 ∧
        Machine.xgba_buffer.channels = 3 ∧ Machine.xgba_buffer.step = 1) ∧
      200 ∈ Machine.pixel_writes Machine.stale_target .uint8_t Machine.xgba_buffer 1 4 0 0 ∧
      ¬ ((200 : Int) < 4 * 1 * 1)) ∧
    ((Machine.static_cast_int32 Machine.half_step_buffer.buffer_width_f = some 1 ∧
        Machine.static_cast_int32 Machine.half_step_buffer.buffer_height_f = some 2 ∧
        Machine.half_step_buffer.channels = 4 ∧ Machine.half_step_buffer.step = 536870912 ∧
        valid_layout Machine.half_step_buffer.get_pixel_layout) ∧
      Machine.pixel_reads Machine.le_target .uint8_t Machine.half_step_buffer 1 8 0 1
        = [-2147483648, -2147483647, -2147483646, -2147483645] ∧
      Machine.export_binary_reads Machine.half_step_buffer 1 2
        = [0, 1, 2, 3, -2147483648, -2147483647, -2147483646, -2147483645]) ∧
    Machine.plane_size 23171 23171 = -2147386332 := by
  decide!

/-- C15, amended. For every buffer with positive width and height, 1 to 4 channels, a stride
of at least the width and a layout of four channel letters, for which neither
`height * step * channels` nor `4 * width * height` reaches `2 ^ 31`: `export_bitmap`
returns; every element index read by `export_bitmap` at a pixel of the image and every
element index read by `export_binary` is at least 0 and below `height * step * channels`; and
every output index written by `export_bitmap` at a pixel of the image is below
`4 * width * height`, the size of the plane. -/
theorem export_index_safety (tg : Machine.Target) (T : ElemType) (buffer : Machine.Buffer)
    (w h : Int)
    (hwf : Machine.static_cast_int32 buffer.buffer_width_f = some w)
    (hhf : Machine.static_cast_int32 buffer.buffer_height_f = some h)
    (hl : ∀ c < 4, buffer.get_pixel_layout.getD c (Char.ofNat 0) ∈ ['r', 'g', 'b', 'a'])
    (hw : 0 < w) (hh : 0 < h) (hch : 1 ≤ buffer.channels) (hch4 : buffer.channels ≤ 4)
    (hstep : w ≤ buffer.step)
    (hsrc : h * buffer.step * buffer.channels < 2147483648)
    (hsz : 4 * w * h < 2147483648) :
    (∃ image, Machine.export_bitmap tg T buffer = .returned image) ∧
    (∀ x y : Nat, (x : Int) < w → (y : Int) < h →
      (∀ idx ∈ Machine.pixel_reads tg T buffer w (Machine.plane_size w h).toNat x y,
        0 ≤ idx ∧ idx < h * buffer.step * buffer.channels) ∧
      (∀ o ∈ Machine.pixel_writes tg T buffer w (Machine.plane_size w h).toNat x y,
        (o : Int) < 4 * w * h ∧ (o : Int) < Machine.plane_size w h)) ∧
    (∀ idx ∈ Machine.export_binary_reads buffer w h,
      0 ≤ idx ∧ idx < h * buffer.step * buffer.channels) := by
  have h4w : 4 * w ≤ 4 * w * h := by nlinarith
  exact ⟨⟨_, export_bitmap_returned_m tg T buffer w h hwf hhf (by omega) (by omega) (by omega)
      hsz hch4 hl⟩,
    read_write_safety_m tg T buffer w h hl hw hch hstep hsrc hsz⟩

/-- C15, amended, on scenario C: the 3x2 two-channel buffer with a stride of 4 pixels has 16
elements; the reads of pixel `(2, 1)` are the elements 12 and 13 and its writes the output
indices 20 to 23 of 24. -/
theorem export_index_safety_witness :
    ((∃ image, Machine.export_bitmap Machine.le_target .int16_t (Machine.of_ideal scenario_c)
        = .returned image) ∧
      (∀ x y : Nat, (x : Int) < 3 → (y : Int) < 2 →
        (∀ idx ∈ Machine.pixel_reads Machine.le_target .int16_t (Machine.of_ideal scenario_c)
            3 (Machine.plane_size 3 2).toNat x y,
          0 ≤ idx ∧ idx < 2 * (Machine.of_ideal scenario_c).step
            * (Machine.of_ideal scenario_c).channels) ∧
        (∀ o ∈ Machine.pixel_writes Machine.le_target .int16_t (Machine.of_ideal scenario_c)
            3 (Machine.plane_size 3 2).toNat x y,
          (o : Int) < 4 * 3 * 2 ∧ (o : Int) < Machine.plane_size 3 2)) ∧
      (∀ idx ∈ Machine.export_binary_reads (Machine.of_ideal scenario_c) 3 2,
        0 ≤ idx ∧ idx < 2 * (Machine.of_ideal scenario_c).step
          * (Machine.of_ideal scenario_c).channels)) ∧
    Machine.pixel_reads Machine.le_target .int16_t (Machine.of_ideal scenario_c) 3 24 2 1
      = [12, 13] ∧
    Machine.pixel_writes Machine.le_target .int16_t (Machine.of_ideal scenario_c) 3 24 2 1
      = [20, 21, 22, 23] :=
  ⟨export_index_safety Machine.le_target .int16_t (Machine.of_ideal scenario_c) 3 2
      (by decide!) (by decide!) (by decide) (by decide) (by decide) (by decide) (by decide)
      (by decide) (by decide) (by decide),
    by decide!, by decide!⟩

/-- C3, as stated, fails. The buffer `wide_step_buffer` has width 1, height 2, 4 channels of
`uint8` and a stride of `2 ^ 30` pixels; its row 1, the samples 5, 6, 7, 8, starts at element
index `1 * step * channels = 2 ^ 32`. `export_binary` computes that offset in a 32-bit `int`,
where it wraps to 0, and writes row 0 (the samples 1, 2, 3, 4) twice. -/
theorem export_binary_row_offset_counterexample :
    (Machine.static_cast_int32 Machine.wide_step_buffer.buffer_width_f = some 1 ∧
      Machine.static_cast_int32 Machine.wide_step_buffer.buffer_height_f = some 2 ∧
      Machine.wide_step_buffer.channels = 4 ∧ Machine.wide_step_buffer.step = 1073741824) ∧
    Machine.row_offset Machine.wide_step_buffer 1 = 0 ∧
    Machine.export_binary .uint8_t true Machine.wide_step_buffer
      = .returned (some [117, 105, 110, 116, 56, 10, 2, 0, 0, 0, 1, 0, 0, 0, 4, 0, 0, 0,
          1, 2, 3, 4, 1, 2, 3, 4]) ∧
    spec_raw_file .uint8_t (spec_token .uint8_t) Machine.wide_step_buffer.buffer 2 1 4
        Machine.wide_step_buffer.step
      = [117, 105, 110, 116, 56, 10, 2, 0, 0, 0, 1, 0, 0, 0, 4, 0, 0, 0,
          1, 2, 3, 4, 5, 6, 7, 8] := by
  decide!

/-- C3, amended. For every element kind and every buffer with non-negative width and height
and at least one channel, for which `width * channels` and every row offset
`y * step * channels` (`0 ≤ y < height`) are within the range of a 32-bit `int`,
`export_binary`, once the file is open, returns after writing exactly the kind token and a
newline, then height, width and channel count as 4-byte integers, then for each row in order
the `width * channels` samples that start at element index `y * step * channels`, unchanged.
So `height * width * channels` samples are written, and each of them has an offset below
`width * channels` in its row: no padding element is written. -/
theorem export_binary_file_in_range (T : ElemType) (buffer : Machine.Buffer) (h w ch : Nat)
    (hh : Machine.static_cast_int32 buffer.buffer_height_f = some (h : Int))
    (hw : Machine.static_cast_int32 buffer.buffer_width_f = some (w : Int))
    (hch : buffer.channels = ch) (hch1 : 1 ≤ ch)
    (hcount : (w : Int) * ch < 2147483648)
    (hoff : ∀ y : Nat, y < h → -2147483648 ≤ (y : Int) * buffer.step * ch ∧
      (y : Int) * buffer.step * ch < 2147483648) :
    Machine.export_binary T true buffer
      = .returned (some (spec_raw_file T (spec_token T) buffer.buffer h w ch buffer.step)) ∧
    (spec_written_indices h w ch buffer.step).length = h * w * ch ∧
    ∀ idx ∈ spec_written_indices h w ch buffer.step,
      ∃ y < h, ∃ i < w * ch, idx = (y : Int) * buffer.step * ch + i := by
  refine ⟨export_binary_eq_m T buffer h w ch hh hw hch hch1 hcount hoff,
    spec_written_indices_length _ _ _ _, ?_⟩
  intro idx hidx
  unfold spec_written_indices at hidx
  simp only [List.mem_flatMap, List.mem_map, List.mem_range] at hidx
  obtain ⟨y, hy, i, hi, rfl⟩ := hidx
  exact ⟨y, hy, i, hi, rfl⟩

/-- C3, amended, scenario C: for the 3x2 two-channel `int16` buffer with a stride of 4 pixels
the file is the token `int16`, a newline, the integers 2, 3 and 2, and the 12 samples 1 to
12; the elements 6, 7, 14 and 15 (the padding, bytes 255) are not in it. -/
theorem export_binary_file_in_range_witness :
    (Machine.export_binary .int16_t true (Machine.of_ideal scenario_c)
      = .returned (some (spec_raw_file .int16_t (spec_token .int16_t)
          (Machine.of_ideal scenario_c).buffer 2 3 2 (Machine.of_ideal scenario_c).step)) ∧
    (spec_written_indices 2 3 2 (Machine.of_ideal scenario_c).step).length = 2 * 3 * 2 ∧
    ∀ idx ∈ spec_written_indices 2 3 2 (Machine.of_ideal scenario_c).step,
      ∃ y : Nat, y < 2 ∧ ∃ i : Nat, i < 3 * 2 ∧
        idx = (y : Int) * (Machine.of_ideal scenario_c).step * (2 : Nat) + i) ∧
    spec_written_indices 2 3 2 (Machine.of_ideal scenario_c).step
      = [0, 1, 2, 3, 4, 5, 8, 9, 10, 11, 12, 13] ∧
    spec_raw_file .int16_t (spec_token .int16_t) (Machine.of_ideal scenario_c).buffer 2 3 2
        (Machine.of_ideal scenario_c).step
      = [105, 110, 116, 49, 54, 10, 2, 0, 0, 0, 3, 0, 0, 0, 2, 0, 0, 0,
         1, 0, 2, 0, 3, 0, 4, 0, 5, 0, 6, 0, 7, 0, 8, 0, 9, 0, 10, 0, 11, 0, 12, 0] :=
  ⟨export_binary_file_in_range .int16_t (Machine.of_ideal scenario_c) 2 3 2 (by decide!)
      (by decide!) rfl (by decide) (by decide) (by decide),
    by decide, by decide⟩

/-- C4, as stated, fails. For `wide_step_buffer` (width 1, height 2, 4 channels of `uint8`,
stride `2 ^ 30` pixels) the file `export_binary` writes reads back with the header (2, 1, 4),
but the sample decoded at position `(1*1 + 0)*4 + 0` is 1, while the source sample at element
index `1*step*4 + 0*4 + 0 = 2 ^ 32` is 5: the row offset wrapped in the 32-bit `int`. -/
theorem export_binary_round_trip_counterexample :
    ∃ file m, Machine.export_binary .uint8_t true Machine.wide_step_buffer
        = .returned (some file) ∧
      read_raw_matrix file = some m ∧
      m.height = 2 ∧ m.width = 1 ∧ m.channels = 4 ∧
      m.samples[(1 * 1 + 0) * 4 + 0]? = some [1] ∧
      elem_bytes .uint8_t Machine.wide_step_buffer.buffer
        (((1 : Nat) : Int) * Machine.wide_step_buffer.step * ((4 : Nat) : Int)
          + ((0 : Nat) : Int) * ((4 : Nat) : Int) + ((0 : Nat) : Int)) = [5] :=
  ⟨[117, 105, 110, 116, 56, 10, 2, 0, 0, 0, 1, 0, 0, 0, 4, 0, 0, 0, 1, 2, 3, 4, 1, 2, 3, 4],
    { token := [117, 105, 110, 116, 56], height := 2, width := 1, channels := 4,
      samples := [[1], [2], [3], [4], [1], [2], [3], [4]] },
    by decide!⟩

/-- C4, amended. Raw round trip: for each element kind and every buffer with at least one
channel whose channel count fits an `int` and for which `width * channels` and every row
offset `y * step * channels` (`0 ≤ y < height`) are within the range of a 32-bit `int`,
whatever the stride, reading back the file `export_binary` writes gives the token of the
kind, with its element width, a header equal to the height, width and channel count of the
buffer, and `height * width * channels` samples, of which the one at position
`(y * width + x) * channels + c` has exactly the bytes of the source sample at element index
`y * step * channels + x * channels + c`. -/
theorem export_binary_round_trip_in_range (T : ElemType) (buffer : Machine.Buffer)
    (h w ch : Nat)
    (hh : Machine.static_cast_int32 buffer.buffer_height_f = some (h : Int))
    (hw : Machine.static_cast_int32 buffer.buffer_width_f = some (w : Int))
    (hch : buffer.channels = ch) (hch1 : 1 ≤ ch) (hch31 : ch < 2147483648)
    (hcount : (w : Int) * ch < 2147483648)
    (hoff : ∀ y : Nat, y < h → -2147483648 ≤ (y : Int) * buffer.step * ch ∧
      (y : Int) * buffer.step * ch < 2147483648) :
    ∃ file m, Machine.export_binary T true buffer = .returned (some file) ∧
      read_raw_matrix file = some m ∧
      m.token = (spec_token T).toList.map Char.toNat ∧
      token_width m.token = some T.sizeof ∧
      m.height = h ∧ m.width = w ∧ m.channels = ch ∧
      m.samples.length = h * w * ch ∧
      ∀ y x c : Nat, y < h → x < w → c < ch →
        m.samples[(y * w + x) * ch + c]?
          = some (elem_bytes T buffer.buffer
              ((y : Int) * buffer.step * ch + x * ch + c)) := by
  have hh31 : h < 2147483648 := by
    have := (static_cast_int32_range _ _ hh).2
    omega
  have hw31 : w < 2147483648 := by
    have := (static_cast_int32_range _ _ hw).2
    omega
  refine ⟨_, _, export_binary_eq_m T buffer h w ch hh hw hch hch1 hcount hoff,
    read_raw_matrix_spec_raw_file T buffer.buffer h w ch buffer.step hh31 hw31 hch31,
    rfl, token_width_spec T, rfl, rfl, rfl, ?_, ?_⟩
  · simp only [List.length_map]
    exact spec_written_indices_length _ _ _ _
  · intro y x c hy hx hc
    simp only [List.getElem?_map, spec_written_indices_at h w ch buffer.step y x c hy hx hc,
      Option.map_some']

/-- C4, amended, scenario C: the file of the 3x2 two-channel `int16` buffer reads back as the
header (2, 3, 2) and the twelve 2-byte samples 1 to 12. -/
theorem export_binary_round_trip_in_range_witness :
    (∃ file m, Machine.export_binary .int16_t true (Machine.of_ideal scenario_c)
        = .returned (some file) ∧
      read_raw_matrix file = some m ∧
      m.token = (spec_token .int16_t).toList.map Char.toNat ∧
      token_width m.token = some ElemType.int16_t.sizeof ∧
      m.height = (2 : Nat) ∧ m.width = (3 : Nat) ∧ m.channels = (2 : Nat) ∧
      m.samples.length = 2 * 3 * 2 ∧
      ∀ y x c : Nat, y < 2 → x < 3 → c < 2 →
        m.samples[(y * 3 + x) * 2 + c]?
          = some (elem_bytes .int16_t (Machine.of_ideal scenario_c).buffer
              ((y : Int) * (Machine.of_ideal scenario_c).step * (2 : Nat) + x * (2 : Nat)
                + c))) ∧
    read_raw_matrix
        [105, 110, 116, 49, 54, 10, 2, 0, 0, 0, 3, 0, 0, 0, 2, 0, 0, 0,
         1, 0, 2, 0, 3, 0, 4, 0, 5, 0, 6, 0, 7, 0, 8, 0, 9, 0, 10, 0, 11, 0, 12, 0]
      = some
        { token := [105, 110, 116, 49, 54], height := 2, width := 3, channels := 2,
          samples := [[1, 0], [2, 0], [3, 0], [4, 0], [5, 0], [6, 0],
                      [7, 0], [8, 0], [9, 0], [10, 0], [11, 0], [12, 0]] } :=
  ⟨export_binary_round_trip_in_range .int16_t (Machine.of_ideal scenario_c) 2 3 2
      (by decide!) (by decide!) rfl (by decide) (by decide) (by decide) (by decide),
    by decide⟩

end GdbImagewatch
